import Mathlib

set_option linter.dupNamespace false

/-!
# mock-server-client: expectation compiler and assertion engine

A shallow embedding of `expectation.go`, `options.go`, `mock.go`, `verification.go` and
`internal/client/model.go`.

Conventions of the embedding
* Go `string` and `[]byte` are both byte sequences; they are modelled by `String`, so that the
  conversion `string(b)` is the identity.
* Go `int` is modelled by `Int` (no arithmetic of the program can overflow: the only arithmetic is
  `len(xs)+1`, `len(xs)-i` and `len(xs)-1`).
* A Go `map[K]V` is modelled by an association list `GoMap K V` with `GoMap.get?` for lookup and
  `GoMap.set` for assignment. A `range` loop over a map visits the entries in list order; Go leaves the
  order unspecified, so statements that depend on it are made for every order of the list.
* A slice that the code only reads is the list of its elements. A slice that the code appends to
  is a window into a backing array (`Slice`), so that an append through shared storage is visible.
* A pointer that may be nil is an `Option`.
* A method with a pointer receiver is a function returning the new value of the receiver.
* `panic(...)` and runtime errors are values of `Abort`.
-/

namespace MockServerClient

/-! ## Values of type `interface{}` -/

/-- Dynamic values stored in an `interface{}`: request and response bodies, recorded header values. -/
inductive Value where
  | null
  | str (s : String)
  | bytes (b : String)
  | num (n : Int)
  | bool (b : Bool)
  | strs (xs : List String)
  | list (xs : List Value)
  | obj (fields : List (String × Value))

/-! ## Go maps -/

/-- A Go `map[K]V` as an association list; `[]` is both the nil and the empty map. The one map the
code writes to without having made it or tested it for nil, the target of `WithFormURLEncodedBody`,
is an `Option` of such a list (see `FormTarget`). -/
abbrev GoMap (K V : Type) := List (K × V)

namespace GoMap

/-- Lookup `m[k]` with the comma-ok idiom. -/
def get? {K V : Type} [DecidableEq K] (m : GoMap K V) (k : K) : Option V :=
  match m with
  | [] => none
  | (k', v) :: rest => if k' = k then some v else get? rest k

/-- Assignment `m[k] = v`: overwrite the entry of `k` when there is one, add one otherwise. -/
def set {K V : Type} [DecidableEq K] (m : GoMap K V) (k : K) (v : V) : GoMap K V :=
  match m with
  | [] => [(k, v)]
  | (k', v') :: rest => if k' = k then (k, v) :: rest else (k', v') :: set rest k v

/-- The builtin `delete(m, k)`. -/
def delete {K V : Type} [DecidableEq K] (m : GoMap K V) (k : K) : GoMap K V :=
  m.filter (fun kv => decide (kv.1 ≠ k))

end GoMap

/-! ## Aborts -/

/-- The ways a call can abort instead of returning. -/
inductive Abort where
  | panic (msg : String)
  | nilDereference
  | indexOutOfRange
  | interfaceConversion
  | nilMapAssignment
  deriving DecidableEq, Repr

/-! ## Errors and the test log -/

/-- An argument of a format call. -/
inductive FmtArg where
  | str (s : String)
  | int (n : Int)
  | val (v : Value)
  | strs (xs : List String)
  | vals (xs : List Value)

/-- An error value, kept unrendered: `errorf` is `fmt.Errorf(format, args...)` (and `errors.New`),
`wrapf` is `errors.Wrapf(cause, format, args...)`; the latter is only made from a non-nil cause
(`errors.Wrapf(nil, ...)` is nil). `errorfw` is `fmt.Errorf(format, args..., err)` whose format ends
in the verb `%w` for the wrapped error `err`. -/
inductive GoError where
  | errorf (format : String) (args : List FmtArg)
  | wrapf (cause : GoError) (format : String) (args : List FmtArg)
  | errorfw (format : String) (args : List FmtArg) (wrapped : GoError)

/-- An argument of `t.Errorf` and `t.Fatalf`. -/
inductive LogArg where
  | str (s : String)
  | int (n : Int)
  | err (e : GoError)

/-- One message handed to the reporting sink by `t.Errorf` or `t.Fatalf`, kept unrendered. -/
structure LogEntry where
  format : String
  args : List LogArg

/-! ## `internal/client/model.go` -/

namespace client

inductive TimeUnit where
  | DAYS | HOURS | MINUTES | SECONDS | MILLISECONDS | MICROSECONDS | NANOSECONDS
  deriving DecidableEq, Repr

structure HTTPRequest where
  Method : String
  Path : String
  PathParameters : GoMap String (List String)
  QueryStringParameters : GoMap String (List String)
  Headers : GoMap String Value
  Body : Value

structure Delay where
  TimeUnit : TimeUnit
  Value : Int
  deriving DecidableEq, Repr

structure HTTPResponse where
  Body : Value
  StatusCode : Int
  ReasonPhrase : String
  Headers : GoMap String Value
  Delay : Option Delay

structure HTTPError where
  Delay : Option Delay
  DropConnection : Bool
  ResponseBytes : String
  deriving DecidableEq, Repr

structure Times where
  RemainingTimes : Int
  Unlimited : Bool
  deriving DecidableEq, Repr

structure TimeToLive where
  TimeUnit : Option TimeUnit
  TimeToLive : Int
  Unlimited : Bool
  deriving DecidableEq, Repr

structure Expectation where
  ID : String
  Priority : Int
  HTTPRequest : Option HTTPRequest
  HTTPResponse : Option HTTPResponse
  Times : Option Times
  TimeToLive : Option TimeToLive
  HTTPError : Option HTTPError

/-- The zero value of `client.Expectation`, the content of a slot made by `make`. -/
def Expectation.zero : Expectation :=
  { ID := "", Priority := 0, HTTPRequest := none, HTTPResponse := none, Times := none,
    TimeToLive := none, HTTPError := none }

structure ExpectationID where
  ID : String
  deriving DecidableEq, Repr

structure ClearRequest where
  ExpectationID : ExpectationID
  deriving DecidableEq, Repr

/-- The interface `Client` (`internal/client/client.go`) as far as `mockServer` uses it here. The
implementation talks to the stub server over HTTP, so the answers are those of the environment:
`Expectation` is the answer to a push, given the rules pushed before it (`none` is the nil error);
`Retrieve` is the answer of the recorder; `Clear` is the answer to a clear request. -/
structure Client where
  Expectation : List client.Expectation → client.Expectation → Option GoError
  Retrieve : client.HTTPRequest → Except GoError (List client.HTTPRequest)
  Clear : ClearRequest → Option GoError

end client

/-! ## `expectation.go`: data -/

structure request where
  method : String
  path : String
  pathParams : GoMap String String
  queryParams : GoMap String String
  headers : GoMap String String
  body : Value

structure response where
  body : Value
  statusCode : Int
  reasonPhrase : String
  headers : GoMap String String
  /-- The `*time.Duration`, in nanoseconds. -/
  delay : Option Int
  drop : Bool
  errorBytes : String

/-- The zero value `response{}`. -/
def response.zero : response :=
  { body := Value.null, statusCode := 0, reasonPhrase := "", headers := [], delay := none,
    drop := false, errorBytes := "" }

/-- A compiled regular expression: its source text (`String()`) and its `MatchString`. -/
structure Regexp where
  source : String
  matchString : String → Bool

/-! ## `verification.go`: data -/

/-- The type `bodyDecoder func(interface{}) error`: the error the call returns (`none` is the nil
error), or the abort of the call. What a decoder writes to its target is not visible to the
verification; the decoders are modelled together with their targets in the section on body
decoders. -/
abbrev bodyDecoder := Value → Except Abort (Option GoError)

structure assertion where
  bodyDecoder : Option bodyDecoder
  requireBodyAssertion : Bool
  headers : GoMap String String
  headersRegexp : GoMap String Regexp
  noHeaders : GoMap String Unit
  queryParams : GoMap String String
  queryParamRegexp : GoMap String Regexp
  noQueryParams : GoMap String Unit
  path : String
  requirePathAssertion : Bool

/-- The result `&assertion{}` of `NewAssertion`. -/
def NewAssertion : assertion :=
  { bodyDecoder := none, requireBodyAssertion := false, headers := [], headersRegexp := [],
    noHeaders := [], queryParams := [], queryParamRegexp := [], noQueryParams := [], path := "",
    requirePathAssertion := false }

structure verification where
  path : String
  queryParams : GoMap String (List String)
  headers : GoMap String Value
  body : Value

/-! ## `expectation.go`: the expectation and its builder methods -/

/-- The struct `Expectation`. The `*request` is never nil (`newExpectation` sets it and nothing resets
it), `defaultResponse` is nil until `DefaultResponse` is called. The registered `*assertion` values
are taken to be non-nil, as `NewAssertion` and the assertion builders return them. -/
structure Expectation where
  id : String
  name : String
  request : request
  defaultResponse : Option response
  sequentialResponses : List response
  assertions : GoMap Int assertion
  numCalls : Int
  isBuilt : Bool

/-- The function `newExpectation`; `id` is the result of `uuid.NewString()`. -/
def newExpectation (id method path : String) : Expectation :=
  { id := id, name := "",
    request := { method := method, path := path, pathParams := [], queryParams := [], headers := [],
                 body := Value.null },
    defaultResponse := none, sequentialResponses := [], assertions := [], numCalls := 0,
    isBuilt := false }

abbrev RequestOption := request → request

abbrev ResponseOption := response → response

/-! ### `options.go` -/

def WithPathParameter (key value : String) : RequestOption :=
  fun r => { r with pathParams := r.pathParams.set key value }

def WithQueryParameter (key value : String) : RequestOption :=
  fun r => { r with queryParams := r.queryParams.set key value }

def WithRequestHeader (key value : String) : RequestOption :=
  fun r => { r with headers := r.headers.set key value }

def WithRequestBody (body : Value) : RequestOption :=
  fun r => { r with body := body }

def WithResponseHeader (key value : String) : ResponseOption :=
  fun r => { r with headers := r.headers.set key value }

def WithResponseBody (body : Value) : ResponseOption :=
  fun r => { r with body := body }

def WithStatusCode (s : Int) : ResponseOption :=
  fun r => { r with statusCode := s }

def WithDelay (s : Int) : ResponseOption :=
  fun r => { r with delay := some s }

def WithReason (s : String) : ResponseOption :=
  fun r => { r with reasonPhrase := s }

def WithDropConnection : ResponseOption :=
  fun r => { r with drop := true }

def WithErrorBytes (b : String) : ResponseOption :=
  fun r => { r with errorBytes := b }

/-- The loop `for _, opt := range opts { opt(r) }`. -/
def applyOpts {α : Type} (opts : List (α → α)) (r : α) : α :=
  opts.foldl (fun acc opt => opt acc) r

namespace Expectation

/-- The panic message of the three guarded builder methods. -/
def updateMsg : String := "unable to update assertion when it's already on mock server"

/-- The panic message of `build`. -/
def buildMsg : String := "unable to build assertion more then once"

def Request (e : Expectation) (opts : List RequestOption) : Except Abort Expectation :=
  if e.isBuilt then
    Except.error (Abort.panic updateMsg)
  else
    Except.ok { e with request := applyOpts opts e.request }

def DefaultResponse (e : Expectation) (opts : List ResponseOption) : Except Abort Expectation :=
  if e.isBuilt then
    Except.error (Abort.panic updateMsg)
  else
    Except.ok { e with defaultResponse := some (applyOpts opts response.zero) }

def SequentialResponse (e : Expectation) (opts : List ResponseOption) : Except Abort Expectation :=
  if e.isBuilt then
    Except.error (Abort.panic updateMsg)
  else
    Except.ok { e with sequentialResponses := e.sequentialResponses ++ [applyOpts opts response.zero] }

def NumCalls (e : Expectation) (value : Int) : Expectation :=
  { e with numCalls := value }

def AssertionAtCall (e : Expectation) (callNumber : Int) (a : assertion) : Expectation :=
  { e with assertions := e.assertions.set callNumber a }

def Name (e : Expectation) (name : String) : Expectation :=
  { e with name := name }

end Expectation

/-! ### Compilation to rules -/

/-- The function `delay`: nil for a nil or zero duration, the duration in whole milliseconds
otherwise (`Duration.Milliseconds` truncates toward zero). -/
def delay (t : Option Int) : Option client.Delay :=
  match t with
  | none => none
  | some d =>
    if d = 0 then none
    else some { TimeUnit := client.TimeUnit.MILLISECONDS, Value := Int.tdiv d 1000000 }

/-- The function `toClientMap`. -/
def toClientMap (m : GoMap String String) : GoMap String (List String) :=
  m.foldl (fun out kv => out.set kv.1 [kv.2]) []

/-- The function `toClientHeaders`. -/
def toClientHeaders (m : GoMap String String) : GoMap String Value :=
  m.foldl (fun out kv => out.set kv.1 (Value.strs [kv.2])) []

/-- The function `clientHttpRequest`. -/
def clientHttpRequest (req : request) : client.HTTPRequest :=
  { Method := req.method,
    Path := req.path,
    PathParameters := toClientMap req.pathParams,
    QueryStringParameters := toClientMap req.queryParams,
    Headers := toClientHeaders req.headers,
    Body := req.body }

/-- The function `newClientExpectation` on a non-nil `*response`; `id` is the result of its call of
`uuid.NewString()`. On a nil pointer the function aborts when it reads `res.drop`; that case is
handled where the pointer is passed, in `Expectation.build`. -/
def newClientExpectation (id : String) (res : response) : client.Expectation :=
  let e : client.Expectation :=
    { client.Expectation.zero with
      ID := id,
      TimeToLive := some { TimeUnit := none, TimeToLive := 0, Unlimited := true } }
  if res.drop then
    { e with
      HTTPError := some { Delay := delay res.delay, DropConnection := true,
                          ResponseBytes := res.errorBytes } }
  else
    { e with
      HTTPResponse := some { Body := res.body, StatusCode := res.statusCode,
                             ReasonPhrase := res.reasonPhrase,
                             Headers := toClientHeaders res.headers,
                             Delay := delay res.delay } }

/-- What a call of `build` leaves behind: the receiver after the call, the number of identifiers
drawn from `uuid.NewString` so far, and the returned rules or the abort. -/
structure BuildResult where
  receiver : Expectation
  nextUuid : Nat
  result : Except Abort (List client.Expectation)

/-- The loop `for i, response := range e.sequentialResponses` of `build`, from index `i` on.
The `i`-th identifier drawn in this call of `build` is `uuid (c + i)`. -/
def Expectation.buildLoop (uuid : Nat → String) (c : Nat) (httpRequest : client.HTTPRequest) :
    Nat → List response → List client.Expectation → List client.Expectation
  | _, [], expectations => expectations
  | i, response :: rest, expectations =>
    let exp := newClientExpectation (uuid (c + i)) response
    let exp := { exp with
      Times := some { RemainingTimes := 1, Unlimited := false },
      Priority := (expectations.length : Int) - (i : Int),
      HTTPRequest := some httpRequest }
    Expectation.buildLoop uuid c httpRequest (i + 1) rest (expectations.set i exp)

/-- The method `build`. `uuid` lists the successive results of `uuid.NewString()` and `c` counts
the ones already drawn. -/
def Expectation.build (uuid : Nat → String) (c : Nat) (e : Expectation) : BuildResult :=
  if e.isBuilt then
    { receiver := e, nextUuid := c, result := Except.error (Abort.panic Expectation.buildMsg) }
  else
    let e := { e with isBuilt := true }
    let expectations := List.replicate (e.sequentialResponses.length + 1) client.Expectation.zero
    let httpRequest := clientHttpRequest e.request
    let expectations := Expectation.buildLoop uuid c httpRequest 0 e.sequentialResponses expectations
    match e.defaultResponse with
    | none =>
      { receiver := e, nextUuid := c + e.sequentialResponses.length + 1,
        result := Except.error Abort.nilDereference }
    | some d =>
      let defaultExp := newClientExpectation (uuid (c + e.sequentialResponses.length)) d
      let defaultExp := { defaultExp with
        Times := some { RemainingTimes := 0, Unlimited := true },
        HTTPRequest := some httpRequest }
      { receiver := e, nextUuid := c + e.sequentialResponses.length + 1,
        result := Except.ok (expectations.set (expectations.length - 1) defaultExp) }

/-- The method `String`: the name, or the id when no name was given. (Declared after the other
methods: inside the namespace `Expectation` this name hides the type `String`.) -/
def Expectation.String (e : Expectation) : String :=
  if e.name ≠ "" then e.name else e.id

/-! ## `verification.go`: assertion builders used below -/

/-- The method `WithPath`. -/
def assertion.WithPath (a : assertion) (path : String) : assertion :=
  { a with path := path, requirePathAssertion := true }

/-- The method `AddHeader`: on a nil map it makes the map with the one entry, otherwise it assigns
the entry; on association lists both are `GoMap.set`. -/
def assertion.AddHeader (a : assertion) (key value : String) : assertion :=
  { a with headers := a.headers.set key value }

/-! ## `verification.go`: the assertions on one snapshot -/

/-- The comparison `s == value` of an `interface{}` with a string: true exactly when the dynamic
value is that string. -/
def Value.eqString (s : Value) (value : String) : Bool :=
  match s with
  | Value.str x => decide (x = value)
  | _ => false

namespace verification

def assertBody (v : verification) (decoder : bodyDecoder) : Except Abort (Option GoError) :=
  decoder v.body

def assertHeader (v : verification) (key value : String) : Option GoError :=
  match v.headers.get? key with
  | none => some (GoError.errorf "no expected header: %s" [FmtArg.str key])
  | some (Value.list av) =>
    if av.any (fun s => s.eqString value) then none
    else some (GoError.errorf "for header %s expected value %s; actual values %v"
      [FmtArg.str key, FmtArg.str value, FmtArg.vals av])
  | some Value.null =>
    some (GoError.errorf "expected header %s is not a string %+v" [FmtArg.str key, FmtArg.val Value.null])
  | some av =>
    if av.eqString value then none
    else some (GoError.errorf "for header %s expected value %s; actual value %s"
      [FmtArg.str key, FmtArg.str value, FmtArg.val av])

def assertHeaderRegexp (v : verification) (key : String) (r : Regexp) : Option GoError :=
  match v.headers.get? key with
  | none => some (GoError.errorf "no expected query parameter: %s" [FmtArg.str key])
  | some (Value.str av) =>
    if r.matchString av then none
    else some (GoError.errorf "header parameter %s : %s does not mathc pattern: %s"
      [FmtArg.str key, FmtArg.str av, FmtArg.str r.source])
  | some (Value.strs av) =>
    if av.any r.matchString then none
    else some (GoError.errorf "for header %s : %v no one mathces pattern: %s"
      [FmtArg.str key, FmtArg.val (Value.strs av), FmtArg.str r.source])
  | some (Value.list av) =>
    if av.any (fun h => match h with
        | Value.str header => r.matchString header
        | _ => false) then none
    else some (GoError.errorf "for header %s : %v no one mathces pattern: %s"
      [FmtArg.str key, FmtArg.val (Value.list av), FmtArg.str r.source])
  | some Value.null =>
    some (GoError.errorf
      "unable validate header %s by regexp %s as header values are not string %v"
      [FmtArg.str key, FmtArg.str r.source, FmtArg.val Value.null])
  | some av =>
    some (GoError.errorf "for header %s : %v no one mathces pattern: %s"
      [FmtArg.str key, FmtArg.val av, FmtArg.str r.source])

def assertNoHeader (v : verification) (key : String) : Option GoError :=
  match v.headers.get? key with
  | some val =>
    some (GoError.errorf "unexpected header found %v for key '%s'" [FmtArg.val val, FmtArg.str key])
  | none => none

def assertQueryParameter (v : verification) (key value : String) : Option GoError :=
  match v.queryParams.get? key with
  | none => some (GoError.errorf "no expected query parameter: %s" [FmtArg.str key])
  | some actualValue =>
    if actualValue.any (fun s => decide (s = value)) then none
    else some (GoError.errorf "for query parameter %s expected value %s; actual values %v"
      [FmtArg.str key, FmtArg.str value, FmtArg.strs actualValue])

def assertQueryParameterRegexp (v : verification) (key : String) (r : Regexp) : Option GoError :=
  match v.queryParams.get? key with
  | none => some (GoError.errorf "no expected query parameter: %s" [FmtArg.str key])
  | some actualValue =>
    if actualValue.any r.matchString then none
    else some (GoError.errorf "for query parameter %s : %v no one mathces pattern: %s"
      [FmtArg.str key, FmtArg.strs actualValue, FmtArg.str r.source])

def assertNoQueryParameter (v : verification) (key : String) : Option GoError :=
  match v.queryParams.get? key with
  | some val =>
    some (GoError.errorf "unexpected query parameter found %v for key '%s'"
      [FmtArg.strs val, FmtArg.str key])
  | none => none

def assertPath (v : verification) (path : String) : Option GoError :=
  if v.path = path then none
  else some (GoError.errorf "expected path %s; actual path %s" [FmtArg.str path, FmtArg.str v.path])

end verification

/-! ## `verification.go`: the body decoders

The closures that `WithJsonBody`, `WithFormURLEncodedBody`, `WithPlainTextBody` and `WithNoBody`
store in `bodyDecoder`. A closure that writes to a target takes the content of the target and
returns the content after the call together with the returned error. The target of `WithJsonBody`
and of `WithPlainTextBody` is what a non-nil pointer refers to. The target of
`WithFormURLEncodedBody` is a `map[string][]string` that may be nil and whose values are slices, so
it is modelled with the backing arrays of the slices (`FormTarget`). -/

/-- The function `strings.Split` for a separator of one character, on the characters of the
string: the pieces between the occurrences of `sep`, one more than there are occurrences. -/
def splitChars (sep : Char) : List Char → List (List Char)
  | [] => [[]]
  | c :: cs =>
    if c = sep then [] :: splitChars sep cs
    else
      match splitChars sep cs with
      | [] => [[c]]
      | seg :: rest => (c :: seg) :: rest

/-- The call `strings.Split(s, sep)` for a separator of one character. -/
def stringsSplit (s : String) (sep : Char) : List String :=
  (splitChars sep s.toList).map String.mk

/-- The part of the package `encoding/json` that the decoders rely on and that is not fixed by the
shape of the value alone: `parse` gives the JSON value a raw text encodes and is `none` exactly when
`json.Valid` is false; `base64` is the encoding `json.Marshal` applies to a byte slice; `mapError`
is the error of `json.Unmarshal` into a `map[string]interface{}` for a JSON value that is neither an
object nor null. -/
structure EncodingJson where
  parse : String → Option Value
  base64 : String → String
  mapError : Value → GoError

mutual

/-- The JSON value that `json.Marshal` writes for a value, as `json.Unmarshal` reads it back into an
`interface{}`: a byte slice becomes its base64 string, a `[]string` becomes a list of strings, the
other shapes are kept. Every shape of `Value` can be marshalled, so `json.Marshal` does not fail. -/
def Value.json (base64 : String → String) : Value → Value
  | Value.null => Value.null
  | Value.str s => Value.str s
  | Value.bytes b => Value.str (base64 b)
  | Value.num n => Value.num n
  | Value.bool b => Value.bool b
  | Value.strs xs => Value.list (xs.map Value.str)
  | Value.list xs => Value.list (Value.jsonList base64 xs)
  | Value.obj fields => Value.obj (Value.jsonFields base64 fields)

/-- The function `Value.json` on the elements of a list. -/
def Value.jsonList (base64 : String → String) : List Value → List Value
  | [] => []
  | x :: xs => Value.json base64 x :: Value.jsonList base64 xs

/-- The function `Value.json` on the fields of an object. -/
def Value.jsonFields (base64 : String → String) : List (String × Value) → List (String × Value)
  | [] => []
  | (k, v) :: rest => (k, Value.json base64 v) :: Value.jsonFields base64 rest

end

/-- The two statements `bytes, err := json.Marshal(actualBody)` and `json.Unmarshal(bytes, &m)` with
`m` an empty `map[string]interface{}`: an object gives its fields, null leaves the map empty, every
other value is an error of `json.Unmarshal`. -/
def EncodingJson.toMap (json : EncodingJson) (actualBody : Value) :
    Except GoError (GoMap String Value) :=
  match Value.json json.base64 actualBody with
  | Value.null => Except.ok []
  | Value.obj fields => Except.ok fields
  | v => Except.error (json.mapError v)

/-- The value `m["type"]` that the switch of a decoder inspects; nil when the key is missing. -/
def typeOf (m : GoMap String Value) : Value :=
  (m.get? "type").getD Value.null

/-- The clauses `case []byte` and `case string` of the decoder of `WithJsonBody`, on the raw text.
`unmarshal v t` is `json.Unmarshal(data, expectedBody)` for a `data` that encodes the JSON value `v`
and a target holding `t`: the content of the target after the call and the returned error. -/
def WithJsonBody.raw {T : Type} (json : EncodingJson)
    (unmarshal : Value → T → T × Option GoError) (expectedBody : T) (body : String) :
    Except Abort (T × Option GoError) :=
  match json.parse body with
  | none =>
    Except.ok (expectedBody,
      some (GoError.errorf "request %s was invalid json" [FmtArg.str body]))
  | some v => Except.ok (unmarshal v expectedBody)

/-- The clause `default` of the decoder of `WithJsonBody`, up to the `return` that follows the inner
switch. -/
def WithJsonBody.wrapped {T : Type} (json : EncodingJson)
    (unmarshal : Value → T → T × Option GoError) (expectedBody : T) (actualBody : Value) :
    Except Abort (T × Option GoError) :=
  match json.toMap actualBody with
  | Except.error err =>
    Except.ok (expectedBody,
      some (GoError.errorfw "unable to unmarshal request %v: %w" [FmtArg.val actualBody] err))
  | Except.ok m =>
    if (typeOf m).eqString "JSON" then
      match m.get? "json" with
      | none =>
        Except.ok (expectedBody,
          some (GoError.errorf "no string parameters in json [%v]" [FmtArg.val actualBody]))
      | some detectedBody =>
        match unmarshal detectedBody expectedBody with
        | (t, some err) =>
          Except.ok (t,
            some (GoError.errorfw "unable to unmarshal request %v: %w"
              [FmtArg.val detectedBody] err))
        | (t, none) =>
          Except.ok (t,
            some (GoError.errorf "request %v is not in expected format"
              [FmtArg.val actualBody]))
    else
      Except.ok (expectedBody,
        some (GoError.errorf "unknown json type, expected one of [%v]; got %v"
          [FmtArg.strs ["JSON"], FmtArg.val (typeOf m)]))

/-- The decoder of `WithJsonBody`: the type switch on the recorded body. -/
def WithJsonBody.bodyDecoder {T : Type} (json : EncodingJson)
    (unmarshal : Value → T → T × Option GoError) (expectedBody : T) (actualBody : Value) :
    Except Abort (T × Option GoError) :=
  match actualBody with
  | Value.bytes body => WithJsonBody.raw json unmarshal expectedBody body
  | Value.str body => WithJsonBody.raw json unmarshal expectedBody body
  | _ => WithJsonBody.wrapped json unmarshal expectedBody actualBody

/-- A value of type `[]string`: the address of the backing array, the offset of the first element
in that array, the length and the capacity. The nil slice and the slice `[]string{}` have capacity
0; the code does not distinguish them. -/
structure Slice where
  array : Nat
  offset : Nat
  len : Nat
  cap : Nat
  deriving DecidableEq, Repr

/-- The backing arrays allocated so far; the address of an array is its index. -/
abbrev Arrays := List (List String)

/-- The slice `[]string{}`. -/
def Slice.empty : Slice :=
  { array := 0, offset := 0, len := 0, cap := 0 }

/-- The elements `s[0], ..., s[len(s)-1]` of a slice, read from its backing array. -/
def Slice.elems (s : Slice) (arrays : Arrays) : List String :=
  ((arrays.getD s.array []).drop s.offset).take s.len

/-- The builtin `append(s, x)` for one element. With spare capacity the element is written into the
backing array right behind the slice, whoever else refers to that cell, and the result is the same
window one element longer. Without spare capacity the elements are copied into a new array;
`growth c` is the number of spare cells the runtime adds when it grows a slice of capacity `c` by one
element (they hold the zero value). -/
def Slice.append (growth : Nat → Nat) (arrays : Arrays) (s : Slice) (x : String) :
    Arrays × Slice :=
  if s.len < s.cap then
    (arrays.set s.array ((arrays.getD s.array []).set (s.offset + s.len) x),
      { s with len := s.len + 1 })
  else
    (arrays ++ [s.elems arrays ++ x :: List.replicate (growth s.cap) ""],
      { array := arrays.length, offset := 0, len := s.len + 1, cap := s.len + 1 + growth s.cap })

/-- The target of the decoder of `WithFormURLEncodedBody`: the map `expectedBody` the closure has
captured (`none` is the nil map) and the backing arrays its slices refer to. -/
structure FormTarget where
  arrays : Arrays
  expectedBody : Option (GoMap String Slice)

/-- The loop `for _, pair := range pairs` of the decoder of `WithFormURLEncodedBody`. The lookup
`expectedBody[kv[0]]` reads a nil map like an empty one; the assignment `expectedBody[kv[0]] = params`
aborts on a nil map. -/
def WithFormURLEncodedBody.loop (growth : Nat → Nat) :
    List String → FormTarget → Except Abort (FormTarget × Option GoError)
  | [], target => Except.ok (target, none)
  | pair :: rest, target =>
    match stringsSplit pair '=' with
    | [k, v] =>
      let params := (GoMap.get? (target.expectedBody.getD []) k).getD Slice.empty
      let appended := Slice.append growth target.arrays params v
      match target.expectedBody with
      | none => Except.error Abort.nilMapAssignment
      | some expectedBody =>
        WithFormURLEncodedBody.loop growth rest
          { arrays := appended.1, expectedBody := some (GoMap.set expectedBody k appended.2) }
    | kv =>
      Except.ok (target,
        some (GoError.errorf "form parameter violates requirements %v" [FmtArg.strs kv]))

/-- The decoder of `WithFormURLEncodedBody`. The type assertion `line.(string)` aborts when the
value under `string` is not a string. -/
def WithFormURLEncodedBody.bodyDecoder (json : EncodingJson) (growth : Nat → Nat)
    (expectedBody : FormTarget) (actualBody : Value) :
    Except Abort (FormTarget × Option GoError) :=
  match json.toMap actualBody with
  | Except.error err =>
    Except.ok (expectedBody,
      some (GoError.errorfw "unable to unmarshal request %v: %w" [FmtArg.val actualBody] err))
  | Except.ok m =>
    if (typeOf m).eqString "STRING" then
      match m.get? "string" with
      | none =>
        Except.ok (expectedBody,
          some (GoError.errorf "no string parameters in form [%v]" [FmtArg.val actualBody]))
      | some (Value.str line) =>
        WithFormURLEncodedBody.loop growth (stringsSplit line '&') expectedBody
      | some _ => Except.error Abort.interfaceConversion
    else
      Except.ok (expectedBody,
        some (GoError.errorf "unknown form type, expected one of [%v]; got %v"
          [FmtArg.strs ["STRING"], FmtArg.val (typeOf m)]))

/-- The decoder of `WithPlainTextBody`. -/
def WithPlainTextBody.bodyDecoder (expectedBody : String) (actualBody : Value) :
    Except Abort (String × Option GoError) :=
  match actualBody with
  | Value.bytes body => Except.ok (body, none)
  | Value.str body => Except.ok (body, none)
  | _ =>
    Except.ok (expectedBody,
      some (GoError.errorf "expected body can not be interpretade as string %v"
        [FmtArg.val actualBody]))

/-- The decoder of `WithNoBody`; it has no target. -/
def WithNoBody.bodyDecoder : bodyDecoder := fun actualBody =>
  match actualBody with
  | Value.null => Except.ok none
  | _ =>
    Except.ok (some (GoError.errorf "expected no body, but got %v" [FmtArg.val actualBody]))

/-! ## `mock.go`: the mock server -/

/-- The struct `mockServer`. A `*Expectation` is an address in the heap of `World`. -/
structure mockServer where
  client : client.Client
  expectations : GoMap String Nat

/-- What the methods of `mockServer` read and write outside the struct: the `Expectation` objects
that pointers refer to (a pointer is an index of `heap`; an index outside it is the nil pointer), the
number of identifiers drawn from `uuid.NewString`, and the rules passed to `client.Expectation` so
far, in order. -/
structure World where
  heap : List Expectation
  nextUuid : Nat
  pushed : List client.Expectation

/-- What a call leaves behind: the world after it, and the returned error (`none` is nil) or the
abort. -/
structure CallResult where
  world : World
  result : Except Abort (Option GoError)

/-- The inner loop of `Setup`, `for _, e := range expectation.build()`: push the rules in order and
stop at the first error. Returns the log of pushes and the error to return, if any. -/
def mockServer.pushLoop (m : mockServer) :
    List client.Expectation → List client.Expectation → List client.Expectation × Option GoError
  | [], pushed => (pushed, none)
  | e :: rest, pushed =>
    match m.client.Expectation pushed e with
    | some err =>
      (pushed ++ [e], some (GoError.wrapf err "unable to setup expectation %s" [FmtArg.str e.ID]))
    | none => mockServer.pushLoop m rest (pushed ++ [e])

/-- The method `Setup`, on the list of pointers it is given. -/
def mockServer.Setup (m : mockServer) (uuid : Nat → String) : World → List Nat → CallResult
  | w, [] => { world := w, result := Except.ok none }
  | w, p :: rest =>
    match w.heap[p]? with
    | none => { world := w, result := Except.error Abort.nilDereference }
    | some expectation =>
      let b := expectation.build uuid w.nextUuid
      let w1 : World := { w with heap := w.heap.set p b.receiver, nextUuid := b.nextUuid }
      match b.result with
      | Except.error a => { world := w1, result := Except.error a }
      | Except.ok rules =>
        match mockServer.pushLoop m rules w1.pushed with
        | (pushed, some err) =>
          { world := { w1 with pushed := pushed }, result := Except.ok (some err) }
        | (pushed, none) => mockServer.Setup m uuid { w1 with pushed := pushed } rest

/-! ### Verification -/

/-- How a call that reports to a `*testing.T` ends: it returns an error value (`none` is nil), or
the test is stopped by `t.FailNow` (also at the end of `t.Fatalf`), or the call aborts. -/
inductive Exit where
  | returned (err : Option GoError)
  | failNow
  | abort (a : Abort)

/-- What `verifyExpectation` leaves behind: the messages it passed to `t.Errorf` and `t.Fatalf`, in
order, and how it ended. -/
structure VerifyResult where
  log : List LogEntry
  exit : Exit

/-- The local state of the assertion loop of `verifyExpectation`: the messages reported so far and
the variable `fail`. -/
structure VerifyState where
  log : List LogEntry
  fail : Bool

/-- The format of the `t.Fatalf` call for a failed retrieval. -/
def retrieveFormat : String :=
  "FAIL assertion:\nExpectation name [%s]\nReason: unable to verify expectation %s"

/-- The format of the `t.Fatalf` call for a call-count mismatch. -/
def numCallsFormat : String :=
  "FAIL assertion:\nExpectation name [%s]\nReason: expected num calls to %s: %d; actual: %d"

/-- The format of the `t.Errorf` call of the closure `asserErr`. -/
def assertionFormat : String :=
  "FAIL assertion:\nExpectation name [%s]\nAssertion at call [%d]\nReason: %s"

/-- The closure `asserErr` of `verifyExpectation`, on the state it captures. -/
def asserErr (name : String) (st : VerifyState) (id : Int) (err : Option GoError) : VerifyState :=
  match err with
  | none => st
  | some err =>
    { log := st.log ++ [{ format := assertionFormat,
                          args := [LogArg.str name, LogArg.int id, LogArg.err err] }],
      fail := true }

/-- The body of the assertion loop of `verifyExpectation` for an index inside the snapshots: every
configured constraint of `a` is evaluated on `ver`, in the order of the source. Calling a nil
`bodyDecoder` aborts, and so does a decoder that aborts. -/
def assertAt (name : String) (i : Int) (a : assertion) (ver : verification) (st : VerifyState) :
    Except Abort VerifyState :=
  let afterBody : Except Abort VerifyState :=
    if a.requireBodyAssertion then
      match a.bodyDecoder with
      | none => Except.error Abort.nilDereference
      | some decoder =>
        match ver.assertBody decoder with
        | Except.error x => Except.error x
        | Except.ok err => Except.ok (asserErr name st i err)
    else Except.ok st
  match afterBody with
  | Except.error x => Except.error x
  | Except.ok st =>
    let st := if a.requirePathAssertion then asserErr name st i (ver.assertPath a.path) else st
    let st := a.queryParamRegexp.foldl
      (fun st kv => asserErr name st i (ver.assertQueryParameterRegexp kv.1 kv.2)) st
    let st := a.queryParams.foldl
      (fun st kv => asserErr name st i (ver.assertQueryParameter kv.1 kv.2)) st
    let st := a.noQueryParams.foldl
      (fun st kv => asserErr name st i (ver.assertNoQueryParameter kv.1)) st
    let st := a.headers.foldl
      (fun st kv => asserErr name st i (ver.assertHeader kv.1 kv.2)) st
    let st := a.headersRegexp.foldl
      (fun st kv => asserErr name st i (ver.assertHeaderRegexp kv.1 kv.2)) st
    let st := a.noHeaders.foldl
      (fun st kv => asserErr name st i (ver.assertNoHeader kv.1)) st
    Except.ok st

/-- The loop `for i, a := range expectation.assertions` of `verifyExpectation`. Indexing the
snapshots with a negative `i` aborts. Returns the state reached and the abort, if any. -/
def verifyLoop (name : String) (verifications : List verification) :
    List (Int × assertion) → VerifyState → VerifyState × Option Abort
  | [], st => (st, none)
  | (i, a) :: rest, st =>
    if (verifications.length : Int) ≤ i then
      let st := asserErr name st i
        (some (GoError.errorf "assertion index %d is out of bounds made calls %d"
          [FmtArg.int i, FmtArg.int verifications.length]))
      let st := { st with fail := true }
      verifyLoop name verifications rest st
    else if i < 0 then (st, some Abort.indexOutOfRange)
    else
      match verifications[i.toNat]? with
      | none => (st, some Abort.indexOutOfRange)
      | some ver =>
        match assertAt name i a ver st with
        | Except.error x => (st, some x)
        | Except.ok st => verifyLoop name verifications rest st

/-- The method `verifications`: the snapshots the recorder returns for the request matcher of the
expectation, or the wrapped transport error. -/
def mockServer.verifications (m : mockServer) (expectation : Expectation) :
    Except GoError (List verification) :=
  match m.client.Retrieve (clientHttpRequest expectation.request) with
  | Except.error err =>
    Except.error (GoError.wrapf err "unable to get verifications for expectation %s"
      [FmtArg.str expectation.id])
  | Except.ok rs =>
    Except.ok (rs.map (fun r =>
      { path := r.Path, queryParams := r.QueryStringParameters, headers := r.Headers,
        body := r.Body }))

/-- The method `verifyExpectation`. -/
def mockServer.verifyExpectation (m : mockServer) (expectation : Expectation) : VerifyResult :=
  if expectation.numCalls = 0 ∧ expectation.assertions.length = 0 then
    { log := [], exit := Exit.returned none }
  else
    let name := expectation.String
    match m.verifications expectation with
    | Except.error _ =>
      { log := [{ format := retrieveFormat,
                  args := [LogArg.str name, LogArg.str expectation.id] }],
        exit := Exit.failNow }
    | Except.ok verifications =>
      if expectation.numCalls ≠ 0 ∧ (verifications.length : Int) ≠ expectation.numCalls then
        { log := [{ format := numCallsFormat,
                    args := [LogArg.str name, LogArg.str expectation.request.path,
                             LogArg.int expectation.numCalls, LogArg.int verifications.length] }],
          exit := Exit.failNow }
      else
        match verifyLoop name verifications expectation.assertions { log := [], fail := false } with
        | (st, some x) => { log := st.log, exit := Exit.abort x }
        | (st, none) =>
          if st.fail then { log := st.log, exit := Exit.failNow }
          else { log := st.log, exit := Exit.returned none }

/-- The method `VerifyExpectation`. -/
def mockServer.VerifyExpectation (m : mockServer) (expectation : Expectation) : VerifyResult :=
  m.verifyExpectation expectation

/-- The loop of the method `Verify` over the entries of `m.expectations`, with the messages
reported so far. A returned error is wrapped and returned; a stopped test or an abort ends the
loop. -/
def mockServer.verifyAll (m : mockServer) (heap : List Expectation) :
    List (String × Nat) → List LogEntry → VerifyResult
  | [], log => { log := log, exit := Exit.returned none }
  | (_, p) :: rest, log =>
    match heap[p]? with
    | none => { log := log, exit := Exit.abort Abort.nilDereference }
    | some expectation =>
      let r := m.verifyExpectation expectation
      match r.exit with
      | Exit.returned none => mockServer.verifyAll m heap rest (log ++ r.log)
      | Exit.returned (some err) =>
        { log := log ++ r.log,
          exit := Exit.returned (some (GoError.wrapf err "verification failed on expectation %s"
            [FmtArg.str expectation.id])) }
      | Exit.failNow => { log := log ++ r.log, exit := Exit.failNow }
      | Exit.abort a => { log := log ++ r.log, exit := Exit.abort a }

/-- The method `Verify`. -/
def mockServer.Verify (m : mockServer) (w : World) : VerifyResult :=
  mockServer.verifyAll m w.heap m.expectations []

/-- What a call of `Clear` leaves behind: the mock server after the call, the request passed to
`client.Clear` (if the call got that far), and the returned error (`none` is nil) or the abort. -/
structure ClearResult where
  server : mockServer
  sent : Option client.ClearRequest
  result : Except Abort (Option GoError)

/-- The method `Clear`, for the expectation at address `p`. -/
def mockServer.Clear (m : mockServer) (w : World) (p : Nat) : ClearResult :=
  match w.heap[p]? with
  | none => { server := m, sent := none, result := Except.error Abort.nilDereference }
  | some expectation =>
    let rq : client.ClearRequest := { ExpectationID := { ID := expectation.id } }
    match m.client.Clear rq with
    | some err =>
      { server := m, sent := some rq,
        result := Except.ok (some (GoError.wrapf err "unable to remove expectation %s"
          [FmtArg.str expectation.id])) }
    | none =>
      { server := { m with expectations := m.expectations.delete expectation.id },
        sent := some rq, result := Except.ok none }

/-! ## The matching substrate -/

namespace substrate

/-- Modelled from the spec: the matching substrate is the external stub server and has no code in
this repository. A rule is eligible when it is unlimited or its remaining times are positive; a rule
without a times constraint counts as unlimited. -/
def eligible (r : client.Expectation) : Bool :=
  match r.Times with
  | none => true
  | some t => t.Unlimited || decide (0 < t.RemainingTimes)

/-- Modelled from the spec: the matching substrate, which has no code in this repository. Index and
priority of the eligible rule of highest priority, the earliest one among equal priorities; `none`
when no rule is eligible. -/
def best : List client.Expectation → Option (Nat × Int)
  | [] => none
  | r :: rest =>
    match best rest with
    | none => if eligible r then some (0, r.Priority) else none
    | some (j, p) =>
      if eligible r && decide (p ≤ r.Priority) then some (0, r.Priority) else some (j + 1, p)

/-- Modelled from the spec: the matching substrate, which has no code in this repository. Using a
limited rule decrements its remaining times; an unlimited rule is left as it is. -/
def consume (r : client.Expectation) : client.Expectation :=
  match r.Times with
  | none => r
  | some t =>
    if t.Unlimited then r
    else { r with Times := some { t with RemainingTimes := t.RemainingTimes - 1 } }

/-- Modelled from the spec: the matching substrate, which has no code in this repository. One call:
it is answered with the eligible rule of highest priority (its index and the rule), and that rule is
consumed. -/
def call (rules : List client.Expectation) :
    Option (Nat × client.Expectation) × List client.Expectation :=
  match best rules with
  | none => (none, rules)
  | some (i, _) =>
    match rules[i]? with
    | none => (none, rules)
    | some r => (some (i, r), rules.set i (consume r))

/-- The rules held by the substrate after `n` calls. -/
def after (rules : List client.Expectation) : Nat → List client.Expectation
  | 0 => rules
  | n + 1 => (call (after rules n)).2

/-- The answer to call `j` (0-indexed): the index of the rule used and the rule. -/
def answer (rules : List client.Expectation) (j : Nat) : Option (Nat × client.Expectation) :=
  (call (after rules j)).1

end substrate


/-! ### The expected reports of the assertion loop, stated declaratively -/

/-- The message `asserErr` reports for the error `err` of the assertion at call `i`. -/
def reportOf (name : String) (i : Int) (err : GoError) : LogEntry :=
  { format := assertionFormat, args := [LogArg.str name, LogArg.int i, LogArg.err err] }

/-- The outcome of every configured constraint of `a` on the snapshot `ver`, one entry per
constraint (`none` for a constraint that holds): the body, the path, each regex, exact and absence
query entry, each exact, regex and absence header entry. -/
def assertion.outcomes (a : assertion) (ver : verification) : List (Option GoError) :=
  (if a.requireBodyAssertion then
      match a.bodyDecoder with
      | some decoder =>
        match ver.assertBody decoder with
        | Except.ok err => [err]
        | Except.error _ => []
      | none => []
    else []) ++
  (if a.requirePathAssertion then [ver.assertPath a.path] else []) ++
  a.queryParamRegexp.map (fun kv => ver.assertQueryParameterRegexp kv.1 kv.2) ++
  a.queryParams.map (fun kv => ver.assertQueryParameter kv.1 kv.2) ++
  a.noQueryParams.map (fun kv => ver.assertNoQueryParameter kv.1) ++
  a.headers.map (fun kv => ver.assertHeader kv.1 kv.2) ++
  a.headersRegexp.map (fun kv => ver.assertHeaderRegexp kv.1 kv.2) ++
  a.noHeaders.map (fun kv => ver.assertNoHeader kv.1)

/-- The failures among the outcomes: one error per failing constraint. -/
def assertion.failures (a : assertion) (ver : verification) : List GoError :=
  (a.outcomes ver).filterMap id

/-- The reports expected for one entry of the assertion map: the out-of-bounds report when the
index is not below the number of snapshots, one report per failing constraint otherwise. -/
def expectedReports (name : String) (verifications : List verification) (entry : Int × assertion) :
    List LogEntry :=
  if (verifications.length : Int) ≤ entry.1 then
    [reportOf name entry.1
      (GoError.errorf "assertion index %d is out of bounds made calls %d"
        [FmtArg.int entry.1, FmtArg.int verifications.length])]
  else
    match verifications[entry.1.toNat]? with
    | some ver => (entry.2.failures ver).map (reportOf name entry.1)
    | none => []

/-! ### The assertions and decoders, stated declaratively -/

/-- The actual values of a recorded header that are strings: the scalar itself when it is a string,
the elements of a `[]string`, the string elements of a `[]interface{}`; no value otherwise. -/
def Value.stringValues : Value → List String
  | Value.str s => [s]
  | Value.strs xs => xs
  | Value.list xs =>
    xs.filterMap (fun x => match x with
      | Value.str s => some s
      | _ => none)
  | _ => []

/-- The discriminator of a wrapper object as a decoder reads it: the field `type` after the body
went through `json.Marshal` and `json.Unmarshal`, nil when the field is missing. -/
def discriminator (json : EncodingJson) (fields : GoMap String Value) : Value :=
  ((GoMap.get? fields "type").map (Value.json json.base64)).getD Value.null

/-- The key of a pair `key=value`: what stands before the first `=`. -/
def formKey (pair : String) : String :=
  String.mk (pair.toList.takeWhile (fun c => c ≠ '='))

/-- The value of a pair `key=value`: what stands after the first `=`. -/
def formValue (pair : String) : String :=
  String.mk ((pair.toList.dropWhile (fun c => c ≠ '=')).drop 1)

/-- The values of the pairs of the line that have the given key, in their order in the line. -/
def formValues (line key : String) : List String :=
  ((stringsSplit line '&').filter (fun pair => formKey pair = key)).map formValue

/-- A slice lies within its backing array. -/
def Slice.valid (s : Slice) (arrays : Arrays) : Prop :=
  s.len ≤ s.cap ∧ s.offset + s.cap ≤ (arrays.getD s.array []).length

/-- Two slices whose storage, the cells `offset, ..., offset + cap - 1` of the backing array, does
not overlap. -/
def Slice.apart (a b : Slice) : Prop :=
  a.array ≠ b.array ∨ a.offset + a.cap ≤ b.offset ∨ b.offset + b.cap ≤ a.offset

/-- A form target whose map is not nil and whose slices lie within their arrays and do not share
storage. -/
def FormTarget.separate (target : FormTarget) : Prop :=
  ∃ m, target.expectedBody = some m ∧ (∀ kv ∈ m, kv.2.valid target.arrays) ∧
    m.Pairwise (fun a b => a.2.apart b.2)

/-- What the caller reads from the map of a form target: for each key the elements of its slice. A
nil map reads like an empty one. -/
def FormTarget.contents (target : FormTarget) : GoMap String (List String) :=
  (target.expectedBody.getD []).map (fun kv => (kv.1, kv.2.elems target.arrays))

/-- The loop of the form decoder as a function on the contents of the map, for a map that is not
nil and whose slices do not share storage: the value of a pair is put behind the values of its key. -/
def contentsLoop :
    List String → GoMap String (List String) → GoMap String (List String) × Option GoError
  | [], contents => (contents, none)
  | pair :: rest, contents =>
    match stringsSplit pair '=' with
    | [k, v] => contentsLoop rest (contents.set k ((contents.get? k).getD [] ++ [v]))
    | kv =>
      (contents,
        some (GoError.errorf "form parameter violates requirements %v" [FmtArg.strs kv]))

mutual

/-- The values `json.Unmarshal` stores in an `interface{}`: nil, a bool, a number, a string, a
`[]interface{}` and a `map[string]interface{}` of such values; never a `[]byte` or a `[]string`. -/
def Value.decoded : Value → Bool
  | Value.null => true
  | Value.str _ => true
  | Value.bytes _ => false
  | Value.num _ => true
  | Value.bool _ => true
  | Value.strs _ => false
  | Value.list xs => Value.decodedList xs
  | Value.obj fields => Value.decodedFields fields

/-- The predicate `Value.decoded` on the elements of a list. -/
def Value.decodedList : List Value → Bool
  | [] => true
  | x :: xs => Value.decoded x && Value.decodedList xs

/-- The predicate `Value.decoded` on the fields of an object. -/
def Value.decodedFields : List (String × Value) → Bool
  | [] => true
  | (_, v) :: rest => Value.decoded v && Value.decodedFields rest

end

/-! ### Auxiliary definitions used in statements and proofs -/

/-- The rule that iteration `i` of the loop of `build` stores at index `i`, when the slice of rules
has length `len`. -/
def sequentialRule (uuid : Nat → String) (c : Nat) (h : client.HTTPRequest) (len : Nat)
    (i : Nat) (r : response) : client.Expectation :=
  { newClientExpectation (uuid (c + i)) r with
    Times := some { RemainingTimes := 1, Unlimited := false },
    Priority := (len : Int) - (i : Int),
    HTTPRequest := some h }

/-- The rule that `build` stores in the last slot, index `k`, for the default response `d`. -/
def defaultRule (uuid : Nat → String) (c : Nat) (h : client.HTTPRequest) (k : Nat)
    (d : response) : client.Expectation :=
  { newClientExpectation (uuid (c + k)) d with
    Times := some { RemainingTimes := 0, Unlimited := true },
    HTTPRequest := some h }

/-! ### Sample inputs -/

/-- A sample identifier source. -/
def exampleUuid : Nat → String := fun n => "uuid-" ++ toString n

/-- A sample expectation: two sequential responses (200, 201) and a default response (404). -/
def exampleExpectation : Expectation :=
  { newExpectation "e-1" "GET" "/pets" with
    defaultResponse := some (WithStatusCode 404 response.zero),
    sequentialResponses := [WithStatusCode 200 response.zero, WithStatusCode 201 response.zero] }

/-- The sample expectation after its compilation. -/
def exampleFinalized : Expectation := (exampleExpectation.build exampleUuid 0).receiver

/-- A sample mock server whose registrar accepts every push and whose recorder has seen no call. -/
def exampleServer : mockServer :=
  { client := { Expectation := fun _ _ => none, Retrieve := fun _ => Except.ok [],
                Clear := fun _ => none },
    expectations := [("e-1", 0)] }

/-- A sample world: the sample expectation at address 0, nothing pushed yet. -/
def exampleWorld : World :=
  { heap := [exampleExpectation], nextUuid := 0, pushed := [] }

/-- A sample recorded call: `GET /pets/1` with a user agent header. -/
def exampleSnapshot : client.HTTPRequest :=
  { Method := "GET", Path := "/pets/1", PathParameters := [], QueryStringParameters := [],
    Headers := [("User-Agent", Value.list [Value.str "Go-http-client/1.1"])], Body := Value.null }

/-- A sample mock server whose recorder returns the given snapshots. -/
def exampleRecorder (snapshots : List client.HTTPRequest) : mockServer :=
  { client := { Expectation := fun _ _ => none, Retrieve := fun _ => Except.ok snapshots,
                Clear := fun _ => none },
    expectations := [("e-1", 0)] }

/-- A sample assertion with two constraints that the sample snapshot violates: another path and a
header that was not sent. -/
def exampleAssertion : assertion :=
  (NewAssertion.WithPath "/pets/2").AddHeader "X-Token" "abc"

/-- The sample snapshot as a `verification`. -/
def exampleVerification : verification :=
  { path := "/pets/1", queryParams := [],
    headers := [("User-Agent", Value.list [Value.str "Go-http-client/1.1"])], body := Value.null }

/-- The sample expectation with the call-count constraint `n` and the sample assertion at call `i`. -/
def exampleAsserted (n i : Int) : Expectation :=
  (exampleExpectation.NumCalls n).AssertionAtCall i exampleAssertion

/-- A sample of `encoding/json` that knows two raw texts, `[1]` and `null`, and leaves byte slices
as they are. -/
def exampleJson : EncodingJson :=
  { parse := fun s =>
      if s = "[1]" then some (Value.list [Value.num 1])
      else if s = "null" then some Value.null
      else none,
    base64 := fun b => b,
    mapError := fun _ => GoError.errorf "json: cannot unmarshal value into Go value of type map" [] }

/-- The call `json.Unmarshal` for a target of type `*interface{}`: the value is stored. -/
def unmarshalAny : Value → Value → Value × Option GoError :=
  fun v _ => (v, none)

/-- The wrapper object with the discriminator `JSON` around the value `v`. -/
def exampleJsonWrapper (v : Value) : Value :=
  Value.obj [("type", Value.str "JSON"), ("json", v)]

/-- The wrapper object with the discriminator `STRING` and the field `string` holding `line`. -/
def exampleFormWrapper (line : Value) : Value :=
  Value.obj [("type", Value.str "STRING"), ("string", line)]

/-- A sample growth policy of `append`: the capacity doubles (from 0 it becomes 1). -/
def exampleGrowth : Nat → Nat := fun c => c - 1

/-- A sample form target: the map with the one entry `a: [0]`, a slice of capacity 2, so with one
spare cell. -/
def exampleFormTarget : FormTarget :=
  { arrays := [["0", ""]],
    expectedBody := some [("a", { array := 0, offset := 0, len := 1, cap := 2 })] }

/-- A sample form target: the empty map `map[string][]string{}`. -/
def exampleEmptyForm : FormTarget :=
  { arrays := [], expectedBody := some [] }

/-- A sample form target: the nil map. -/
def exampleNilForm : FormTarget :=
  { arrays := [], expectedBody := none }

/-- A sample form target whose slices share storage: with `s := []string{"x", "y"}` the map is
`a: s[:1], b: s`, so that the entry `a` has one spare cell, which is the cell `s[1]` of `b`. -/
def exampleSharedForm : FormTarget :=
  { arrays := [["x", "y"]],
    expectedBody := some [("a", { array := 0, offset := 0, len := 1, cap := 2 }),
                          ("b", { array := 0, offset := 0, len := 2, cap := 2 })] }

/-- A sample mock server whose recorder cannot be reached: `Retrieve` returns a transport error. -/
def exampleUnreachable : mockServer :=
  { client := { Expectation := fun _ _ => none,
                Retrieve := fun _ => Except.error (GoError.errorf "unable to call mockserver" []),
                Clear := fun _ => none },
    expectations := [("e-1", 0)] }

/-- A second sample expectation, with a default response only. -/
def exampleOther : Expectation :=
  { newExpectation "e-2" "GET" "/owners" with
    defaultResponse := some (WithStatusCode 200 response.zero) }

/-- A sample world with two expectations: the sample expectation at address 0 and the second one
at address 1, nothing pushed yet. -/
def examplePair : World :=
  { heap := [exampleExpectation, exampleOther], nextUuid := 0, pushed := [] }

/-- A sample mock server whose registrar accepts the first push and rejects the second. -/
def exampleRejecting : mockServer :=
  { client := { Expectation := fun pushed _ =>
                  if pushed.length = 1 then
                    some (GoError.errorf "unexpected http status 500 instead of 2xx" [])
                  else none,
                Retrieve := fun _ => Except.ok [],
                Clear := fun _ => none },
    expectations := [("e-1", 0)] }

/-! ## Theorems: the expectation compiler -/

theorem buildLoop_length (uuid : Nat → String) (c : Nat) (h : client.HTTPRequest)
    (rs : List response) : ∀ (i : Nat) (acc : List client.Expectation),
    (Expectation.buildLoop uuid c h i rs acc).length = acc.length := by
  induction rs with
  | nil => intro i acc; rfl
  | cons r rest ih => intro i acc; simp [Expectation.buildLoop, ih]

theorem buildLoop_getElem? (uuid : Nat → String) (c : Nat) (h : client.HTTPRequest)
    (rs : List response) : ∀ (i : Nat) (acc : List client.Expectation) (j : Nat),
    i + rs.length ≤ acc.length →
    (Expectation.buildLoop uuid c h i rs acc)[j]? =
      if i ≤ j ∧ j < i + rs.length then (rs[j - i]?).map (sequentialRule uuid c h acc.length j)
      else acc[j]? := by
  induction rs with
  | nil =>
    intro i acc j _
    have : ¬ (i ≤ j ∧ j < i + ([] : List response).length) := by
      simp only [List.length_nil]; omega
    rw [if_neg this, Expectation.buildLoop]
  | cons r rest ih =>
    intro i acc j hlen
    simp only [List.length_cons] at hlen
    rw [Expectation.buildLoop, ih (i + 1) _ j (by simp; omega)]
    by_cases h1 : i + 1 ≤ j ∧ j < i + 1 + rest.length
    · have : i ≤ j ∧ j < i + (r :: rest).length := by simp; omega
      rw [if_pos h1, if_pos this]
      obtain ⟨d, hd⟩ : ∃ d, j - i = d + 1 := ⟨j - i - 1, by omega⟩
      have : j - (i + 1) = d := by omega
      simp [hd, this]
    · rw [if_neg h1]
      by_cases h2 : j = i
      · subst h2
        simp [sequentialRule, List.getElem?_set]
        omega
      · have : ¬ (i ≤ j ∧ j < i + (r :: rest).length) := by simp; omega
        rw [if_neg this, List.getElem?_set]
        simp [Ne.symm h2]

theorem build_eq (uuid : Nat → String) (c : Nat) (e : Expectation) (d : response)
    (hb : e.isBuilt = false) (hd : e.defaultResponse = some d) :
    e.build uuid c =
      { receiver := { e with isBuilt := true },
        nextUuid := c + e.sequentialResponses.length + 1,
        result := Except.ok
          ((Expectation.buildLoop uuid c (clientHttpRequest e.request) 0 e.sequentialResponses
              (List.replicate (e.sequentialResponses.length + 1) client.Expectation.zero)).set
            e.sequentialResponses.length
            (defaultRule uuid c (clientHttpRequest e.request) e.sequentialResponses.length d)) } := by
  simp [Expectation.build, hb, hd, buildLoop_length, defaultRule]

theorem build_rules (uuid : Nat → String) (c : Nat) (e : Expectation) (d : response)
    (hb : e.isBuilt = false) (hd : e.defaultResponse = some d) :
    ∃ rules, (e.build uuid c).result = Except.ok rules ∧
      rules.length = e.sequentialResponses.length + 1 ∧
      (∀ i, i < e.sequentialResponses.length →
        rules[i]? = (e.sequentialResponses[i]?).map
          (sequentialRule uuid c (clientHttpRequest e.request)
            (e.sequentialResponses.length + 1) i)) ∧
      rules[e.sequentialResponses.length]? =
        some (defaultRule uuid c (clientHttpRequest e.request) e.sequentialResponses.length d) := by
  refine ⟨_, by rw [build_eq uuid c e d hb hd], ?_, ?_, ?_⟩
  · simp [buildLoop_length]
  · intro i hi
    rw [List.getElem?_set, if_neg (by omega), buildLoop_getElem? _ _ _ _ _ _ _ (by simp)]
    simp [hi]
  · rw [List.getElem?_set]
    simp [buildLoop_length]

theorem exists_getElem?_of_mem {α : Type} (l : List α) (a : α) (h : a ∈ l) :
    ∃ i, i < l.length ∧ l[i]? = some a := by
  obtain ⟨i, hi, rfl⟩ := List.getElem_of_mem h
  exact ⟨i, hi, by simp [hi]⟩

/-- C2: for a not-yet-compiled expectation with `k` sequential responses and a default response,
`build` returns exactly `k+1` rules, every one of them carries the wire form `clientHttpRequest` of the
request of the expectation as its request matcher, and for `k = 0` the result is the single default
rule. -/
theorem build_returns_k_plus_one_rules (uuid : Nat → String) (c : Nat) (e : Expectation)
    (d : response) (hb : e.isBuilt = false) (hd : e.defaultResponse = some d) :
    ∃ rules, (e.build uuid c).result = Except.ok rules ∧
      rules.length = e.sequentialResponses.length + 1 ∧
      (∀ r ∈ rules, r.HTTPRequest = some (clientHttpRequest e.request)) ∧
      (e.sequentialResponses = [] →
        rules = [{ newClientExpectation (uuid c) d with
                   Times := some { RemainingTimes := 0, Unlimited := true },
                   HTTPRequest := some (clientHttpRequest e.request) }]) := by
  obtain ⟨rules, hr, hlen, hseq, hdef⟩ := build_rules uuid c e d hb hd
  refine ⟨rules, hr, hlen, ?_, ?_⟩
  · intro r hmem
    obtain ⟨i, hi, hget⟩ := exists_getElem?_of_mem rules r hmem
    by_cases hk : i < e.sequentialResponses.length
    · rw [hseq i hk] at hget
      simp only [List.getElem?_eq_getElem hk, Option.map_some', Option.some.injEq] at hget
      rw [← hget]; rfl
    · have : i = e.sequentialResponses.length := by omega
      rw [this, hdef] at hget
      simp only [Option.some.injEq] at hget
      rw [← hget]; rfl
  · intro hnil
    rw [hnil] at hlen hdef
    obtain ⟨r, rfl⟩ := List.length_eq_one.mp hlen
    simp only [List.length_nil, List.getElem?_cons_zero, Option.some.injEq] at hdef
    rw [hdef]; rfl

theorem build_returns_k_plus_one_rules_witness :
    exampleExpectation.isBuilt = false ∧
    exampleExpectation.defaultResponse = some (WithStatusCode 404 response.zero) ∧
    ∃ rules, (exampleExpectation.build exampleUuid 0).result = Except.ok rules ∧
      rules.length = exampleExpectation.sequentialResponses.length + 1 ∧
      (∀ r ∈ rules, r.HTTPRequest = some (clientHttpRequest exampleExpectation.request)) ∧
      (exampleExpectation.sequentialResponses = [] →
        rules = [{ newClientExpectation (exampleUuid 0) (WithStatusCode 404 response.zero) with
                   Times := some { RemainingTimes := 0, Unlimited := true },
                   HTTPRequest := some (clientHttpRequest exampleExpectation.request) }]) :=
  ⟨rfl, rfl, build_returns_k_plus_one_rules exampleUuid 0 exampleExpectation _ rfl rfl⟩

theorem sequentialRule_fields (uuid : Nat → String) (c : Nat) (h : client.HTTPRequest)
    (len i : Nat) (res : response) :
    (sequentialRule uuid c h len i res).Times = some { RemainingTimes := 1, Unlimited := false } ∧
    (sequentialRule uuid c h len i res).Priority = (len : Int) - (i : Int) ∧
    (sequentialRule uuid c h len i res).HTTPResponse =
      (if res.drop then none
       else some { Body := res.body, StatusCode := res.statusCode,
                   ReasonPhrase := res.reasonPhrase, Headers := toClientHeaders res.headers,
                   Delay := delay res.delay }) ∧
    (sequentialRule uuid c h len i res).HTTPError =
      (if res.drop then some { Delay := delay res.delay, DropConnection := true,
                               ResponseBytes := res.errorBytes }
       else none) := by
  refine ⟨rfl, rfl, ?_, ?_⟩ <;>
  · unfold sequentialRule newClientExpectation
    cases res.drop <;> rfl

theorem defaultRule_fields (uuid : Nat → String) (c : Nat) (h : client.HTTPRequest)
    (k : Nat) (res : response) :
    (defaultRule uuid c h k res).Times = some { RemainingTimes := 0, Unlimited := true } ∧
    (defaultRule uuid c h k res).Priority = 0 ∧
    (defaultRule uuid c h k res).HTTPResponse =
      (if res.drop then none
       else some { Body := res.body, StatusCode := res.statusCode,
                   ReasonPhrase := res.reasonPhrase, Headers := toClientHeaders res.headers,
                   Delay := delay res.delay }) ∧
    (defaultRule uuid c h k res).HTTPError =
      (if res.drop then some { Delay := delay res.delay, DropConnection := true,
                               ResponseBytes := res.errorBytes }
       else none) := by
  refine ⟨rfl, ?_, ?_, ?_⟩ <;>
  · unfold defaultRule newClientExpectation
    cases res.drop <;> rfl

/-- C4: in the list returned by `build` the last rule (index `k`) wraps the default response, has
unlimited times and the unset priority 0; priorities strictly decrease along the whole list, and
the priority of the default rule is strictly below that of every sequential rule. -/
theorem build_default_rule_last_and_priorities_decrease (uuid : Nat → String) (c : Nat)
    (e : Expectation) (d : response) (hb : e.isBuilt = false) (hd : e.defaultResponse = some d) :
    ∃ rules dflt, (e.build uuid c).result = Except.ok rules ∧
      rules.getLast? = some dflt ∧ rules[e.sequentialResponses.length]? = some dflt ∧
      dflt.Times = some { RemainingTimes := 0, Unlimited := true } ∧
      dflt.Priority = 0 ∧
      dflt.HTTPResponse =
        (if d.drop then none
         else some { Body := d.body, StatusCode := d.statusCode,
                     ReasonPhrase := d.reasonPhrase, Headers := toClientHeaders d.headers,
                     Delay := delay d.delay }) ∧
      dflt.HTTPError =
        (if d.drop then some { Delay := delay d.delay, DropConnection := true,
                               ResponseBytes := d.errorBytes }
         else none) ∧
      (∀ i, i < e.sequentialResponses.length →
        ∃ a b, rules[i]? = some a ∧ rules[i + 1]? = some b ∧ b.Priority < a.Priority) ∧
      (∀ i, i < e.sequentialResponses.length →
        ∃ a, rules[i]? = some a ∧ dflt.Priority < a.Priority) := by
  obtain ⟨rules, hr, hlen, hseq, hdef⟩ := build_rules uuid c e d hb hd
  obtain ⟨h1, h2, h3, h4⟩ := defaultRule_fields uuid c (clientHttpRequest e.request)
    e.sequentialResponses.length d
  have hprio : ∀ i (hi : i < e.sequentialResponses.length), ∃ a, rules[i]? = some a ∧
      a.Priority = (e.sequentialResponses.length : Int) + 1 - (i : Int) := by
    intro i hi
    have hget := hseq i hi
    rw [List.getElem?_eq_getElem hi] at hget
    refine ⟨_, hget, ?_⟩
    rw [(sequentialRule_fields uuid c (clientHttpRequest e.request)
      (e.sequentialResponses.length + 1) i (e.sequentialResponses[i])).2.1]
    push_cast; ring
  refine ⟨rules, _, hr, ?_, hdef, h1, h2, h3, h4, ?_, ?_⟩
  · rw [List.getLast?_eq_getElem?, hlen]
    simpa using hdef
  · intro i hi
    obtain ⟨a, ha, hpa⟩ := hprio i hi
    by_cases hlast : i + 1 < e.sequentialResponses.length
    · obtain ⟨b, hb', hpb⟩ := hprio (i + 1) hlast
      exact ⟨a, b, ha, hb', by rw [hpa, hpb]; push_cast; omega⟩
    · have : i + 1 = e.sequentialResponses.length := by omega
      refine ⟨a, _, ha, by rw [this]; exact hdef, ?_⟩
      rw [hpa, h2]; omega
  · intro i hi
    obtain ⟨a, ha, hpa⟩ := hprio i hi
    exact ⟨a, ha, by rw [hpa, h2]; omega⟩

theorem build_default_rule_last_and_priorities_decrease_witness :
    exampleExpectation.isBuilt = false ∧
    exampleExpectation.defaultResponse = some (WithStatusCode 404 response.zero) ∧
    ∃ rules dflt, (exampleExpectation.build exampleUuid 0).result = Except.ok rules ∧
      rules.getLast? = some dflt ∧
      rules[exampleExpectation.sequentialResponses.length]? = some dflt ∧
      dflt.Times = some { RemainingTimes := 0, Unlimited := true } ∧
      dflt.Priority = 0 ∧
      dflt.HTTPResponse =
        (if (WithStatusCode 404 response.zero).drop then none
         else some { Body := (WithStatusCode 404 response.zero).body,
                     StatusCode := (WithStatusCode 404 response.zero).statusCode,
                     ReasonPhrase := (WithStatusCode 404 response.zero).reasonPhrase,
                     Headers := toClientHeaders (WithStatusCode 404 response.zero).headers,
                     Delay := delay (WithStatusCode 404 response.zero).delay }) ∧
      dflt.HTTPError =
        (if (WithStatusCode 404 response.zero).drop then
           some { Delay := delay (WithStatusCode 404 response.zero).delay, DropConnection := true,
                  ResponseBytes := (WithStatusCode 404 response.zero).errorBytes }
         else none) ∧
      (∀ i, i < exampleExpectation.sequentialResponses.length →
        ∃ a b, rules[i]? = some a ∧ rules[i + 1]? = some b ∧ b.Priority < a.Priority) ∧
      (∀ i, i < exampleExpectation.sequentialResponses.length →
        ∃ a, rules[i]? = some a ∧ dflt.Priority < a.Priority) :=
  ⟨rfl, rfl,
    build_default_rule_last_and_priorities_decrease exampleUuid 0 exampleExpectation _ rfl rfl⟩

theorem build_of_built (uuid : Nat → String) (c : Nat) (e : Expectation) (hb : e.isBuilt = true) :
    e.build uuid c =
      { receiver := e, nextUuid := c, result := Except.error (Abort.panic Expectation.buildMsg) } := by
  simp [Expectation.build, hb]

theorem build_receiver_isBuilt (uuid : Nat → String) (c : Nat) (e : Expectation) :
    (e.build uuid c).receiver.isBuilt = true := by
  unfold Expectation.build
  cases hb : e.isBuilt
  · cases hd : e.defaultResponse <;> simp
  · simp [hb]

theorem iterate_build_receiver (uuid : Nat → String) (c : Nat) (e : Expectation)
    (hb : e.isBuilt = true) (n : Nat) :
    Nat.iterate (fun x => (x.build uuid c).receiver) n e = e := by
  induction n with
  | zero => rfl
  | succ n ih =>
    rw [Function.iterate_succ_apply, build_of_built uuid c e hb]
    exact ih

/-- C5, counterexample: the first `build` of an expectation on which `DefaultResponse` was never
called does not succeed; it aborts on the nil default response. -/
theorem build_first_call_aborts_without_default_response :
    (newExpectation "e-0" "GET" "/pets").isBuilt = false ∧
    ((newExpectation "e-0" "GET" "/pets").build exampleUuid 0).result =
      Except.error Abort.nilDereference ∧
    ¬ ∃ rules, ((newExpectation "e-0" "GET" "/pets").build exampleUuid 0).result =
      Except.ok rules := by
  refine ⟨rfl, rfl, ?_⟩
  rintro ⟨rules, h⟩
  have h2 : ((newExpectation "e-0" "GET" "/pets").build exampleUuid 0).result =
      Except.error Abort.nilDereference := rfl
  rw [h2] at h
  cases h

/-- C5, amended: for a not-yet-compiled expectation with a default response the first `build`
succeeds and marks the expectation finalized, and every later `build` of it aborts with a panic,
leaving the expectation as it was, instead of returning rules or an error. -/
theorem build_once_only (uuid : Nat → String) (c : Nat) (e : Expectation) (d : response)
    (hb : e.isBuilt = false) (hd : e.defaultResponse = some d) :
    (∃ rules, (e.build uuid c).result = Except.ok rules) ∧
    (e.build uuid c).receiver = { e with isBuilt := true } ∧
    ∀ (n : Nat) (uuid2 : Nat → String) (c2 : Nat),
      (Nat.iterate (fun x => (x.build uuid2 c2).receiver) n (e.build uuid c).receiver).build
          uuid2 c2 =
        { receiver := (e.build uuid c).receiver, nextUuid := c2,
          result := Except.error (Abort.panic Expectation.buildMsg) } := by
  refine ⟨?_, ?_, ?_⟩
  · obtain ⟨rules, hr, _⟩ := build_rules uuid c e d hb hd
    exact ⟨rules, hr⟩
  · rw [build_eq uuid c e d hb hd]
  · intro n uuid2 c2
    rw [iterate_build_receiver uuid2 c2 _ (build_receiver_isBuilt uuid c e) n]
    exact build_of_built uuid2 c2 _ (build_receiver_isBuilt uuid c e)

theorem build_once_only_witness :
    exampleExpectation.isBuilt = false ∧
    exampleExpectation.defaultResponse = some (WithStatusCode 404 response.zero) ∧
    ((∃ rules, (exampleExpectation.build exampleUuid 0).result = Except.ok rules) ∧
    (exampleExpectation.build exampleUuid 0).receiver = { exampleExpectation with isBuilt := true } ∧
    ∀ (n : Nat) (uuid2 : Nat → String) (c2 : Nat),
      (Nat.iterate (fun x => (x.build uuid2 c2).receiver) n
          (exampleExpectation.build exampleUuid 0).receiver).build uuid2 c2 =
        { receiver := (exampleExpectation.build exampleUuid 0).receiver, nextUuid := c2,
          result := Except.error (Abort.panic Expectation.buildMsg) }) :=
  ⟨rfl, rfl, build_once_only exampleUuid 0 exampleExpectation _ rfl rfl⟩

/-- C7, counterexample: on a finalized expectation `NumCalls`, `Name` and `AssertionAtCall` do not
abort; they change the call-count constraint, the name and the assertions. -/
theorem finalized_expectation_still_mutable :
    exampleFinalized.isBuilt = true ∧
    (exampleFinalized.NumCalls 5).numCalls = 5 ∧ exampleFinalized.numCalls = 0 ∧
    (exampleFinalized.Name "renamed").name = "renamed" ∧ exampleFinalized.name = "" ∧
    ((exampleFinalized.AssertionAtCall 0 NewAssertion).assertions.map Prod.fst) = [0] ∧
    exampleFinalized.assertions.map Prod.fst = [] := by
  refine ⟨rfl, rfl, rfl, rfl, rfl, rfl, rfl⟩

/-- C7, amended: on a finalized expectation `Request`, `DefaultResponse` and `SequentialResponse`
abort with a panic, so the request matcher and the responses keep the values they had at
finalization; `NumCalls`, `AssertionAtCall` and `Name` do not abort and update only the call-count
constraint, the assertions and the name. -/
theorem finalized_guards (e : Expectation) (hb : e.isBuilt = true) :
    (∀ opts, e.Request opts = Except.error (Abort.panic Expectation.updateMsg)) ∧
    (∀ opts, e.DefaultResponse opts = Except.error (Abort.panic Expectation.updateMsg)) ∧
    (∀ opts, e.SequentialResponse opts = Except.error (Abort.panic Expectation.updateMsg)) ∧
    (∀ n, e.NumCalls n = { e with numCalls := n }) ∧
    (∀ i a, e.AssertionAtCall i a = { e with assertions := e.assertions.set i a }) ∧
    (∀ s, e.Name s = { e with name := s }) := by
  refine ⟨?_, ?_, ?_, fun _ => rfl, fun _ _ => rfl, fun _ => rfl⟩ <;>
  · intro opts
    simp [Expectation.Request, Expectation.DefaultResponse, Expectation.SequentialResponse, hb]

theorem finalized_guards_witness :
    exampleFinalized.isBuilt = true ∧
    ((∀ opts, exampleFinalized.Request opts = Except.error (Abort.panic Expectation.updateMsg)) ∧
    (∀ opts, exampleFinalized.DefaultResponse opts =
      Except.error (Abort.panic Expectation.updateMsg)) ∧
    (∀ opts, exampleFinalized.SequentialResponse opts =
      Except.error (Abort.panic Expectation.updateMsg)) ∧
    (∀ n, exampleFinalized.NumCalls n = { exampleFinalized with numCalls := n }) ∧
    (∀ i a, exampleFinalized.AssertionAtCall i a =
      { exampleFinalized with assertions := exampleFinalized.assertions.set i a }) ∧
    (∀ s, exampleFinalized.Name s = { exampleFinalized with name := s })) :=
  ⟨rfl, finalized_guards exampleFinalized rfl⟩


/-! ## Theorems: sequencing on the matching substrate -/

open substrate

theorem best_sound : ∀ (rules : List client.Expectation) (j : Nat) (p : Int),
    best rules = some (j, p) →
    ∃ r, rules[j]? = some r ∧ eligible r = true ∧ r.Priority = p := by
  intro rules
  induction rules with
  | nil => intro j p h; simp [best] at h
  | cons r rest ih =>
    intro j p h
    unfold best at h
    cases hb : best rest with
    | none =>
      rw [hb] at h
      by_cases he : eligible r = true
      · simp [he] at h
        obtain ⟨rfl, rfl⟩ := h
        exact ⟨r, by simp, he, rfl⟩
      · simp [he] at h
    | some jp =>
      obtain ⟨j', p'⟩ := jp
      rw [hb] at h
      obtain ⟨r', hr', he', hp'⟩ := ih j' p' hb
      by_cases hc : (eligible r && decide (p' ≤ r.Priority)) = true
      · simp only [hc, if_true, Option.some.injEq, Prod.mk.injEq] at h
        obtain ⟨rfl, rfl⟩ := h
        simp only [Bool.and_eq_true] at hc
        exact ⟨r, by simp, hc.1, rfl⟩
      · simp only [hc, Option.some.injEq, Prod.mk.injEq] at h
        obtain ⟨rfl, rfl⟩ := h
        exact ⟨r', by simpa using hr', he', hp'⟩

theorem best_eq_some : ∀ (rules : List client.Expectation) (i : Nat) (r : client.Expectation),
    rules[i]? = some r → eligible r = true →
    (∀ j r', rules[j]? = some r' → j ≠ i → eligible r' = true → r'.Priority < r.Priority) →
    best rules = some (i, r.Priority) := by
  intro rules
  induction rules with
  | nil => intro i r h; simp at h
  | cons r0 rest ih =>
    intro i r hget hel hlt
    unfold best
    cases i with
    | zero =>
      simp only [List.getElem?_cons_zero, Option.some.injEq] at hget
      subst hget
      cases hb : best rest with
      | none => simp [hel]
      | some jp =>
        obtain ⟨j', p'⟩ := jp
        obtain ⟨r', hr', he', hp'⟩ := best_sound rest j' p' hb
        have := hlt (j' + 1) r' (by simpa using hr') (by omega) he'
        have hle : p' ≤ r0.Priority := by omega
        simp [hel, hle]
    | succ i' =>
      simp only [List.getElem?_cons_succ] at hget
      have hrest := ih i' r hget hel (fun j r' hj hne he =>
        hlt (j + 1) r' (by simpa using hj) (by omega) he)
      rw [hrest]
      by_cases he0 : eligible r0 = true
      · have := hlt 0 r0 (by simp) (by omega) he0
        have hnot : ¬ (r.Priority ≤ r0.Priority) := by omega
        simp [he0, hnot]
      · simp [he0]

theorem eligible_of_times (r : client.Expectation) (t : client.Times) (h : r.Times = some t) :
    eligible r = (t.Unlimited || decide (0 < t.RemainingTimes)) := by
  simp [eligible, h]

theorem consume_limited (r : client.Expectation) (n : Int)
    (h : r.Times = some { RemainingTimes := n, Unlimited := false }) :
    (consume r).Times = some { RemainingTimes := n - 1, Unlimited := false } := by
  simp [consume, h]

theorem consume_unlimited (r : client.Expectation) (n : Int)
    (h : r.Times = some { RemainingTimes := n, Unlimited := true }) : consume r = r := by
  simp [consume, h]

/-- The run of the substrate on a rule list shaped like the output of `build`. -/
theorem substrate_run (K : Nat) (rules : List client.Expectation)
    (hseq : ∀ i, i < K → ∃ r, rules[i]? = some r ∧
      r.Times = some { RemainingTimes := 1, Unlimited := false } ∧
      r.Priority = (K : Int) + 1 - (i : Int))
    (hdef : ∃ r, rules[K]? = some r ∧ r.Times = some { RemainingTimes := 0, Unlimited := true } ∧
      r.Priority = 0)
    (hlen : rules.length = K + 1) (n : Nat) :
    (∀ i, (after rules n)[i]? =
      if i < min n K then (rules[i]?).map consume else rules[i]?) ∧
    answer rules n = (rules[min n K]?).map (fun r => (min n K, r)) := by
  have key : ∀ n, (∀ i, (after rules n)[i]? =
      if i < min n K then (rules[i]?).map consume else rules[i]?) →
      ∃ r, rules[min n K]? = some r ∧
        call (after rules n) = (some (min n K, r), (after rules n).set (min n K) (consume r)) := by
    intro n hst
    have hm : min n K ≤ K := Nat.min_le_right n K
    obtain ⟨r, hr, hel⟩ : ∃ r, rules[min n K]? = some r ∧ eligible r = true := by
      by_cases hlt : min n K < K
      · obtain ⟨r, hr, ht, _⟩ := hseq _ hlt
        exact ⟨r, hr, by rw [eligible_of_times r _ ht]; decide⟩
      · obtain ⟨r, hr, ht, _⟩ := hdef
        have : min n K = K := by omega
        exact ⟨r, by rw [this]; exact hr, by rw [eligible_of_times r _ ht]; rfl⟩
    refine ⟨r, hr, ?_⟩
    have hcur : (after rules n)[min n K]? = some r := by
      rw [hst, if_neg (lt_irrefl _)]; exact hr
    have hbest : best (after rules n) = some (min n K, r.Priority) := by
      apply best_eq_some _ _ _ hcur hel
      intro j r1 hj hne he1
      rw [hst] at hj
      by_cases hjm : j < min n K
      · rw [if_pos hjm] at hj
        obtain ⟨r0, hr0, ht0, _⟩ := hseq j (by omega)
        rw [hr0] at hj
        simp only [Option.map_some', Option.some.injEq] at hj
        have := consume_limited r0 1 ht0
        rw [hj] at this
        rw [eligible_of_times r1 _ this] at he1
        simp at he1
      · rw [if_neg hjm] at hj
        have hjK : j ≤ K := by
          by_contra hc
          have : rules[j]? = none := List.getElem?_eq_none (by omega)
          rw [this] at hj; cases hj
        have hmK : min n K < K := by omega
        obtain ⟨r2, hr2, _, hp2⟩ := hseq _ hmK
        rw [hr] at hr2
        cases hr2
        by_cases hjK2 : j < K
        · obtain ⟨r3, hr3, _, hp3⟩ := hseq j hjK2
          rw [hj] at hr3; cases hr3
          rw [hp2, hp3]; omega
        · obtain ⟨r3, hr3, _, hp3⟩ := hdef
          have : j = K := by omega
          rw [this] at hj
          rw [hj] at hr3; cases hr3
          rw [hp2, hp3]; omega
    simp [call, hbest, hcur]
  have hstate : ∀ n, ∀ i, (after rules n)[i]? =
      if i < min n K then (rules[i]?).map consume else rules[i]? := by
    intro n
    induction n with
    | zero => intro i; simp [after]
    | succ n ih =>
      intro i
      obtain ⟨r, hr, hcall⟩ := key n ih
      have hcurlen : min n K < (after rules n).length := by
        have : (after rules n)[min n K]? = some r := by
          rw [ih, if_neg (lt_irrefl _)]; exact hr
        exact (List.getElem?_eq_some.mp this).1
      simp only [after, hcall]
      rw [List.getElem?_set]
      by_cases hi : min n K = i
      · subst hi
        rw [if_pos rfl, if_pos hcurlen]
        by_cases hn : n < K
        · have h1 : min n K < min (n + 1) K := by omega
          rw [if_pos h1, hr]; rfl
        · have h1 : ¬ (min n K < min (n + 1) K) := by omega
          rw [if_neg h1, hr]
          obtain ⟨r3, hr3, ht3, _⟩ := hdef
          have : min n K = K := by omega
          rw [this] at hr
          rw [hr] at hr3; cases hr3
          rw [consume_unlimited r 0 ht3]
      · rw [if_neg hi, ih]
        have : (i < min n K) ↔ (i < min (n + 1) K) := by omega
        simp only [this]
  refine ⟨hstate n, ?_⟩
  obtain ⟨r, hr, hcall⟩ := key n (hstate n)
  simp [answer, hcall, hr]

/-- C1: feed the rules returned by `build` for an expectation with `k` sequential responses and a
default response to the matching substrate. Call `j` is answered with rule `j`, which wraps
sequential response `j`, for every `j < k`; sequential rule `i` answers call `i` and no other call;
every call `j >= k` is answered with rule `k`, which wraps the default response. -/
theorem sequencing_simulated (uuid : Nat → String) (c : Nat) (e : Expectation) (d : response)
    (hb : e.isBuilt = false) (hd : e.defaultResponse = some d) :
    ∃ rules, (e.build uuid c).result = Except.ok rules ∧
      (∀ j, j < e.sequentialResponses.length →
        ∃ rule res, substrate.answer rules j = some (j, rule) ∧ rules[j]? = some rule ∧
          e.sequentialResponses[j]? = some res ∧
          rule.HTTPResponse =
            (if res.drop then none
             else some { Body := res.body, StatusCode := res.statusCode,
                         ReasonPhrase := res.reasonPhrase, Headers := toClientHeaders res.headers,
                         Delay := delay res.delay }) ∧
          rule.HTTPError =
            (if res.drop then some { Delay := delay res.delay, DropConnection := true,
                                     ResponseBytes := res.errorBytes }
             else none)) ∧
      (∀ i j, i < e.sequentialResponses.length →
        ((∃ rule, substrate.answer rules j = some (i, rule)) ↔ j = i)) ∧
      (∀ j, e.sequentialResponses.length ≤ j →
        ∃ rule, substrate.answer rules j = some (e.sequentialResponses.length, rule) ∧
          rules[e.sequentialResponses.length]? = some rule ∧
          rule.HTTPResponse =
            (if d.drop then none
             else some { Body := d.body, StatusCode := d.statusCode,
                         ReasonPhrase := d.reasonPhrase, Headers := toClientHeaders d.headers,
                         Delay := delay d.delay }) ∧
          rule.HTTPError =
            (if d.drop then some { Delay := delay d.delay, DropConnection := true,
                                   ResponseBytes := d.errorBytes }
             else none)) := by
  obtain ⟨rules, hr, hlen, hseq, hdef⟩ := build_rules uuid c e d hb hd
  have hS : ∀ i, i < e.sequentialResponses.length → ∃ r, rules[i]? = some r ∧
      r.Times = some { RemainingTimes := 1, Unlimited := false } ∧
      r.Priority = (e.sequentialResponses.length : Int) + 1 - (i : Int) := by
    intro i hi
    have hget := hseq i hi
    rw [List.getElem?_eq_getElem hi] at hget
    obtain ⟨h1, h2, _, _⟩ := sequentialRule_fields uuid c (clientHttpRequest e.request)
      (e.sequentialResponses.length + 1) i (e.sequentialResponses[i])
    exact ⟨_, hget, h1, by rw [h2]; push_cast; ring⟩
  obtain ⟨g1, g2, g3, g4⟩ := defaultRule_fields uuid c (clientHttpRequest e.request)
    e.sequentialResponses.length d
  have hD : ∃ r, rules[e.sequentialResponses.length]? = some r ∧
      r.Times = some { RemainingTimes := 0, Unlimited := true } ∧ r.Priority = 0 :=
    ⟨_, hdef, g1, g2⟩
  have hans := fun n => (substrate_run e.sequentialResponses.length rules hS hD hlen n).2
  refine ⟨rules, hr, ?_, ?_, ?_⟩
  · intro j hj
    have hget := hseq j hj
    rw [List.getElem?_eq_getElem hj] at hget
    obtain ⟨_, _, h3, h4⟩ := sequentialRule_fields uuid c (clientHttpRequest e.request)
      (e.sequentialResponses.length + 1) j (e.sequentialResponses[j])
    refine ⟨_, e.sequentialResponses[j], ?_, hget, List.getElem?_eq_getElem hj, h3, h4⟩
    rw [hans j, Nat.min_eq_left (le_of_lt hj), hget]; rfl
  · intro i j hi
    rw [hans j]
    constructor
    · rintro ⟨rule, h⟩
      cases hg : rules[min j e.sequentialResponses.length]? with
      | none => rw [hg] at h; cases h
      | some r =>
        rw [hg] at h
        simp only [Option.map_some', Option.some.injEq, Prod.mk.injEq] at h
        omega
    · rintro rfl
      obtain ⟨r, hr2, _⟩ := hS j hi
      exact ⟨r, by rw [Nat.min_eq_left (le_of_lt hi), hr2]; rfl⟩
  · intro j hj
    refine ⟨_, ?_, hdef, g3, g4⟩
    rw [hans j, Nat.min_eq_right hj, hdef]; rfl

theorem sequencing_simulated_witness :
    exampleExpectation.isBuilt = false ∧
    exampleExpectation.defaultResponse = some (WithStatusCode 404 response.zero) ∧
    ∃ rules, (exampleExpectation.build exampleUuid 0).result = Except.ok rules ∧
      (∀ j, j < exampleExpectation.sequentialResponses.length →
        ∃ rule res, substrate.answer rules j = some (j, rule) ∧ rules[j]? = some rule ∧
          exampleExpectation.sequentialResponses[j]? = some res ∧
          rule.HTTPResponse =
            (if res.drop then none
             else some { Body := res.body, StatusCode := res.statusCode,
                         ReasonPhrase := res.reasonPhrase, Headers := toClientHeaders res.headers,
                         Delay := delay res.delay }) ∧
          rule.HTTPError =
            (if res.drop then some { Delay := delay res.delay, DropConnection := true,
                                     ResponseBytes := res.errorBytes }
             else none)) ∧
      (∀ i j, i < exampleExpectation.sequentialResponses.length →
        ((∃ rule, substrate.answer rules j = some (i, rule)) ↔ j = i)) ∧
      (∀ j, exampleExpectation.sequentialResponses.length ≤ j →
        ∃ rule, substrate.answer rules j =
            some (exampleExpectation.sequentialResponses.length, rule) ∧
          rules[exampleExpectation.sequentialResponses.length]? = some rule ∧
          rule.HTTPResponse =
            (if (WithStatusCode 404 response.zero).drop then none
             else some { Body := (WithStatusCode 404 response.zero).body,
                         StatusCode := (WithStatusCode 404 response.zero).statusCode,
                         ReasonPhrase := (WithStatusCode 404 response.zero).reasonPhrase,
                         Headers := toClientHeaders (WithStatusCode 404 response.zero).headers,
                         Delay := delay (WithStatusCode 404 response.zero).delay }) ∧
          rule.HTTPError =
            (if (WithStatusCode 404 response.zero).drop then
               some { Delay := delay (WithStatusCode 404 response.zero).delay,
                      DropConnection := true,
                      ResponseBytes := (WithStatusCode 404 response.zero).errorBytes }
             else none)) :=
  ⟨rfl, rfl, sequencing_simulated exampleUuid 0 exampleExpectation _ rfl rfl⟩


/-! ## Theorems: `Setup` -/

theorem Setup_cons (m : mockServer) (uuid : Nat → String) (w : World) (p : Nat) (rest : List Nat) :
    m.Setup uuid w (p :: rest) =
      match w.heap[p]? with
      | none => { world := w, result := Except.error Abort.nilDereference }
      | some expectation =>
        match (expectation.build uuid w.nextUuid).result with
        | Except.error a =>
          { world := { w with heap := w.heap.set p (expectation.build uuid w.nextUuid).receiver,
                              nextUuid := (expectation.build uuid w.nextUuid).nextUuid },
            result := Except.error a }
        | Except.ok rules =>
          match mockServer.pushLoop m rules w.pushed with
          | (pushed, some err) =>
            { world := { heap := w.heap.set p (expectation.build uuid w.nextUuid).receiver,
                         nextUuid := (expectation.build uuid w.nextUuid).nextUuid,
                         pushed := pushed },
              result := Except.ok (some err) }
          | (pushed, none) =>
            m.Setup uuid
              { heap := w.heap.set p (expectation.build uuid w.nextUuid).receiver,
                nextUuid := (expectation.build uuid w.nextUuid).nextUuid,
                pushed := pushed } rest := by
  rfl

theorem Setup_append (m : mockServer) (uuid : Nat → String) (ps qs : List Nat) :
    ∀ (w w1 : World), m.Setup uuid w ps = { world := w1, result := Except.ok none } →
      m.Setup uuid w (ps ++ qs) = m.Setup uuid w1 qs := by
  induction ps with
  | nil =>
    intro w w1 h
    simp only [mockServer.Setup, CallResult.mk.injEq, and_true] at h
    subst h; rfl
  | cons p rest ih =>
    intro w w1 h
    simp only [List.cons_append]
    rw [Setup_cons] at h ⊢
    cases hp : w.heap[p]? with
    | none => rw [hp] at h; simp at h
    | some expectation =>
      rw [hp] at h
      simp only at h ⊢
      cases hr : (expectation.build uuid w.nextUuid).result with
      | error a => rw [hr] at h; simp at h
      | ok rules =>
        rw [hr] at h
        simp only at h ⊢
        cases hl : mockServer.pushLoop m rules w.pushed with
        | mk pushed err =>
          rw [hl] at h
          cases err with
          | some err => simp at h
          | none =>
            simp only at h ⊢
            exact ih _ _ h

theorem set_of_getElem? {α : Type} (l : List α) (i : Nat) (a : α) (h : l[i]? = some a) :
    l.set i a = l := by
  apply List.ext_getElem?
  intro j
  rw [List.getElem?_set]
  by_cases hij : i = j
  · subst hij
    rw [if_pos rfl, h]
    simp [(List.getElem?_eq_some.mp h).1]
  · rw [if_neg hij]

/-- C6, amended: when `Setup` has compiled and pushed the expectations listed before `p` without
abort or error and then reaches an expectation `p` that is already finalized (set up earlier, or
listed earlier in the same call), it aborts with the panic of `build`; the world is the one left by
the expectations before `p`, so no rule of `p` or of a later expectation is pushed, and the call has
pushed nothing at all only when nothing precedes `p`. -/
theorem Setup_aborts_at_recompiled_expectation (m : mockServer) (uuid : Nat → String)
    (w w1 : World) (ps : List Nat) (p : Nat) (rest : List Nat) (e : Expectation)
    (hbefore : m.Setup uuid w ps = { world := w1, result := Except.ok none })
    (hp : w1.heap[p]? = some e) (hbuilt : e.isBuilt = true) :
    m.Setup uuid w (ps ++ p :: rest) =
      { world := w1, result := Except.error (Abort.panic Expectation.buildMsg) } := by
  rw [Setup_append m uuid ps (p :: rest) w w1 hbefore]
  rw [Setup_cons, hp]
  simp only [build_of_built uuid _ e hbuilt, set_of_getElem? _ _ _ hp]

/-- C6, counterexample: `Setup` with the same fresh expectation listed twice aborts at the second
occurrence, after the three rules of the first occurrence have been pushed. -/
theorem Setup_pushes_rules_before_aborting :
    exampleWorld.pushed = [] ∧
    (exampleServer.Setup exampleUuid exampleWorld [0, 0]).result =
      Except.error (Abort.panic Expectation.buildMsg) ∧
    (exampleServer.Setup exampleUuid exampleWorld [0, 0]).world.pushed.length = 3 ∧
    (exampleServer.Setup exampleUuid exampleWorld [0, 0]).world.pushed.map (fun r => r.ID) =
      ["uuid-0", "uuid-1", "uuid-2"] := by
  refine ⟨rfl, rfl, rfl, ?_⟩
  decide

theorem Setup_aborts_at_recompiled_expectation_witness :
    exampleServer.Setup exampleUuid exampleWorld [0] =
      { world := (exampleServer.Setup exampleUuid exampleWorld [0]).world,
        result := Except.ok none } ∧
    (exampleServer.Setup exampleUuid exampleWorld [0]).world.heap[0]? = some exampleFinalized ∧
    exampleFinalized.isBuilt = true ∧
    exampleServer.Setup exampleUuid exampleWorld ([0] ++ 0 :: []) =
      { world := (exampleServer.Setup exampleUuid exampleWorld [0]).world,
        result := Except.error (Abort.panic Expectation.buildMsg) } :=
  ⟨rfl, rfl, rfl,
    Setup_aborts_at_recompiled_expectation exampleServer exampleUuid exampleWorld _ [0] 0 []
      exampleFinalized rfl rfl rfl⟩


/-! ## Theorems: verification -/

theorem asserErr_some (name : String) (st : VerifyState) (i : Int) (err : GoError) :
    asserErr name st i (some err) = { log := st.log ++ [reportOf name i err], fail := true } := rfl

/-- Reporting a list of outcomes one after the other. -/
theorem foldl_asserErr (name : String) (i : Int) (outs : List (Option GoError)) :
    ∀ st : VerifyState, outs.foldl (fun st o => asserErr name st i o) st =
      { log := st.log ++ (outs.filterMap id).map (reportOf name i),
        fail := st.fail || !(outs.filterMap id).isEmpty } := by
  induction outs with
  | nil => intro st; simp
  | cons o rest ih =>
    intro st
    rw [List.foldl_cons, ih]
    cases o with
    | none => simp [asserErr]
    | some err => simp [asserErr_some]

theorem assertAt_eq (name : String) (i : Int) (a : assertion) (ver : verification)
    (st : VerifyState)
    (hwf : a.requireBodyAssertion = true →
      ∃ decoder err, a.bodyDecoder = some decoder ∧ ver.assertBody decoder = Except.ok err) :
    assertAt name i a ver st =
      Except.ok { log := st.log ++ (a.failures ver).map (reportOf name i),
                  fail := st.fail || !(a.failures ver).isEmpty } := by
  have hfold : (a.outcomes ver).foldl (fun st o => asserErr name st i o) st =
      { log := st.log ++ (a.failures ver).map (reportOf name i),
        fail := st.fail || !(a.failures ver).isEmpty } := foldl_asserErr name i _ st
  rw [← hfold]
  unfold assertAt assertion.outcomes
  cases hreq : a.requireBodyAssertion with
  | false =>
    cases hp : a.requirePathAssertion <;>
      simp [List.foldl_append, List.foldl_map, verification.assertBody]
  | true =>
    obtain ⟨decoder, err, hdec, hret⟩ := hwf hreq
    cases hp : a.requirePathAssertion <;>
      simp [List.foldl_append, List.foldl_map, hdec, hret]

theorem verifyLoop_eq (name : String) (vs : List verification) (l : List (Int × assertion)) :
    ∀ st : VerifyState,
    (∀ p ∈ l, 0 ≤ p.1) →
    (∀ p ∈ l, p.2.requireBodyAssertion = true →
      ∃ decoder, p.2.bodyDecoder = some decoder ∧
        ∀ ver, vs[p.1.toNat]? = some ver → ∃ err, ver.assertBody decoder = Except.ok err) →
    verifyLoop name vs l st =
      ({ log := st.log ++ l.flatMap (expectedReports name vs),
         fail := st.fail || !(l.flatMap (expectedReports name vs)).isEmpty }, none) := by
  induction l with
  | nil => intro st _ _; simp [verifyLoop]
  | cons p rest ih =>
    intro st hnn hwf
    obtain ⟨i, a⟩ := p
    have hnn1 : ∀ p ∈ rest, 0 ≤ p.1 := fun p hp => hnn p (List.mem_cons_of_mem _ hp)
    have hwf1 : ∀ p ∈ rest, p.2.requireBodyAssertion = true →
        ∃ decoder, p.2.bodyDecoder = some decoder ∧
          ∀ ver, vs[p.1.toNat]? = some ver → ∃ err, ver.assertBody decoder = Except.ok err :=
      fun p hp => hwf p (List.mem_cons_of_mem _ hp)
    have hi : 0 ≤ i := hnn (i, a) (List.mem_cons_self _ _)
    have ha := hwf (i, a) (List.mem_cons_self _ _)
    rw [verifyLoop]
    by_cases hoob : (vs.length : Int) ≤ i
    · simp only [if_pos hoob]
      rw [ih _ hnn1 hwf1]
      simp [expectedReports, hoob, asserErr_some]
    · simp only [if_neg hoob, if_neg (not_lt.mpr hi)]
      have hlt : i.toNat < vs.length := by omega
      rw [List.getElem?_eq_getElem hlt]
      simp only
      have ha2 : a.requireBodyAssertion = true →
          ∃ decoder err, a.bodyDecoder = some decoder ∧
            (vs[i.toNat]).assertBody decoder = Except.ok err := by
        intro hreq
        obtain ⟨decoder, hdec, hall⟩ := ha hreq
        obtain ⟨err, herr⟩ := hall _ (List.getElem?_eq_getElem hlt)
        exact ⟨decoder, err, hdec, herr⟩
      rw [assertAt_eq name i a _ st ha2]
      simp only
      rw [ih _ hnn1 hwf1]
      cases hf : a.failures vs[i.toNat] <;>
        simp [expectedReports, hoob, List.getElem?_eq_getElem hlt, Bool.or_assoc, hf]

/-- C8, amended: when the snapshots were retrieved, the call-count check does not stop the
verification (no count constraint, or the count matches), no asserted index is negative and every
required body decoder is set and returns on its snapshot, `verifyExpectation` evaluates every
configured constraint of every
asserted index inside the snapshots: the reported reasons are, entry by entry of the assertion map,
exactly the failures of those constraints (one per failing constraint), plus one out-of-bounds
reason for an index beyond the snapshots; the verification fails exactly when a reason was reported
and returns nil otherwise. The statement holds for every order of the maps. -/
theorem verifyExpectation_reports_every_failure (m : mockServer) (e : Expectation)
    (vs : List verification)
    (hret : m.verifications e = Except.ok vs)
    (hcount : e.numCalls = 0 ∨ e.numCalls = (vs.length : Int))
    (hnonneg : ∀ p ∈ e.assertions, 0 ≤ p.1)
    (hwf : ∀ p ∈ e.assertions, p.2.requireBodyAssertion = true →
      ∃ decoder, p.2.bodyDecoder = some decoder ∧
        ∀ ver, vs[p.1.toNat]? = some ver → ∃ err, ver.assertBody decoder = Except.ok err) :
    (m.verifyExpectation e).log = e.assertions.flatMap (expectedReports e.String vs) ∧
    ((m.verifyExpectation e).log = [] → (m.verifyExpectation e).exit = Exit.returned none) ∧
    ((m.verifyExpectation e).log ≠ [] → (m.verifyExpectation e).exit = Exit.failNow) := by
  unfold mockServer.verifyExpectation
  by_cases h0 : e.numCalls = 0 ∧ e.assertions.length = 0
  · have : e.assertions = [] := List.length_eq_zero.mp h0.2
    simp [h0, this]
  · have hc : ¬ (e.numCalls ≠ 0 ∧ (vs.length : Int) ≠ e.numCalls) := by
      rcases hcount with h | h
      · exact fun hh => hh.1 h
      · exact fun hh => hh.2 h.symm
    simp only [if_neg h0, hret, if_neg hc]
    rw [verifyLoop_eq e.String vs e.assertions _ hnonneg hwf]
    simp only [List.nil_append, Bool.false_or]
    cases hl : e.assertions.flatMap (expectedReports e.String vs) with
    | nil => simp
    | cons x xs => simp

theorem exampleAsserted_assertions (n i : Int) :
    (exampleAsserted n i).assertions = [(i, exampleAssertion)] := rfl

/-- C8, counterexample: with a call-count constraint of 2 and one observed snapshot, the assertion
at index 0 (inside the snapshots) has two failing constraints, yet the only reported reason is the
count mismatch: the constraints are not evaluated. -/
theorem verifyExpectation_count_mismatch_skips_constraints :
    (exampleRecorder [exampleSnapshot]).verifications (exampleAsserted 2 0) =
      Except.ok [exampleVerification] ∧
    (exampleAssertion.failures exampleVerification).length = 2 ∧
    ((exampleRecorder [exampleSnapshot]).verifyExpectation (exampleAsserted 2 0)).log.map
      (fun x => x.format) = [numCallsFormat] := by
  refine ⟨rfl, rfl, rfl⟩

theorem verifyExpectation_reports_every_failure_witness :
    (exampleRecorder [exampleSnapshot]).verifications (exampleAsserted 1 0) =
      Except.ok [exampleVerification] ∧
    ((exampleAsserted 1 0).numCalls = 0 ∨
      (exampleAsserted 1 0).numCalls = ([exampleVerification].length : Int)) ∧
    (∀ p ∈ (exampleAsserted 1 0).assertions, 0 ≤ p.1) ∧
    (∀ p ∈ (exampleAsserted 1 0).assertions, p.2.requireBodyAssertion = true →
      ∃ decoder, p.2.bodyDecoder = some decoder ∧
        ∀ ver, [exampleVerification][p.1.toNat]? = some ver →
          ∃ err, ver.assertBody decoder = Except.ok err) ∧
    (((exampleRecorder [exampleSnapshot]).verifyExpectation (exampleAsserted 1 0)).log =
      (exampleAsserted 1 0).assertions.flatMap
        (expectedReports (exampleAsserted 1 0).String [exampleVerification]) ∧
    (((exampleRecorder [exampleSnapshot]).verifyExpectation (exampleAsserted 1 0)).log = [] →
      ((exampleRecorder [exampleSnapshot]).verifyExpectation (exampleAsserted 1 0)).exit =
        Exit.returned none) ∧
    (((exampleRecorder [exampleSnapshot]).verifyExpectation (exampleAsserted 1 0)).log ≠ [] →
      ((exampleRecorder [exampleSnapshot]).verifyExpectation (exampleAsserted 1 0)).exit =
        Exit.failNow)) :=
  ⟨rfl, Or.inr rfl,
    (by intro p hp; rw [exampleAsserted_assertions, List.mem_singleton] at hp; subst hp; decide),
    (by intro p hp; rw [exampleAsserted_assertions, List.mem_singleton] at hp; subst hp
        intro h; cases h),
    verifyExpectation_reports_every_failure (exampleRecorder [exampleSnapshot])
      (exampleAsserted 1 0) [exampleVerification] rfl (Or.inr rfl)
      (by intro p hp; rw [exampleAsserted_assertions, List.mem_singleton] at hp; subst hp; decide)
      (by intro p hp; rw [exampleAsserted_assertions, List.mem_singleton] at hp; subst hp
          intro h; cases h)⟩


/-- C9, counterexample: with a violated call-count constraint (3 expected, 1 observed) and an
assertion at the out-of-bounds index 5, which calls for one out-of-bounds reason, the only reported
reason is the count mismatch. -/
theorem verifyExpectation_count_mismatch_hides_per_call_reasons :
    (exampleRecorder [exampleSnapshot]).verifications (exampleAsserted 3 5) =
      Except.ok [exampleVerification] ∧
    (exampleAsserted 3 5).numCalls = 3 ∧
    ((exampleAsserted 3 5).assertions.flatMap
      (expectedReports (exampleAsserted 3 5).String [exampleVerification])).length = 1 ∧
    ((exampleRecorder [exampleSnapshot]).verifyExpectation (exampleAsserted 3 5)).log.map
      (fun x => x.format) = [numCallsFormat] := by
  refine ⟨rfl, rfl, rfl, rfl⟩

theorem assertionFormat_ne_numCallsFormat : assertionFormat ≠ numCallsFormat := by decide

/-- A violated call-count constraint ends the verification in `t.Fatalf` with the one report. -/
theorem verifyExpectation_of_count_mismatch (m : mockServer) (e : Expectation)
    (vs : List verification) (hret : m.verifications e = Except.ok vs)
    (hn : e.numCalls ≠ 0) (hlen : (vs.length : Int) ≠ e.numCalls) :
    m.verifyExpectation e =
      { log := [{ format := numCallsFormat,
                  args := [LogArg.str e.String, LogArg.str e.request.path,
                           LogArg.int e.numCalls, LogArg.int vs.length] }],
        exit := Exit.failNow } := by
  unfold mockServer.verifyExpectation
  have h0 : ¬ (e.numCalls = 0 ∧ e.assertions.length = 0) := fun h => hn h.1
  simp only [if_neg h0, hret, if_pos (And.intro hn hlen)]

/-- C9, amended: when the call-count constraint is violated, verification reports the count
mismatch alone (citing the name, the path of the matcher, the expected and the actual count) and
fails at once through `t.Fatalf`; no per-call assertion is evaluated and no per-call or
out-of-bounds reason is reported, whatever assertions are registered. -/
theorem verifyExpectation_count_mismatch_reported_alone (m : mockServer) (e : Expectation)
    (vs : List verification) (hret : m.verifications e = Except.ok vs)
    (hn : e.numCalls ≠ 0) (hlen : (vs.length : Int) ≠ e.numCalls) :
    (m.verifyExpectation e).log =
      [{ format := numCallsFormat,
         args := [LogArg.str e.String, LogArg.str e.request.path,
                  LogArg.int e.numCalls, LogArg.int vs.length] }] ∧
    (m.verifyExpectation e).exit = Exit.failNow ∧
    ∀ p ∈ e.assertions, ∀ x ∈ expectedReports e.String vs p, x ∉ (m.verifyExpectation e).log := by
  rw [verifyExpectation_of_count_mismatch m e vs hret hn hlen]
  refine ⟨rfl, rfl, ?_⟩
  intro p _ x hx hmem
  have hfx : x.format = assertionFormat := by
    unfold expectedReports at hx
    by_cases hoob : (vs.length : Int) ≤ p.1
    · rw [if_pos hoob, List.mem_singleton] at hx
      rw [hx]; rfl
    · rw [if_neg hoob] at hx
      cases hv : vs[p.1.toNat]? with
      | none => rw [hv] at hx; cases hx
      | some ver =>
        rw [hv] at hx
        obtain ⟨err, _, rfl⟩ := List.mem_map.mp hx
        rfl
  rw [List.mem_singleton] at hmem
  rw [hmem] at hfx
  exact assertionFormat_ne_numCallsFormat hfx.symm

theorem verifyExpectation_count_mismatch_reported_alone_witness :
    (exampleRecorder [exampleSnapshot]).verifications (exampleAsserted 3 0) =
      Except.ok [exampleVerification] ∧
    (exampleAsserted 3 0).numCalls ≠ 0 ∧
    (([exampleVerification].length : Int) ≠ (exampleAsserted 3 0).numCalls) ∧
    (((exampleRecorder [exampleSnapshot]).verifyExpectation (exampleAsserted 3 0)).log =
      [{ format := numCallsFormat,
         args := [LogArg.str (exampleAsserted 3 0).String,
                  LogArg.str (exampleAsserted 3 0).request.path,
                  LogArg.int (exampleAsserted 3 0).numCalls,
                  LogArg.int [exampleVerification].length] }] ∧
    ((exampleRecorder [exampleSnapshot]).verifyExpectation (exampleAsserted 3 0)).exit =
      Exit.failNow ∧
    ∀ p ∈ (exampleAsserted 3 0).assertions,
      ∀ x ∈ expectedReports (exampleAsserted 3 0).String [exampleVerification] p,
        x ∉ ((exampleRecorder [exampleSnapshot]).verifyExpectation (exampleAsserted 3 0)).log) :=
  ⟨rfl, (by decide), (by decide),
    verifyExpectation_count_mismatch_reported_alone (exampleRecorder [exampleSnapshot])
      (exampleAsserted 3 0) [exampleVerification] rfl (by decide) (by decide)⟩

theorem asserErr_formats (name : String) (i : Int) (err : Option GoError) (st : VerifyState)
    (h : ∀ x ∈ st.log, x.format = assertionFormat) :
    ∀ x ∈ (asserErr name st i err).log, x.format = assertionFormat := by
  cases err with
  | none => exact h
  | some err =>
    intro x hx
    simp only [asserErr, List.mem_append, List.mem_singleton] at hx
    rcases hx with hx | hx
    · exact h x hx
    · rw [hx]

theorem foldl_asserErr_formats {β : Type} (name : String) (i : Int) (f : β → Option GoError)
    (l : List β) : ∀ st : VerifyState, (∀ x ∈ st.log, x.format = assertionFormat) →
    ∀ x ∈ (l.foldl (fun st kv => asserErr name st i (f kv)) st).log,
      x.format = assertionFormat := by
  induction l with
  | nil => intro st h; exact h
  | cons b rest ih =>
    intro st h
    rw [List.foldl_cons]
    exact ih _ (asserErr_formats name i (f b) st h)

theorem assertAt_formats (name : String) (i : Int) (a : assertion) (ver : verification)
    (st st1 : VerifyState) (h : ∀ x ∈ st.log, x.format = assertionFormat)
    (hr : assertAt name i a ver st = Except.ok st1) :
    ∀ x ∈ st1.log, x.format = assertionFormat := by
  have htail : ∀ s0 : VerifyState, (∀ x ∈ s0.log, x.format = assertionFormat) →
      ∀ x ∈ (List.foldl (fun st kv => asserErr name st i (ver.assertNoHeader kv.1))
          (List.foldl (fun st kv => asserErr name st i (ver.assertHeaderRegexp kv.1 kv.2))
            (List.foldl (fun st kv => asserErr name st i (ver.assertHeader kv.1 kv.2))
              (List.foldl (fun st kv => asserErr name st i (ver.assertNoQueryParameter kv.1))
                (List.foldl (fun st kv => asserErr name st i (ver.assertQueryParameter kv.1 kv.2))
                  (List.foldl
                    (fun st kv => asserErr name st i (ver.assertQueryParameterRegexp kv.1 kv.2))
                    (if a.requirePathAssertion = true then
                      asserErr name s0 i (ver.assertPath a.path) else s0)
                    a.queryParamRegexp)
                  a.queryParams)
                a.noQueryParams)
              a.headers)
            a.headersRegexp)
          a.noHeaders).log, x.format = assertionFormat := by
    intro s0 hs0
    have hpath : ∀ x ∈ (if a.requirePathAssertion = true then
        asserErr name s0 i (ver.assertPath a.path) else s0).log, x.format = assertionFormat := by
      by_cases hp : a.requirePathAssertion = true
      · rw [if_pos hp]; exact asserErr_formats name i _ s0 hs0
      · rw [if_neg hp]; exact hs0
    exact foldl_asserErr_formats name i _ _ _
      (foldl_asserErr_formats name i _ _ _
        (foldl_asserErr_formats name i _ _ _
          (foldl_asserErr_formats name i _ _ _
            (foldl_asserErr_formats name i _ _ _
              (foldl_asserErr_formats name i _ _ _ hpath)))))
  unfold assertAt at hr
  by_cases hreq : a.requireBodyAssertion = true
  · cases hdec : a.bodyDecoder with
    | none => simp [hreq, hdec] at hr
    | some decoder =>
      cases hbody : ver.assertBody decoder with
      | error x => simp [hreq, hdec, hbody] at hr
      | ok err =>
        simp only [hreq, hdec, hbody, if_true, Except.ok.injEq] at hr
        rw [← hr]
        exact htail _ (asserErr_formats name i _ st h)
  · simp only [hreq, Bool.false_eq_true, if_false, Except.ok.injEq] at hr
    rw [← hr]
    exact htail _ h

theorem verifyLoop_formats (name : String) (vs : List verification) (l : List (Int × assertion)) :
    ∀ st : VerifyState, (∀ x ∈ st.log, x.format = assertionFormat) →
    ∀ x ∈ (verifyLoop name vs l st).1.log, x.format = assertionFormat := by
  induction l with
  | nil => intro st h; exact h
  | cons p rest ih =>
    intro st h
    obtain ⟨i, a⟩ := p
    rw [verifyLoop]
    by_cases hoob : (vs.length : Int) ≤ i
    · simp only [if_pos hoob]
      exact ih _ (asserErr_formats name i _ st h)
    · simp only [if_neg hoob]
      by_cases hneg : i < 0
      · simp only [if_pos hneg]; exact h
      · simp only [if_neg hneg]
        cases hv : vs[i.toNat]? with
        | none => exact h
        | some ver =>
          simp only
          cases hat : assertAt name i a ver st with
          | error x => exact h
          | ok st1 => exact ih _ (assertAt_formats name i a ver st st1 h hat)

/-- C10, amended: for every nonzero call count `n` given to `NumCalls` and every list of retrieved
snapshots, verification reports a count mismatch if and only if the number of snapshots differs
from `n`; the report cites the name, the path of the matcher, `n` and the actual count, and it is
the only report. -/
theorem numCalls_mismatch_reported_iff (m : mockServer) (e : Expectation) (n : Int)
    (vs : List verification) (hn : n ≠ 0) (hret : m.verifications (e.NumCalls n) = Except.ok vs) :
    ((∃ x ∈ (m.verifyExpectation (e.NumCalls n)).log, x.format = numCallsFormat) ↔
      (vs.length : Int) ≠ n) ∧
    ((vs.length : Int) ≠ n →
      m.verifyExpectation (e.NumCalls n) =
        { log := [{ format := numCallsFormat,
                    args := [LogArg.str e.String, LogArg.str e.request.path,
                             LogArg.int n, LogArg.int vs.length] }],
          exit := Exit.failNow }) := by
  have hmis : (vs.length : Int) ≠ n →
      m.verifyExpectation (e.NumCalls n) =
        { log := [{ format := numCallsFormat,
                    args := [LogArg.str e.String, LogArg.str e.request.path,
                             LogArg.int n, LogArg.int vs.length] }],
          exit := Exit.failNow } := by
    intro hlen
    exact verifyExpectation_of_count_mismatch m (e.NumCalls n) vs hret hn hlen
  refine ⟨⟨?_, ?_⟩, hmis⟩
  · rintro ⟨x, hx, hfmt⟩
    by_contra hlen
    have h0 : ¬ ((e.NumCalls n).numCalls = 0 ∧ (e.NumCalls n).assertions.length = 0) :=
      fun h => hn h.1
    have hc : ¬ ((e.NumCalls n).numCalls ≠ 0 ∧ (vs.length : Int) ≠ (e.NumCalls n).numCalls) :=
      fun h => h.2 hlen
    have hall := verifyLoop_formats (e.NumCalls n).String vs (e.NumCalls n).assertions
      { log := [], fail := false } (by intro x hx; cases hx)
    unfold mockServer.verifyExpectation at hx
    simp only [if_neg h0, hret, if_neg hc] at hx
    generalize verifyLoop (e.NumCalls n).String vs (e.NumCalls n).assertions
      { log := [], fail := false } = res at hx hall
    obtain ⟨st, ab⟩ := res
    have hx2 : x ∈ st.log := by
      cases ab with
      | some a => exact hx
      | none =>
        simp only at hx
        by_cases hf : st.fail = true
        · rw [if_pos hf] at hx; exact hx
        · rw [if_neg hf] at hx; exact hx
    exact assertionFormat_ne_numCallsFormat ((hall x hx2).symm.trans hfmt)
  · intro hlen
    rw [hmis hlen]
    exact ⟨_, List.mem_singleton.mpr rfl, rfl⟩

/-- C10, counterexample: `NumCalls(0)` is the unset constraint. With one observed snapshot the
count differs from 0, yet no count mismatch is reported, neither without assertions (the call
returns nil at once) nor with one (only its two per-call reasons are reported). -/
theorem numCalls_zero_reports_no_mismatch :
    (exampleRecorder [exampleSnapshot]).verifications (exampleExpectation.NumCalls 0) =
      Except.ok [exampleVerification] ∧
    ([exampleVerification].length : Int) ≠ 0 ∧
    ((exampleRecorder [exampleSnapshot]).verifyExpectation (exampleExpectation.NumCalls 0)).log.map
      (fun x => x.format) = [] ∧
    ((exampleRecorder [exampleSnapshot]).verifyExpectation
      ((exampleExpectation.NumCalls 0).AssertionAtCall 0 exampleAssertion)).log.map
      (fun x => x.format) = [assertionFormat, assertionFormat] := by
  refine ⟨rfl, by decide, rfl, rfl⟩

theorem numCalls_mismatch_reported_iff_witness :
    (2 : Int) ≠ 0 ∧
    (exampleRecorder [exampleSnapshot]).verifications (exampleExpectation.NumCalls 2) =
      Except.ok [exampleVerification] ∧
    (((∃ x ∈ ((exampleRecorder [exampleSnapshot]).verifyExpectation
          (exampleExpectation.NumCalls 2)).log, x.format = numCallsFormat) ↔
      ([exampleVerification].length : Int) ≠ 2) ∧
    (([exampleVerification].length : Int) ≠ 2 →
      (exampleRecorder [exampleSnapshot]).verifyExpectation (exampleExpectation.NumCalls 2) =
        { log := [{ format := numCallsFormat,
                    args := [LogArg.str exampleExpectation.String,
                             LogArg.str exampleExpectation.request.path,
                             LogArg.int 2, LogArg.int [exampleVerification].length] }],
          exit := Exit.failNow })) :=
  ⟨by decide, rfl,
    numCalls_mismatch_reported_iff (exampleRecorder [exampleSnapshot]) exampleExpectation 2
      [exampleVerification] (by decide) rfl⟩


/-! ## Theorems: the assertions on one snapshot -/

/-- C11, the code at the failing input: with one observed snapshot and an assertion registered at
call index -1, the index passes the test `i >= len(verifications)` and the slice is indexed with it:
the verification aborts with an index-out-of-range error and reports no mismatch. -/
theorem verifyExpectation_negative_index_aborts :
    (exampleRecorder [exampleSnapshot]).verifications (exampleAsserted 0 (-1)) =
      Except.ok [exampleVerification] ∧
    (exampleAsserted 0 (-1)).assertions.map Prod.fst = [-1] ∧
    ((exampleRecorder [exampleSnapshot]).verifyExpectation (exampleAsserted 0 (-1))).exit =
      Exit.abort Abort.indexOutOfRange ∧
    ((exampleRecorder [exampleSnapshot]).verifyExpectation (exampleAsserted 0 (-1))).log.length = 0 := by
  refine ⟨rfl, rfl, rfl, rfl⟩

theorem ite_none_iff {α : Type} (c : Prop) [Decidable c] (e : α) :
    (if c then none else some e) = none ↔ c := by
  by_cases h : c <;> simp [h]

theorem exists_some_eq_iff {α : Type} (x : α) (P : α → Prop) :
    (∃ av, some x = some av ∧ P av) ↔ P x := by
  constructor
  · rintro ⟨av, hav, h⟩
    cases hav
    exact h
  · intro h
    exact ⟨x, rfl, h⟩

theorem any_string_match_iff (r : Regexp) (xs : List Value) :
    (xs.any (fun h => match h with
        | Value.str header => r.matchString header
        | _ => false) = true) ↔
      ∃ s ∈ (Value.list xs).stringValues, r.matchString s = true := by
  simp only [Value.stringValues, List.any_eq_true, List.mem_filterMap]
  constructor
  · rintro ⟨x, hx, hm⟩
    cases x with
    | str s => exact ⟨s, ⟨Value.str s, hx, rfl⟩, hm⟩
    | _ => simp at hm
  · rintro ⟨s, ⟨x, hx, hs⟩, hm⟩
    cases x with
    | str s1 =>
      simp only [Option.some.injEq] at hs
      subst hs
      exact ⟨Value.str s1, hx, hm⟩
    | _ => simp at hs

/-- C13: a regex assertion (`assertHeaderRegexp`, `assertQueryParameterRegexp`) succeeds if and
only if the key is present and at least one actual value for the key is a string that matches the
pattern; hence it fails for an absent key, an empty value list, and values none of which is a
matching string. -/
theorem regexp_assertions_succeed_iff (v : verification) (key : String) (r : Regexp) :
    (v.assertHeaderRegexp key r = none ↔
      ∃ av, v.headers.get? key = some av ∧ ∃ s ∈ av.stringValues, r.matchString s = true) ∧
    (v.assertQueryParameterRegexp key r = none ↔
      ∃ av, v.queryParams.get? key = some av ∧ ∃ s ∈ av, r.matchString s = true) := by
  constructor
  · unfold verification.assertHeaderRegexp
    cases hget : v.headers.get? key with
    | none => simp
    | some av =>
      rw [exists_some_eq_iff]
      cases av with
      | list xs => simp only []; rw [ite_none_iff]; exact any_string_match_iff r xs
      | str s => simp only []; rw [ite_none_iff]; simp [Value.stringValues]
      | strs xs => simp only []; rw [ite_none_iff]; simp [Value.stringValues, List.any_eq_true]
      | _ => simp [Value.stringValues]
  · unfold verification.assertQueryParameterRegexp
    cases hget : v.queryParams.get? key with
    | none => simp
    | some av =>
      rw [exists_some_eq_iff]
      simp only []
      rw [ite_none_iff]
      simp [List.any_eq_true]

/-- C14: an absence assertion (`assertNoHeader`, `assertNoQueryParameter`) succeeds if and only if
the key is absent from the header map (query-parameter map) of the snapshot; when the key is
present, whatever value it has (an empty list included), the assertion fails with a reason that
lists the observed value and the key. -/
theorem absence_assertions_succeed_iff (v : verification) (key : String) :
    (v.assertNoHeader key = none ↔ v.headers.get? key = none) ∧
    (∀ val, v.headers.get? key = some val →
      v.assertNoHeader key =
        some (GoError.errorf "unexpected header found %v for key '%s'"
          [FmtArg.val val, FmtArg.str key])) ∧
    (v.assertNoQueryParameter key = none ↔ v.queryParams.get? key = none) ∧
    (∀ val, v.queryParams.get? key = some val →
      v.assertNoQueryParameter key =
        some (GoError.errorf "unexpected query parameter found %v for key '%s'"
          [FmtArg.strs val, FmtArg.str key])) := by
  refine ⟨?_, ?_, ?_, ?_⟩
  · unfold verification.assertNoHeader
    cases v.headers.get? key <;> simp
  · intro val h
    simp [verification.assertNoHeader, h]
  · unfold verification.assertNoQueryParameter
    cases v.queryParams.get? key <;> simp
  · intro val h
    simp [verification.assertNoQueryParameter, h]

theorem any_eqString_iff (xs : List Value) (value : String) :
    xs.any (fun s => s.eqString value) = true ↔ Value.str value ∈ xs := by
  simp only [List.any_eq_true]
  constructor
  · rintro ⟨x, hx, hm⟩
    cases x with
    | str s =>
      simp only [Value.eqString, decide_eq_true_eq] at hm
      subst hm
      exact hx
    | _ => simp [Value.eqString] at hm
  · intro h
    exact ⟨Value.str value, h, by simp [Value.eqString]⟩

mutual

/-- What went through `json.Marshal` and `json.Unmarshal` is in the shape `Value.decoded`. -/
theorem json_decoded (b : String → String) : ∀ v : Value, (Value.json b v).decoded = true
  | Value.null => rfl
  | Value.str _ => rfl
  | Value.bytes _ => rfl
  | Value.num _ => rfl
  | Value.bool _ => rfl
  | Value.strs xs => by
    simp only [Value.json, Value.decoded]
    induction xs with
    | nil => rfl
    | cons x rest ih => simpa [Value.decodedList, Value.decoded] using ih
  | Value.list xs => by
    simp only [Value.json, Value.decoded]
    exact jsonList_decoded b xs
  | Value.obj fields => by
    simp only [Value.json, Value.decoded]
    exact jsonFields_decoded b fields

theorem jsonList_decoded (b : String → String) :
    ∀ xs : List Value, Value.decodedList (Value.jsonList b xs) = true
  | [] => rfl
  | x :: xs => by
    simp only [Value.jsonList, Value.decodedList, Bool.and_eq_true]
    exact ⟨json_decoded b x, jsonList_decoded b xs⟩

theorem jsonFields_decoded (b : String → String) :
    ∀ fields : List (String × Value), Value.decodedFields (Value.jsonFields b fields) = true
  | [] => rfl
  | (_, v) :: rest => by
    simp only [Value.jsonFields, Value.decodedFields, Bool.and_eq_true]
    exact ⟨json_decoded b v, jsonFields_decoded b rest⟩

end

/-- C12: on a snapshot whose header value for the key is in the shape `json.Unmarshal` gives (the
recorder's answer is decoded from JSON, so a list is a `[]interface{}`), `assertHeader` succeeds if
and only if the key is present and the expected string is the recorded scalar itself or an element
of the recorded list; `assertQueryParameter` succeeds if and only if the key is present and the
expected string is an element of its values; for an absent key both fail with a reason that names
the key. -/
theorem exact_assertions_succeed_iff (v : verification) (key value : String)
    (hjson : ∀ av, v.headers.get? key = some av → av.decoded = true) :
    (v.assertHeader key value = none ↔
      ∃ av, v.headers.get? key = some av ∧
        (av = Value.str value ∨ ∃ xs, av = Value.list xs ∧ Value.str value ∈ xs)) ∧
    (v.headers.get? key = none →
      v.assertHeader key value =
        some (GoError.errorf "no expected header: %s" [FmtArg.str key])) ∧
    (v.assertQueryParameter key value = none ↔
      ∃ av, v.queryParams.get? key = some av ∧ value ∈ av) ∧
    (v.queryParams.get? key = none →
      v.assertQueryParameter key value =
        some (GoError.errorf "no expected query parameter: %s" [FmtArg.str key])) := by
  refine ⟨?_, ?_, ?_, ?_⟩
  · unfold verification.assertHeader
    cases hget : v.headers.get? key with
    | none => simp
    | some av =>
      have hdec := hjson av hget
      rw [exists_some_eq_iff]
      cases av with
      | list xs =>
        simp only []
        rw [ite_none_iff, any_eqString_iff]
        simp
      | str s =>
        simp only []
        rw [ite_none_iff]
        simp [Value.eqString]
      | strs xs => simp [Value.decoded] at hdec
      | bytes b => simp [Value.decoded] at hdec
      | _ => simp [Value.eqString]
  · intro h
    simp [verification.assertHeader, h]
  · unfold verification.assertQueryParameter
    cases hget : v.queryParams.get? key with
    | none => simp
    | some av =>
      rw [exists_some_eq_iff]
      simp only []
      rw [ite_none_iff]
      simp [List.any_eq_true]
  · intro h
    simp [verification.assertQueryParameter, h]

theorem exact_assertions_succeed_iff_witness :
    (∀ av, exampleVerification.headers.get? "User-Agent" = some av → av.decoded = true) ∧
    ((exampleVerification.assertHeader "User-Agent" "Go-http-client/1.1" = none ↔
      ∃ av, exampleVerification.headers.get? "User-Agent" = some av ∧
        (av = Value.str "Go-http-client/1.1" ∨
          ∃ xs, av = Value.list xs ∧ Value.str "Go-http-client/1.1" ∈ xs)) ∧
    (exampleVerification.headers.get? "User-Agent" = none →
      exampleVerification.assertHeader "User-Agent" "Go-http-client/1.1" =
        some (GoError.errorf "no expected header: %s" [FmtArg.str "User-Agent"])) ∧
    (exampleVerification.assertQueryParameter "User-Agent" "Go-http-client/1.1" = none ↔
      ∃ av, exampleVerification.queryParams.get? "User-Agent" = some av ∧
        "Go-http-client/1.1" ∈ av) ∧
    (exampleVerification.queryParams.get? "User-Agent" = none →
      exampleVerification.assertQueryParameter "User-Agent" "Go-http-client/1.1" =
        some (GoError.errorf "no expected query parameter: %s" [FmtArg.str "User-Agent"]))) :=
  ⟨fun av h => by cases h; rfl,
    exact_assertions_succeed_iff exampleVerification "User-Agent" "Go-http-client/1.1"
      (fun av h => by cases h; rfl)⟩

/-! ## Theorems: the body decoders -/

theorem get?_set {K V : Type} [DecidableEq K] (m : GoMap K V) (k k1 : K) (v : V) :
    GoMap.get? (GoMap.set m k v) k1 = if k = k1 then some v else GoMap.get? m k1 := by
  induction m with
  | nil => simp [GoMap.set, GoMap.get?]
  | cons kv rest ih =>
    obtain ⟨k0, v0⟩ := kv
    by_cases h0 : k0 = k
    · subst h0
      by_cases h1 : k0 = k1 <;> simp [GoMap.set, GoMap.get?, h1]
    · by_cases h1 : k0 = k1
      · subst h1
        simp [GoMap.set, GoMap.get?, h0, Ne.symm h0]
      · simp [GoMap.set, GoMap.get?, h0, h1, ih]

theorem splitChars_ne_nil (sep : Char) (l : List Char) : splitChars sep l ≠ [] := by
  cases l with
  | nil => simp [splitChars]
  | cons c cs =>
    unfold splitChars
    by_cases h : c = sep
    · simp [h]
    · simp only [h, if_false]
      cases splitChars sep cs <;> simp

theorem splitChars_length (sep : Char) (l : List Char) :
    (splitChars sep l).length = l.count sep + 1 := by
  induction l with
  | nil => simp [splitChars]
  | cons c cs ih =>
    unfold splitChars
    by_cases h : c = sep
    · subst h
      simp [ih]
    · simp only [h, if_false]
      have hne := splitChars_ne_nil sep cs
      cases hs : splitChars sep cs with
      | nil => exact absurd hs hne
      | cons seg rest =>
        rw [hs] at ih
        simp only [List.length_cons] at ih ⊢
        rw [List.count_cons_of_ne (Ne.symm h)] 
        omega

theorem splitChars_of_count_zero (sep : Char) (l : List Char) (h : l.count sep = 0) :
    splitChars sep l = [l] := by
  induction l with
  | nil => simp [splitChars]
  | cons c cs ih =>
    have hc : c ≠ sep := by
      intro hc
      subst hc
      simp at h
    have hcs : cs.count c = cs.count c := rfl
    rw [List.count_cons_of_ne (Ne.symm hc)] at h
    unfold splitChars
    simp [hc, ih h]

theorem splitChars_of_count_one (sep : Char) (l : List Char) (h : l.count sep = 1) :
    splitChars sep l =
      [l.takeWhile (fun c => c ≠ sep), (l.dropWhile (fun c => c ≠ sep)).drop 1] := by
  induction l with
  | nil => simp at h
  | cons c cs ih =>
    unfold splitChars
    by_cases hc : c = sep
    · subst hc
      have h0 : cs.count c = 0 := by simpa using h
      simp [splitChars_of_count_zero c cs h0]
    · rw [List.count_cons_of_ne (Ne.symm hc)] at h
      simp [hc, ih h]

theorem splitChars_cons (sep c : Char) (cs : List Char) :
    splitChars sep (c :: cs) =
      if c = sep then [] :: splitChars sep cs
      else
        match splitChars sep cs with
        | [] => [[c]]
        | seg :: rest => (c :: seg) :: rest := by
  rfl

theorem splitChars_append (sep : Char) (a b : List Char) :
    splitChars sep (a ++ sep :: b) = splitChars sep a ++ splitChars sep b := by
  induction a with
  | nil => simp [splitChars_cons, splitChars]
  | cons c cs ih =>
    simp only [List.cons_append]
    rw [splitChars_cons sep c (cs ++ sep :: b), splitChars_cons sep c cs, ih]
    by_cases hc : c = sep
    · simp [hc]
    · simp only [hc, if_false]
      have hne := splitChars_ne_nil sep cs
      cases hs : splitChars sep cs with
      | nil => exact absurd hs hne
      | cons seg rest => simp

theorem get?_jsonFields (b : String → String) (key : String) (fields : GoMap String Value) :
    GoMap.get? (Value.jsonFields b fields) key = (GoMap.get? fields key).map (Value.json b) := by
  induction fields with
  | nil => simp [Value.jsonFields, GoMap.get?]
  | cons kv rest ih =>
    obtain ⟨k, v⟩ := kv
    by_cases hk : k = key
    · simp [Value.jsonFields, GoMap.get?, hk]
    · simp [Value.jsonFields, GoMap.get?, hk, ih]

theorem toMap_obj (json : EncodingJson) (fields : GoMap String Value) :
    json.toMap (Value.obj fields) = Except.ok (Value.jsonFields json.base64 fields) := by
  simp [EncodingJson.toMap, Value.json]

theorem typeOf_jsonFields (json : EncodingJson) (fields : GoMap String Value) :
    typeOf (Value.jsonFields json.base64 fields) = discriminator json fields := by
  simp [typeOf, discriminator, get?_jsonFields]

theorem stringsSplit_length (s : String) (sep : Char) :
    (stringsSplit s sep).length = s.toList.count sep + 1 := by
  simp [stringsSplit, splitChars_length]

theorem stringsSplit_of_count_one (s : String) (h : s.toList.count '=' = 1) :
    stringsSplit s '=' = [formKey s, formValue s] := by
  unfold stringsSplit formKey formValue
  rw [splitChars_of_count_one '=' s.toList h]
  rfl

theorem contentsLoop_cons_pair (pair k v : String) (rest : List String)
    (M : GoMap String (List String)) (h : stringsSplit pair '=' = [k, v]) :
    contentsLoop (pair :: rest) M =
      contentsLoop rest (GoMap.set M k ((GoMap.get? M k).getD [] ++ [v])) := by
  rw [contentsLoop, h]

theorem contentsLoop_cons_bad (pair : String) (rest : List String)
    (M : GoMap String (List String)) (h : (stringsSplit pair '=').length ≠ 2) :
    contentsLoop (pair :: rest) M =
      (M, some (GoError.errorf "form parameter violates requirements %v"
        [FmtArg.strs (stringsSplit pair '=')])) := by
  rw [contentsLoop]
  split
  · rename_i k v heq
    rw [heq] at h
    simp at h
  · rfl

/-- The loop on the contents, for well-formed pairs: no error, and the contents are extended. -/
theorem contentsLoop_ok (segs : List String) :
    ∀ M : GoMap String (List String), (∀ seg ∈ segs, seg.toList.count '=' = 1) →
    ∃ M1, contentsLoop segs M = (M1, none) ∧
      ∀ key, GoMap.get? M1 key =
        if (segs.filter (fun pair => formKey pair = key)).map formValue = [] then GoMap.get? M key
        else some ((GoMap.get? M key).getD [] ++
          (segs.filter (fun pair => formKey pair = key)).map formValue) := by
  induction segs with
  | nil => intro M _; exact ⟨M, rfl, by simp⟩
  | cons seg rest ih =>
    intro M hwell
    have hseg := hwell seg (List.mem_cons_self _ _)
    have hrest : ∀ s ∈ rest, s.toList.count '=' = 1 :=
      fun s hs => hwell s (List.mem_cons_of_mem _ hs)
    rw [contentsLoop_cons_pair seg _ _ rest M (stringsSplit_of_count_one seg hseg)]
    obtain ⟨M1, hM1, hget⟩ := ih _ hrest
    refine ⟨M1, hM1, ?_⟩
    intro key
    rw [hget key, get?_set]
    by_cases hk : formKey seg = key
    · simp only [hk, if_true, List.filter_cons, decide_True, List.map_cons]
      cases hv : (rest.filter (fun pair => formKey pair = key)).map formValue with
      | nil => simp
      | cons x xs => simp
    · simp [hk, List.filter_cons]

theorem contentsLoop_append_good (good rest : List String) :
    ∀ M : GoMap String (List String), (∀ seg ∈ good, seg.toList.count '=' = 1) →
    contentsLoop (good ++ rest) M = contentsLoop rest (contentsLoop good M).1 := by
  induction good with
  | nil => intro M _; rfl
  | cons seg more ih =>
    intro M hgood
    have hseg := hgood seg (List.mem_cons_self _ _)
    have hmore : ∀ s ∈ more, s.toList.count '=' = 1 :=
      fun s hs => hgood s (List.mem_cons_of_mem _ hs)
    rw [List.cons_append,
      contentsLoop_cons_pair seg _ _ (more ++ rest) M (stringsSplit_of_count_one seg hseg),
      contentsLoop_cons_pair seg _ _ more M (stringsSplit_of_count_one seg hseg)]
    exact ih _ hmore

theorem elems_length (s : Slice) (arrays : Arrays) (h : s.valid arrays) :
    (s.elems arrays).length = s.len := by
  obtain ⟨h1, h2⟩ := h
  simp only [Slice.elems, List.length_take, List.length_drop]
  omega
theorem take_drop_set_outside (arr : List String) (c off len : Nat) (x : String)
    (h : c < off ∨ off + len ≤ c) :
    ((arr.set c x).drop off).take len = (arr.drop off).take len := by
  apply List.ext_getElem?
  intro i
  simp only [List.getElem?_take, List.getElem?_drop, List.getElem?_set]
  by_cases hi : i < len
  · simp only [hi, if_true]
    have : c ≠ off + i := by omega
    simp [this]
  · simp [hi]

theorem take_drop_set_next (arr : List String) (off len : Nat) (x : String)
    (h : off + len < arr.length) :
    ((arr.set (off + len) x).drop off).take (len + 1) = (arr.drop off).take len ++ [x] := by
  apply List.ext_getElem?
  intro i
  simp only [List.getElem?_take, List.getElem?_drop, List.getElem?_set, List.getElem?_append,
    List.length_take, List.length_drop]
  have hmin : min len (arr.length - off) = len := by omega
  rw [hmin]
  by_cases hi : i < len
  · have h1 : i < len + 1 := by omega
    have h2 : off + len ≠ off + i := by omega
    simp [hi, h1, h2]
  · by_cases hi2 : i = len
    · subst hi2
      simp [h]
    · have h1 : ¬ i < len + 1 := by omega
      have h3 : i - len ≠ 0 := by omega
      simp [hi, h1]
      omega

theorem elems_congr (e : Slice) (arrays arrays1 : Arrays)
    (h : arrays1.getD e.array [] = arrays.getD e.array []) : e.elems arrays1 = e.elems arrays := by
  unfold Slice.elems
  rw [h]

theorem getD_length_pos {α : Type} (l : List (List α)) (i : Nat) (h : 0 < (l.getD i []).length) :
    i < l.length := by
  by_contra hi
  have : l.getD i [] = [] := by simp [List.getD, List.getElem?_eq_none (Nat.le_of_not_lt hi)]
  rw [this] at h
  simp at h

/-- The builtin `append` on a valid slice: the result is valid and holds the old elements followed
by the new one; a valid slice that shares no storage with the old one keeps its elements and shares
no storage with the result. -/
theorem append_spec (growth : Nat → Nat) (arrays : Arrays) (s : Slice) (x : String)
    (hs : s.valid arrays) :
    (Slice.append growth arrays s x).2.valid (Slice.append growth arrays s x).1 ∧
    (Slice.append growth arrays s x).2.elems (Slice.append growth arrays s x).1 =
      s.elems arrays ++ [x] ∧
    ∀ e : Slice, e.valid arrays → e.apart s →
      e.valid (Slice.append growth arrays s x).1 ∧
      e.elems (Slice.append growth arrays s x).1 = e.elems arrays ∧
      e.apart (Slice.append growth arrays s x).2 := by
  obtain ⟨hlen, hcap⟩ := hs
  by_cases hspare : s.len < s.cap
  · have hpos : 0 < (arrays.getD s.array []).length := by omega
    have harr : s.array < arrays.length := getD_length_pos arrays s.array hpos
    have happ : Slice.append growth arrays s x =
        (arrays.set s.array ((arrays.getD s.array []).set (s.offset + s.len) x),
          { s with len := s.len + 1 }) := by
      simp [Slice.append, hspare]
    rw [happ]
    have hself : (arrays.set s.array ((arrays.getD s.array []).set (s.offset + s.len) x)).getD
        s.array [] = (arrays.getD s.array []).set (s.offset + s.len) x := by
      simp [List.getD, harr]
    refine ⟨?_, ?_, ?_⟩
    · refine ⟨?_, ?_⟩
      · show s.len + 1 ≤ s.cap
        omega
      · show s.offset + s.cap ≤ _
        rw [hself, List.length_set]
        exact hcap
    · show (((arrays.set s.array ((arrays.getD s.array []).set (s.offset + s.len) x)).getD
        s.array []).drop s.offset).take (s.len + 1) = _
      rw [hself, take_drop_set_next _ _ _ _ (by omega)]
      rfl
    · intro e he hap
      obtain ⟨helen, hecap⟩ := he
      by_cases hsame : e.array = s.array
      · have hwin : e.offset + e.cap ≤ s.offset ∨ s.offset + s.cap ≤ e.offset := by
          rcases hap with h | h | h
          · exact absurd hsame h
          · exact Or.inl h
          · exact Or.inr h
        refine ⟨⟨helen, ?_⟩, ?_, ?_⟩
        · rw [hsame, hself, List.length_set, ← hsame]
          exact hecap
        · unfold Slice.elems
          rw [hsame, hself]
          exact take_drop_set_outside _ _ _ _ _ (by omega)
        · rcases hwin with h | h
          · exact Or.inr (Or.inl h)
          · exact Or.inr (Or.inr h)
      · have hother : (arrays.set s.array ((arrays.getD s.array []).set (s.offset + s.len) x)).getD
            e.array [] = arrays.getD e.array [] := by
          simp [List.getD, List.getElem?_set, Ne.symm hsame]
        refine ⟨⟨helen, ?_⟩, elems_congr e _ _ hother, Or.inl hsame⟩
        rw [hother]; exact hecap
  · have happ : Slice.append growth arrays s x =
        (arrays ++ [s.elems arrays ++ x :: List.replicate (growth s.cap) ""],
          { array := arrays.length, offset := 0, len := s.len + 1,
            cap := s.len + 1 + growth s.cap }) := by
      simp [Slice.append, hspare]
    rw [happ]
    have hel : (s.elems arrays).length = s.len := elems_length s arrays ⟨hlen, hcap⟩
    have hnew : (arrays ++ [s.elems arrays ++ x :: List.replicate (growth s.cap) ""]).getD
        arrays.length [] = s.elems arrays ++ x :: List.replicate (growth s.cap) "" := by
      simp [List.getD]
    refine ⟨?_, ?_, ?_⟩
    · refine ⟨?_, ?_⟩
      · show s.len + 1 ≤ s.len + 1 + growth s.cap
        omega
      · show 0 + (s.len + 1 + growth s.cap) ≤ _
        rw [hnew]
        simp [hel]
        omega
    · show (((arrays ++ [s.elems arrays ++ x :: List.replicate (growth s.cap) ""]).getD
        arrays.length []).drop 0).take (s.len + 1) = _
      rw [hnew, List.drop_zero]
      have : s.elems arrays ++ x :: List.replicate (growth s.cap) "" =
          (s.elems arrays ++ [x]) ++ List.replicate (growth s.cap) "" := by simp
      rw [this, List.take_left' (by simp [hel])]
    · intro e he hap
      obtain ⟨helen, hecap⟩ := he
      by_cases hin : e.array < arrays.length
      · have hother : (arrays ++ [s.elems arrays ++ x :: List.replicate (growth s.cap) ""]).getD
            e.array [] = arrays.getD e.array [] := by
          simp [List.getD, List.getElem?_append_left hin]
        refine ⟨⟨helen, ?_⟩, elems_congr e _ _ hother, Or.inl (Nat.ne_of_lt hin)⟩
        rw [hother]; exact hecap
      · have hnone : arrays.getD e.array [] = [] := by
          simp [List.getD, List.getElem?_eq_none (Nat.le_of_not_lt hin)]
        rw [hnone] at hecap
        simp only [List.length_nil, Nat.le_zero, Nat.add_eq_zero] at hecap
        have hl0 : e.len = 0 := by omega
        refine ⟨⟨helen, ?_⟩, ?_, Or.inr (Or.inl ?_)⟩
        · omega
        · unfold Slice.elems
          rw [hl0]
          simp
        · show e.offset + e.cap ≤ 0
          omega

theorem elems_empty (arrays : Arrays) : Slice.empty.elems arrays = [] := by
  simp [Slice.elems, Slice.empty]

theorem valid_empty (arrays : Arrays) : Slice.empty.valid arrays := by
  simp [Slice.valid, Slice.empty]

theorem apart_empty (e : Slice) : e.apart Slice.empty := by
  simp [Slice.apart, Slice.empty]

theorem apart_symm (a b : Slice) (h : a.apart b) : b.apart a := by
  rcases h with h | h | h
  · exact Or.inl (Ne.symm h)
  · exact Or.inr (Or.inr h)
  · exact Or.inr (Or.inl h)

theorem mem_set {K V : Type} [DecidableEq K] (m : GoMap K V) (k : K) (v : V) (e : K × V)
    (h : e ∈ GoMap.set m k v) : e ∈ m ∨ e = (k, v) := by
  induction m with
  | nil =>
    simp only [GoMap.set, List.mem_singleton] at h
    exact Or.inr h
  | cons kv rest ih =>
    obtain ⟨k0, v0⟩ := kv
    by_cases h0 : k0 = k
    · simp only [GoMap.set, h0, if_true, List.mem_cons] at h
      rcases h with h | h
      · exact Or.inr h
      · exact Or.inl (List.mem_cons_of_mem _ h)
    · simp only [GoMap.set, h0, if_false, List.mem_cons] at h
      rcases h with h | h
      · exact Or.inl (by rw [h]; exact List.mem_cons_self _ _)
      · rcases ih h with h1 | h1
        · exact Or.inl (List.mem_cons_of_mem _ h1)
        · exact Or.inr h1

theorem mem_of_get? {K V : Type} [DecidableEq K] (m : GoMap K V) (k : K) (v : V)
    (h : GoMap.get? m k = some v) : (k, v) ∈ m := by
  induction m with
  | nil => simp [GoMap.get?] at h
  | cons kv rest ih =>
    obtain ⟨k0, v0⟩ := kv
    by_cases h0 : k0 = k
    · simp only [GoMap.get?, h0, if_true, Option.some.injEq] at h
      subst h0; subst h
      exact List.mem_cons_self _ _
    · simp only [GoMap.get?, h0, if_false] at h
      exact List.mem_cons_of_mem _ (ih h)

/-- The assignment `expectedBody[k] = params` after `params = append(params, x)`, on a map whose
slices are valid and apart: the map stays so, and its contents change at the key `k` only. -/
theorem set_appended (arrays arrays1 : Arrays) (k : String) (s s1 : Slice) (x : String)
    (hs1 : s1.valid arrays1) (helems : s1.elems arrays1 = s.elems arrays ++ [x])
    (hframe : ∀ e : Slice, e.valid arrays → e.apart s →
      e.valid arrays1 ∧ e.elems arrays1 = e.elems arrays ∧ e.apart s1) :
    ∀ m : GoMap String Slice, (GoMap.get? m k).getD Slice.empty = s →
      (∀ kv ∈ m, kv.2.valid arrays) → m.Pairwise (fun a b => a.2.apart b.2) →
      (∀ kv ∈ GoMap.set m k s1, kv.2.valid arrays1) ∧
      (GoMap.set m k s1).Pairwise (fun a b => a.2.apart b.2) ∧
      (GoMap.set m k s1).map (fun kv => (kv.1, kv.2.elems arrays1)) =
        GoMap.set (m.map (fun kv => (kv.1, kv.2.elems arrays))) k
          ((GoMap.get? (m.map (fun kv => (kv.1, kv.2.elems arrays))) k).getD [] ++ [x]) := by
  intro m
  induction m with
  | nil =>
    intro hs _ _
    simp only [GoMap.get?, Option.getD_none] at hs
    subst hs
    refine ⟨?_, ?_, ?_⟩
    · intro kv hkv
      simp only [GoMap.set, List.mem_singleton] at hkv
      subst hkv
      exact hs1
    · simp [GoMap.set]
    · simp [GoMap.set, GoMap.get?, helems, elems_empty]
  | cons kv rest ih =>
    obtain ⟨k0, s0⟩ := kv
    intro hs hvalid hpair
    have hhead : ∀ e ∈ rest, s0.apart e.2 := (List.pairwise_cons.mp hpair).1
    have htail : rest.Pairwise (fun a b => a.2.apart b.2) := (List.pairwise_cons.mp hpair).2
    have hvrest : ∀ kv ∈ rest, kv.2.valid arrays := fun kv h => hvalid kv (List.mem_cons_of_mem _ h)
    have hv0 : s0.valid arrays := hvalid (k0, s0) (List.mem_cons_self _ _)
    by_cases h0 : k0 = k
    · simp only [GoMap.get?, h0, if_true, Option.getD_some] at hs
      subst hs
      have hrest : ∀ e ∈ rest, e.2.valid arrays1 ∧ e.2.elems arrays1 = e.2.elems arrays ∧
          e.2.apart s1 :=
        fun e he => hframe e.2 (hvrest e he) (apart_symm _ _ (hhead e he))
      refine ⟨?_, ?_, ?_⟩
      · intro kv hkv
        simp only [GoMap.set, h0, if_true, List.mem_cons] at hkv
        rcases hkv with h | h
        · subst h; exact hs1
        · exact (hrest kv h).1
      · simp only [GoMap.set, h0, if_true]
        exact List.pairwise_cons.mpr ⟨fun e he => apart_symm _ _ (hrest e he).2.2, htail⟩
      · simp only [GoMap.set, GoMap.get?, h0, if_true, List.map_cons, Option.getD_some, helems,
          List.cons.injEq, true_and]
        apply List.map_congr_left
        intro e he
        rw [(hrest e he).2.1]
    · simp only [GoMap.get?, h0, if_false] at hs
      have hs0 : s0.apart s := by
        cases hg : GoMap.get? rest k with
        | none =>
          rw [hg] at hs
          simp only [Option.getD_none] at hs
          subst hs
          exact apart_empty s0
        | some s2 =>
          rw [hg] at hs
          simp only [Option.getD_some] at hs
          subst hs
          exact hhead _ (mem_of_get? rest k s2 hg)
      obtain ⟨hv0a, he0, hap0⟩ := hframe s0 hv0 hs0
      obtain ⟨ihv, ihp, ihc⟩ := ih hs hvrest htail
      refine ⟨?_, ?_, ?_⟩
      · intro kv hkv
        simp only [GoMap.set, h0, if_false, List.mem_cons] at hkv
        rcases hkv with h | h
        · subst h; exact hv0a
        · exact ihv kv h
      · simp only [GoMap.set, h0, if_false]
        refine List.pairwise_cons.mpr ⟨?_, ihp⟩
        intro e he
        rcases mem_set rest k s1 e he with h | h
        · exact hhead e h
        · rw [h]; exact hap0
      · simp only [GoMap.set, GoMap.get?, h0, if_false, List.map_cons, he0, List.cons.injEq,
          true_and]
        exact ihc

theorem loop_cons_pair (growth : Nat → Nat) (pair k v : String) (rest : List String)
    (target : FormTarget) (m : GoMap String Slice) (h : stringsSplit pair '=' = [k, v])
    (hm : target.expectedBody = some m) :
    WithFormURLEncodedBody.loop growth (pair :: rest) target =
      WithFormURLEncodedBody.loop growth rest
        { arrays :=
            (Slice.append growth target.arrays ((GoMap.get? m k).getD Slice.empty) v).1,
          expectedBody := some (GoMap.set m k
            (Slice.append growth target.arrays ((GoMap.get? m k).getD Slice.empty) v).2) } := by
  rw [WithFormURLEncodedBody.loop, h]
  simp only [hm, Option.getD_some]

theorem loop_cons_nil_map (growth : Nat → Nat) (pair k v : String) (rest : List String)
    (target : FormTarget) (h : stringsSplit pair '=' = [k, v])
    (hm : target.expectedBody = none) :
    WithFormURLEncodedBody.loop growth (pair :: rest) target =
      Except.error Abort.nilMapAssignment := by
  rw [WithFormURLEncodedBody.loop, h]
  simp only [hm]

theorem loop_cons_bad (growth : Nat → Nat) (pair : String) (rest : List String)
    (target : FormTarget) (h : (stringsSplit pair '=').length ≠ 2) :
    WithFormURLEncodedBody.loop growth (pair :: rest) target =
      Except.ok (target, some (GoError.errorf "form parameter violates requirements %v"
        [FmtArg.strs (stringsSplit pair '=')])) := by
  rw [WithFormURLEncodedBody.loop]
  split
  · rename_i k v heq
    rw [heq] at h
    simp at h
  · rfl

theorem get?_contents (m : GoMap String Slice) (arrays : Arrays) (k : String) :
    GoMap.get? (m.map (fun kv => (kv.1, kv.2.elems arrays))) k =
      (GoMap.get? m k).map (fun s => s.elems arrays) := by
  induction m with
  | nil => simp [GoMap.get?]
  | cons kv rest ih =>
    obtain ⟨k0, s0⟩ := kv
    by_cases h0 : k0 = k
    · simp [GoMap.get?, h0]
    · simp [GoMap.get?, h0, ih]

/-- The loop of the form decoder on a target whose map is not nil and whose slices are apart: it
returns, the target stays such a target, and error and contents are those of `contentsLoop`. -/
theorem loop_contents (growth : Nat → Nat) (segs : List String) :
    ∀ target : FormTarget, target.separate →
    ∃ t1, WithFormURLEncodedBody.loop growth segs target =
        Except.ok (t1, (contentsLoop segs target.contents).2) ∧
      t1.separate ∧ t1.contents = (contentsLoop segs target.contents).1 := by
  induction segs with
  | nil => intro target hsep; exact ⟨target, rfl, hsep, rfl⟩
  | cons seg rest ih =>
    intro target hsep
    obtain ⟨m, hm, hvalid, hpair⟩ := hsep
    by_cases hlen : (stringsSplit seg '=').length = 2
    · obtain ⟨k, v, hkv⟩ := List.length_eq_two.mp hlen
      have hsv : ((GoMap.get? m k).getD Slice.empty).valid target.arrays := by
        cases hg : GoMap.get? m k with
        | none => exact valid_empty _
        | some s => exact hvalid (k, s) (mem_of_get? m k s hg)
      obtain ⟨ha1, ha2, ha3⟩ := append_spec growth target.arrays _ v hsv
      obtain ⟨hv1, hp1, hc1⟩ := set_appended target.arrays _ k _ _ v ha1 ha2 ha3 m rfl hvalid hpair
      have hcont : target.contents = m.map (fun kv => (kv.1, kv.2.elems target.arrays)) := by
        simp [FormTarget.contents, hm]
      obtain ⟨t1, ht1, hsep1, hcont1⟩ := ih
        { arrays :=
            (Slice.append growth target.arrays ((GoMap.get? m k).getD Slice.empty) v).1,
          expectedBody := some (GoMap.set m k
            (Slice.append growth target.arrays ((GoMap.get? m k).getD Slice.empty) v).2) }
        ⟨_, rfl, hv1, hp1⟩
      have hstep : FormTarget.contents
          { arrays :=
              (Slice.append growth target.arrays ((GoMap.get? m k).getD Slice.empty) v).1,
            expectedBody := some (GoMap.set m k
              (Slice.append growth target.arrays ((GoMap.get? m k).getD Slice.empty) v).2) } =
          GoMap.set target.contents k ((GoMap.get? target.contents k).getD [] ++ [v]) := by
        rw [hcont, ← hc1]
        simp [FormTarget.contents]
      rw [hstep] at ht1 hcont1
      rw [loop_cons_pair growth seg k v rest target m hkv hm,
        contentsLoop_cons_pair seg k v rest target.contents hkv]
      exact ⟨t1, ht1, hsep1, hcont1⟩
    · rw [loop_cons_bad growth seg rest target hlen,
        contentsLoop_cons_bad seg rest target.contents hlen]
      exact ⟨target, rfl, ⟨m, hm, hvalid, hpair⟩, rfl⟩

theorem nil_mem_splitChars (sep : Char) (l : List Char)
    (h : l = [] ∨ (∃ a, l = a ++ [sep]) ∨ (∃ a b, l = a ++ sep :: sep :: b)) :
    [] ∈ splitChars sep l := by
  rcases h with h | ⟨a, h⟩ | ⟨a, b, h⟩
  · subst h; simp [splitChars]
  · subst h
    rw [splitChars_append]
    simp [splitChars]
  · subst h
    rw [splitChars_append, splitChars_cons]
    simp

theorem form_decoder_on_wrapper (json : EncodingJson) (growth : Nat → Nat) (target : FormTarget)
    (fields : GoMap String Value) (line : String)
    (htype : GoMap.get? fields "type" = some (Value.str "STRING"))
    (hline : GoMap.get? fields "string" = some (Value.str line)) :
    WithFormURLEncodedBody.bodyDecoder json growth target (Value.obj fields) =
      WithFormURLEncodedBody.loop growth (stringsSplit line '&') target := by
  simp [WithFormURLEncodedBody.bodyDecoder, toMap_obj, typeOf, get?_jsonFields, htype, hline,
    Value.json, Value.eqString]

/-- The loop of the form decoder on a map that is not nil: it returns, and it returns an error if
and only if a segment is malformed. -/
theorem loop_returns_error_iff (growth : Nat → Nat) (segs : List String) :
    ∀ (target : FormTarget) (m : GoMap String Slice), target.expectedBody = some m →
    (∃ r, WithFormURLEncodedBody.loop growth segs target = Except.ok r) ∧
    ((∃ t1 err, WithFormURLEncodedBody.loop growth segs target = Except.ok (t1, some err)) ↔
      ∃ seg ∈ segs, seg.toList.count '=' ≠ 1) := by
  induction segs with
  | nil =>
    intro target m _
    exact ⟨⟨_, rfl⟩, by simp [WithFormURLEncodedBody.loop]⟩
  | cons seg rest ih =>
    intro target m hm
    by_cases hseg : seg.toList.count '=' = 1
    · rw [loop_cons_pair growth seg _ _ rest target m (stringsSplit_of_count_one seg hseg) hm]
      obtain ⟨hret, hiff⟩ := ih
        { arrays := (Slice.append growth target.arrays
            ((GoMap.get? m (formKey seg)).getD Slice.empty) (formValue seg)).1,
          expectedBody := some (GoMap.set m (formKey seg) (Slice.append growth target.arrays
            ((GoMap.get? m (formKey seg)).getD Slice.empty) (formValue seg)).2) } _ rfl
      refine ⟨hret, ?_⟩
      rw [hiff]
      constructor
      · rintro ⟨s, hs, hc⟩
        exact ⟨s, List.mem_cons_of_mem _ hs, hc⟩
      · rintro ⟨s, hs, hc⟩
        rcases List.mem_cons.mp hs with h | h
        · subst h; exact absurd hseg hc
        · exact ⟨s, h, hc⟩
    · have hlen : (stringsSplit seg '=').length ≠ 2 := by
        rw [stringsSplit_length]; omega
      rw [loop_cons_bad growth seg rest target hlen]
      refine ⟨⟨_, rfl⟩, ?_⟩
      constructor
      · intro _; exact ⟨seg, List.mem_cons_self _ _, hseg⟩
      · intro _; exact ⟨_, _, rfl⟩

theorem exampleFormTarget_separate : exampleFormTarget.separate := by
  refine ⟨_, rfl, ?_, ?_⟩
  · intro kv hkv
    simp only [List.mem_singleton] at hkv
    subst hkv
    exact ⟨by decide, by decide⟩
  · simp

theorem exampleEmptyForm_separate : exampleEmptyForm.separate :=
  ⟨[], rfl, by simp, by simp⟩

/-- C16, counterexample: on the nil map the form decoder aborts at the first assignment instead of
succeeding, whatever the line of well-formed pairs is; and on a map whose slices share storage,
`a: s[:1]` and `b: s` for one `s` of two elements, the line `a=1` overwrites the second element of
`b`, a key that has no pair in the line. -/
theorem form_decoder_aborts_on_nil_map :
    WithFormURLEncodedBody.bodyDecoder exampleJson exampleGrowth exampleNilForm
        (exampleFormWrapper (Value.str "username=John&password=Doe")) =
      Except.error Abort.nilMapAssignment ∧
    exampleSharedForm.contents = [("a", ["x"]), ("b", ["x", "y"])] ∧
    formValues "a=1" "b" = [] ∧
    ∃ t1, WithFormURLEncodedBody.bodyDecoder exampleJson exampleGrowth exampleSharedForm
          (exampleFormWrapper (Value.str "a=1")) = Except.ok (t1, none) ∧
      t1.contents = [("a", ["x", "1"]), ("b", ["x", "1"])] := by
  refine ⟨rfl, rfl, by decide, _, rfl, rfl⟩

/-- C16, amended: for a map that is not nil and whose slices do not share storage, and a wrapper
with the discriminator `STRING` whose line is a list of pairs separated by `&`, each with exactly
one `=`, the form decoder succeeds, and afterwards the map holds for every key the values it had
before followed by the values of the pairs of the line with that key, in their order; a key without
a pair is untouched. On the empty map the line `username=John&password=Doe` gives
`username: [John], password: [Doe]`. -/
theorem form_decoder_result (json : EncodingJson) (growth : Nat → Nat) (target : FormTarget)
    (fields : GoMap String Value) (line : String)
    (htype : GoMap.get? fields "type" = some (Value.str "STRING"))
    (hline : GoMap.get? fields "string" = some (Value.str line))
    (hwell : ∀ seg ∈ stringsSplit line '&', seg.toList.count '=' = 1)
    (hsep : target.separate) :
    (∃ t1, WithFormURLEncodedBody.bodyDecoder json growth target (Value.obj fields) =
        Except.ok (t1, none) ∧ t1.separate ∧
      ∀ key, GoMap.get? t1.contents key =
        if formValues line key = [] then GoMap.get? target.contents key
        else some ((GoMap.get? target.contents key).getD [] ++ formValues line key)) ∧
    ∃ t1, WithFormURLEncodedBody.bodyDecoder json growth exampleEmptyForm
          (exampleFormWrapper (Value.str "username=John&password=Doe")) = Except.ok (t1, none) ∧
      t1.contents = [("username", ["John"]), ("password", ["Doe"])] := by
  constructor
  · rw [form_decoder_on_wrapper json growth target fields line htype hline]
    obtain ⟨t1, ht1, hsep1, hc1⟩ := loop_contents growth (stringsSplit line '&') target hsep
    obtain ⟨M1, hM1, hget⟩ := contentsLoop_ok (stringsSplit line '&') target.contents hwell
    rw [hM1] at ht1 hc1
    refine ⟨t1, ht1, hsep1, ?_⟩
    rw [hc1]
    exact hget
  · rw [exampleFormWrapper, form_decoder_on_wrapper json growth exampleEmptyForm
      [("type", Value.str "STRING"), ("string", Value.str "username=John&password=Doe")]
      "username=John&password=Doe" rfl rfl]
    obtain ⟨t1, ht1, _, hc1⟩ := loop_contents growth
      (stringsSplit "username=John&password=Doe" '&') exampleEmptyForm exampleEmptyForm_separate
    exact ⟨t1, ht1, hc1⟩

theorem form_decoder_result_witness :
    GoMap.get? [("type", Value.str "STRING"), ("string", Value.str "a=1&b=2&a=3")] "type" =
      some (Value.str "STRING") ∧
    GoMap.get? [("type", Value.str "STRING"), ("string", Value.str "a=1&b=2&a=3")] "string" =
      some (Value.str "a=1&b=2&a=3") ∧
    (∀ seg ∈ stringsSplit "a=1&b=2&a=3" '&', seg.toList.count '=' = 1) ∧
    exampleFormTarget.separate ∧
    exampleFormTarget.contents = [("a", ["0"])] ∧
    (∃ t1, WithFormURLEncodedBody.bodyDecoder exampleJson exampleGrowth exampleFormTarget
          (Value.obj [("type", Value.str "STRING"), ("string", Value.str "a=1&b=2&a=3")]) =
        Except.ok (t1, none) ∧
      t1.contents = [("a", ["0", "1", "3"]), ("b", ["2"])]) ∧
    ((∃ t1, WithFormURLEncodedBody.bodyDecoder exampleJson exampleGrowth exampleFormTarget
          (Value.obj [("type", Value.str "STRING"), ("string", Value.str "a=1&b=2&a=3")]) =
        Except.ok (t1, none) ∧ t1.separate ∧
      ∀ key, GoMap.get? t1.contents key =
        if formValues "a=1&b=2&a=3" key = [] then GoMap.get? exampleFormTarget.contents key
        else some ((GoMap.get? exampleFormTarget.contents key).getD [] ++
          formValues "a=1&b=2&a=3" key)) ∧
    ∃ t1, WithFormURLEncodedBody.bodyDecoder exampleJson exampleGrowth exampleEmptyForm
          (exampleFormWrapper (Value.str "username=John&password=Doe")) = Except.ok (t1, none) ∧
      t1.contents = [("username", ["John"]), ("password", ["Doe"])]) :=
  ⟨rfl, rfl, (by decide), exampleFormTarget_separate, rfl, ⟨_, rfl, rfl⟩,
    form_decoder_result exampleJson exampleGrowth exampleFormTarget
      [("type", Value.str "STRING"), ("string", Value.str "a=1&b=2&a=3")] "a=1&b=2&a=3"
      rfl rfl (by decide) exampleFormTarget_separate⟩

/-- C17, counterexample: on the nil map the form decoder does not return a failure for the line
`a=1&b`, although its segment `b` has no `=`: it aborts at the assignment for the pair `a=1`. It
aborts in the same way on the line `a=1`, which has no malformed segment. -/
theorem form_decoder_on_nil_map_aborts_before_malformed_segment :
    (∃ seg ∈ stringsSplit "a=1&b" '&', seg.toList.count '=' ≠ 1) ∧
    WithFormURLEncodedBody.bodyDecoder exampleJson exampleGrowth exampleNilForm
        (exampleFormWrapper (Value.str "a=1&b")) = Except.error Abort.nilMapAssignment ∧
    (∀ seg ∈ stringsSplit "a=1" '&', seg.toList.count '=' = 1) ∧
    WithFormURLEncodedBody.bodyDecoder exampleJson exampleGrowth exampleNilForm
        (exampleFormWrapper (Value.str "a=1")) = Except.error Abort.nilMapAssignment := by
  refine ⟨by decide, rfl, by decide, rfl⟩

/-- C17, amended: for a wrapper with the discriminator `STRING` and a string line, and a map that is
not nil, the form decoder returns, and it returns a failure if and only if some segment of the line
between `&` does not contain exactly one `=`; this is so for the empty line, a line that ends in `&`
and a line with `&&`. On the nil map the first segment decides: the decoder returns the failure for
it when it is malformed, and aborts at the assignment when it is a pair. -/
theorem form_decoder_fails_iff (json : EncodingJson) (growth : Nat → Nat) (target : FormTarget)
    (fields : GoMap String Value) (line : String)
    (htype : GoMap.get? fields "type" = some (Value.str "STRING"))
    (hline : GoMap.get? fields "string" = some (Value.str line)) :
    (target.expectedBody ≠ none →
      (∃ r, WithFormURLEncodedBody.bodyDecoder json growth target (Value.obj fields) =
        Except.ok r) ∧
      ((∃ t1 err, WithFormURLEncodedBody.bodyDecoder json growth target (Value.obj fields) =
          Except.ok (t1, some err)) ↔
        ∃ seg ∈ stringsSplit line '&', seg.toList.count '=' ≠ 1) ∧
      ((line.toList = [] ∨ (∃ a, line.toList = a ++ ['&']) ∨
          (∃ a b, line.toList = a ++ '&' :: '&' :: b)) →
        ∃ t1 err, WithFormURLEncodedBody.bodyDecoder json growth target (Value.obj fields) =
          Except.ok (t1, some err))) ∧
    (target.expectedBody = none →
      ∃ first rest, stringsSplit line '&' = first :: rest ∧
        (first.toList.count '=' = 1 →
          WithFormURLEncodedBody.bodyDecoder json growth target (Value.obj fields) =
            Except.error Abort.nilMapAssignment) ∧
        (first.toList.count '=' ≠ 1 →
          WithFormURLEncodedBody.bodyDecoder json growth target (Value.obj fields) =
            Except.ok (target, some (GoError.errorf "form parameter violates requirements %v"
              [FmtArg.strs (stringsSplit first '=')])))) := by
  rw [form_decoder_on_wrapper json growth target fields line htype hline]
  constructor
  · intro hmap
    obtain ⟨m, hm⟩ := Option.ne_none_iff_exists'.mp hmap
    obtain ⟨hret, hiff⟩ := loop_returns_error_iff growth (stringsSplit line '&') target m hm
    refine ⟨hret, hiff, ?_⟩
    intro h
    refine hiff.mpr ⟨"", ?_, by decide⟩
    have := nil_mem_splitChars '&' line.toList h
    exact List.mem_map.mpr ⟨[], this, rfl⟩
  · intro hmap
    have hne : stringsSplit line '&' ≠ [] := by
      intro h
      have := stringsSplit_length line '&'
      rw [h] at this
      simp at this
    obtain ⟨first, rest, hsplit⟩ := List.exists_cons_of_ne_nil hne
    refine ⟨first, rest, hsplit, ?_, ?_⟩
    · intro hfirst
      rw [hsplit, loop_cons_nil_map growth first _ _ rest target
        (stringsSplit_of_count_one first hfirst) hmap]
    · intro hfirst
      have hlen : (stringsSplit first '=').length ≠ 2 := by
        rw [stringsSplit_length]; omega
      rw [hsplit, loop_cons_bad growth first rest target hlen]

theorem form_decoder_fails_iff_witness :
    GoMap.get? [("type", Value.str "STRING"), ("string", Value.str "a=1&&b=2")] "type" =
      some (Value.str "STRING") ∧
    GoMap.get? [("type", Value.str "STRING"), ("string", Value.str "a=1&&b=2")] "string" =
      some (Value.str "a=1&&b=2") ∧
    exampleEmptyForm.expectedBody ≠ none ∧
    exampleNilForm.expectedBody = none ∧
    ((∃ r, WithFormURLEncodedBody.bodyDecoder exampleJson exampleGrowth exampleEmptyForm
        (Value.obj [("type", Value.str "STRING"), ("string", Value.str "a=1&&b=2")]) =
        Except.ok r) ∧
      ((∃ t1 err, WithFormURLEncodedBody.bodyDecoder exampleJson exampleGrowth exampleEmptyForm
          (Value.obj [("type", Value.str "STRING"), ("string", Value.str "a=1&&b=2")]) =
          Except.ok (t1, some err)) ↔
        ∃ seg ∈ stringsSplit "a=1&&b=2" '&', seg.toList.count '=' ≠ 1) ∧
      ((("a=1&&b=2" : String).toList = [] ∨ (∃ a, ("a=1&&b=2" : String).toList = a ++ ['&']) ∨
          (∃ a b, ("a=1&&b=2" : String).toList = a ++ '&' :: '&' :: b)) →
        ∃ t1 err, WithFormURLEncodedBody.bodyDecoder exampleJson exampleGrowth exampleEmptyForm
          (Value.obj [("type", Value.str "STRING"), ("string", Value.str "a=1&&b=2")]) =
          Except.ok (t1, some err))) ∧
    (∃ first rest, stringsSplit "a=1&&b=2" '&' = first :: rest ∧
      (first.toList.count '=' = 1 →
        WithFormURLEncodedBody.bodyDecoder exampleJson exampleGrowth exampleNilForm
          (Value.obj [("type", Value.str "STRING"), ("string", Value.str "a=1&&b=2")]) =
          Except.error Abort.nilMapAssignment) ∧
      (first.toList.count '=' ≠ 1 →
        WithFormURLEncodedBody.bodyDecoder exampleJson exampleGrowth exampleNilForm
          (Value.obj [("type", Value.str "STRING"), ("string", Value.str "a=1&&b=2")]) =
          Except.ok (exampleNilForm,
            some (GoError.errorf "form parameter violates requirements %v"
              [FmtArg.strs (stringsSplit first '=')])))) :=
  ⟨rfl, rfl, (by simp [exampleEmptyForm]), rfl,
    (form_decoder_fails_iff exampleJson exampleGrowth exampleEmptyForm
      [("type", Value.str "STRING"), ("string", Value.str "a=1&&b=2")] "a=1&&b=2" rfl rfl).1
      (by simp [exampleEmptyForm]),
    (form_decoder_fails_iff exampleJson exampleGrowth exampleNilForm
      [("type", Value.str "STRING"), ("string", Value.str "a=1&&b=2")] "a=1&&b=2" rfl rfl).2
      rfl⟩

/-- C18: for a wrapper object whose discriminator is not the supported one (not `JSON` for the
decoder of `WithJsonBody`, not `STRING` for the decoder of `WithFormURLEncodedBody`; a missing
discriminator is nil and is neither), the decoder returns a failure whose arguments are the
supported discriminator set and the discriminator received, and the target is unchanged. -/
theorem unknown_discriminator_is_reported {T : Type} (json : EncodingJson)
    (unmarshal : Value → T → T × Option GoError) (target : T)
    (growth : Nat → Nat) (formTarget : FormTarget) (fields : GoMap String Value) :
    ((discriminator json fields).eqString "JSON" = false →
      WithJsonBody.bodyDecoder json unmarshal target (Value.obj fields) =
        Except.ok (target,
          some (GoError.errorf "unknown json type, expected one of [%v]; got %v"
            [FmtArg.strs ["JSON"], FmtArg.val (discriminator json fields)]))) ∧
    ((discriminator json fields).eqString "STRING" = false →
      WithFormURLEncodedBody.bodyDecoder json growth formTarget (Value.obj fields) =
        Except.ok (formTarget,
          some (GoError.errorf "unknown form type, expected one of [%v]; got %v"
            [FmtArg.strs ["STRING"], FmtArg.val (discriminator json fields)]))) ∧
    (GoMap.get? fields "type" = none →
      discriminator json fields = Value.null ∧
      (discriminator json fields).eqString "JSON" = false ∧
      (discriminator json fields).eqString "STRING" = false) := by
  refine ⟨?_, ?_, ?_⟩
  · intro h
    simp [WithJsonBody.bodyDecoder, WithJsonBody.wrapped, toMap_obj, typeOf_jsonFields, h]
  · intro h
    simp [WithFormURLEncodedBody.bodyDecoder, toMap_obj, typeOf_jsonFields, h]
  · intro h
    simp [discriminator, h, Value.eqString]

theorem unknown_discriminator_is_reported_witness :
    ((discriminator exampleJson [("type", Value.str "XML"), ("xml", Value.str "<a/>")]).eqString
        "JSON" = false →
      WithJsonBody.bodyDecoder exampleJson unmarshalAny Value.null
          (Value.obj [("type", Value.str "XML"), ("xml", Value.str "<a/>")]) =
        Except.ok (Value.null,
          some (GoError.errorf "unknown json type, expected one of [%v]; got %v"
            [FmtArg.strs ["JSON"],
             FmtArg.val (discriminator exampleJson
               [("type", Value.str "XML"), ("xml", Value.str "<a/>")])]))) ∧
    ((discriminator exampleJson [("type", Value.str "XML"), ("xml", Value.str "<a/>")]).eqString
        "STRING" = false →
      WithFormURLEncodedBody.bodyDecoder exampleJson exampleGrowth exampleEmptyForm
          (Value.obj [("type", Value.str "XML"), ("xml", Value.str "<a/>")]) =
        Except.ok (exampleEmptyForm,
          some (GoError.errorf "unknown form type, expected one of [%v]; got %v"
            [FmtArg.strs ["STRING"],
             FmtArg.val (discriminator exampleJson
               [("type", Value.str "XML"), ("xml", Value.str "<a/>")])]))) ∧
    (GoMap.get? [("type", Value.str "XML"), ("xml", Value.str "<a/>")] "type" = none →
      discriminator exampleJson [("type", Value.str "XML"), ("xml", Value.str "<a/>")] =
        Value.null ∧
      (discriminator exampleJson [("type", Value.str "XML"), ("xml", Value.str "<a/>")]).eqString
        "JSON" = false ∧
      (discriminator exampleJson [("type", Value.str "XML"), ("xml", Value.str "<a/>")]).eqString
        "STRING" = false) :=
  unknown_discriminator_is_reported exampleJson unmarshalAny Value.null exampleGrowth
    exampleEmptyForm [("type", Value.str "XML"), ("xml", Value.str "<a/>")]

/-- The clause `default` of the decoder of `WithJsonBody` always returns an error. -/
theorem json_wrapped_fails {T : Type} (json : EncodingJson)
    (unmarshal : Value → T → T × Option GoError) (target : T) (body : Value) :
    ∃ t err, WithJsonBody.wrapped json unmarshal target body = Except.ok (t, some err) := by
  unfold WithJsonBody.wrapped
  cases json.toMap body with
  | error err => exact ⟨_, _, rfl⟩
  | ok m =>
    simp only
    by_cases ht : (typeOf m).eqString "JSON" = true
    · rw [if_pos ht]
      cases hj : m.get? "json" with
      | none => exact ⟨_, _, rfl⟩
      | some detectedBody =>
        simp only
        rcases hu : unmarshal detectedBody target with ⟨t, e⟩
        cases e with
        | none => exact ⟨_, _, rfl⟩
        | some err => exact ⟨_, _, rfl⟩
    · rw [if_neg ht]
      exact ⟨_, _, rfl⟩

/-- The decoder of `WithJsonBody` reports a failure for every body that is not a raw text. -/
theorem json_decoder_fails_unless_raw {T : Type} (json : EncodingJson)
    (unmarshal : Value → T → T × Option GoError) (target : T) (body : Value)
    (hs : ∀ s, body ≠ Value.str s) (hb : ∀ b, body ≠ Value.bytes b) :
    ∃ t err, WithJsonBody.bodyDecoder json unmarshal target body = Except.ok (t, some err) := by
  cases body with
  | str s => exact absurd rfl (hs s)
  | bytes b => exact absurd rfl (hb b)
  | _ => simp only [WithJsonBody.bodyDecoder]; exact json_wrapped_fails json unmarshal target _

/-- C15, the code at the failing input: the raw payload `[1]`, as a string or as bytes, decodes
into the target and reports no failure; the tagged wrapper around the same value decodes into the
target as well, and then reports the failure `request ... is not in expected format`. -/
theorem json_decoder_fails_on_wrapper :
    WithJsonBody.bodyDecoder exampleJson unmarshalAny Value.null (Value.str "[1]") =
      Except.ok (Value.list [Value.num 1], none) ∧
    WithJsonBody.bodyDecoder exampleJson unmarshalAny Value.null (Value.bytes "[1]") =
      Except.ok (Value.list [Value.num 1], none) ∧
    WithJsonBody.bodyDecoder exampleJson unmarshalAny Value.null
        (exampleJsonWrapper (Value.list [Value.num 1])) =
      Except.ok (Value.list [Value.num 1],
        some (GoError.errorf "request %v is not in expected format"
          [FmtArg.val (exampleJsonWrapper (Value.list [Value.num 1]))])) := by
  refine ⟨rfl, rfl, rfl⟩

/-- C19, counterexample: the empty string and the empty byte payload are not nil, so the decoder
of `WithNoBody` fails on them. -/
theorem no_body_decoder_rejects_empty_body :
    WithNoBody.bodyDecoder (Value.str "") =
      Except.ok (some (GoError.errorf "expected no body, but got %v" [FmtArg.val (Value.str "")])) ∧
    WithNoBody.bodyDecoder (Value.bytes "") =
      Except.ok (some (GoError.errorf "expected no body, but got %v"
        [FmtArg.val (Value.bytes "")])) := by
  refine ⟨rfl, rfl⟩

/-- C19, amended: the decoder of `WithNoBody` succeeds if and only if the recorded body is null
(nil); on every other body, the empty string and the empty byte payload included, it fails with the
reason `expected no body, but got ...` that echoes the body. -/
theorem no_body_decoder_succeeds_iff_null (body : Value) :
    (WithNoBody.bodyDecoder body = Except.ok none ↔ body = Value.null) ∧
    (WithNoBody.bodyDecoder body = Except.ok none ∨
      WithNoBody.bodyDecoder body =
        Except.ok (some (GoError.errorf "expected no body, but got %v" [FmtArg.val body]))) := by
  cases body <;> simp [WithNoBody.bodyDecoder]

/-- C20, the code at the failing input: for a wrapper with the discriminator `STRING` whose field
`string` holds the number 5 (or null), the type assertion `line.(string)` of the form decoder
aborts, whatever the target is; no failure value is returned. -/
theorem form_decoder_aborts_on_non_string_line :
    (∀ (growth : Nat → Nat) (target : FormTarget),
      WithFormURLEncodedBody.bodyDecoder exampleJson growth target
        (exampleFormWrapper (Value.num 5)) = Except.error Abort.interfaceConversion) ∧
    (∀ (growth : Nat → Nat) (target : FormTarget),
      WithFormURLEncodedBody.bodyDecoder exampleJson growth target
        (exampleFormWrapper Value.null) = Except.error Abort.interfaceConversion) := by
  refine ⟨fun _ _ => rfl, fun _ _ => rfl⟩

/-! ## Theorems: transport failures, `Clear`, and the remaining properties of `build` -/

/-- The method `verifyExpectation` has no return of a non-nil error. -/
theorem verifyExpectation_returns_no_error (m : mockServer) (e : Expectation) (err : GoError) :
    (m.verifyExpectation e).exit ≠ Exit.returned (some err) := by
  unfold mockServer.verifyExpectation
  by_cases h0 : e.numCalls = 0 ∧ e.assertions.length = 0
  · simp [h0]
  · rw [if_neg h0]
    cases hret : m.verifications e with
    | error x => simp
    | ok vs =>
      simp only
      by_cases hc : e.numCalls ≠ 0 ∧ (vs.length : Int) ≠ e.numCalls
      · rw [if_pos hc]; simp
      · rw [if_neg hc]
        rcases verifyLoop e.String vs e.assertions { log := [], fail := false } with ⟨st, ab⟩
        cases ab with
        | some x => simp
        | none =>
          simp only
          by_cases hf : st.fail = true
          · rw [if_pos hf]; simp
          · rw [if_neg hf]; simp

/-- C21, the code at the failing input: the recorder cannot be reached. The method `verifications`
makes the wrapped transport error, but `verifyExpectation` does not return it: it reports
`unable to verify expectation` through `t.Fatalf`, which stops the test, so neither
`VerifyExpectation` nor `Verify` returns an error. -/
theorem verification_stops_the_test_on_transport_failure :
    exampleUnreachable.verifications (exampleAsserted 1 0) =
      Except.error (GoError.wrapf (GoError.errorf "unable to call mockserver" [])
        "unable to get verifications for expectation %s" [FmtArg.str "e-1"]) ∧
    (exampleUnreachable.VerifyExpectation (exampleAsserted 1 0)).exit = Exit.failNow ∧
    (exampleUnreachable.VerifyExpectation (exampleAsserted 1 0)).log =
      [{ format := retrieveFormat, args := [LogArg.str "e-1", LogArg.str "e-1"] }] ∧
    (exampleUnreachable.Verify
      { heap := [exampleAsserted 1 0], nextUuid := 0, pushed := [] }).exit = Exit.failNow := by
  refine ⟨rfl, rfl, rfl, rfl⟩

/-- C22, the code at the failing input: `Setup` pushes the three rules of the sample expectation
under the identifiers `newClientExpectation` draws for them, `uuid-0`, `uuid-1` and `uuid-2`;
`Clear` sends the identifier `e-1` of the expectation itself, which no pushed rule has. The local
registry entry is removed. -/
theorem Clear_sends_an_id_no_rule_has :
    (exampleServer.Setup exampleUuid exampleWorld [0]).result = Except.ok none ∧
    (exampleServer.Setup exampleUuid exampleWorld [0]).world.pushed.map (fun r => r.ID) =
      ["uuid-0", "uuid-1", "uuid-2"] ∧
    (exampleServer.Clear (exampleServer.Setup exampleUuid exampleWorld [0]).world 0).sent =
      some { ExpectationID := { ID := "e-1" } } ∧
    "e-1" ∉ (exampleServer.Setup exampleUuid exampleWorld [0]).world.pushed.map (fun r => r.ID) ∧
    (exampleServer.Clear (exampleServer.Setup exampleUuid exampleWorld [0]).world 0).result =
      Except.ok none ∧
    (exampleServer.Clear
      (exampleServer.Setup exampleUuid exampleWorld [0]).world 0).server.expectations = [] := by
  refine ⟨rfl, by decide, rfl, by decide, rfl, by decide⟩

/-- C24: on an expectation on which `DefaultResponse` was never called, whatever its sequential
responses, `build` aborts instead of returning rules and leaves the expectation marked finalized;
on a not-yet-compiled one the abort is the nil dereference of the missing default response. -/
theorem build_aborts_without_default_response (uuid : Nat → String) (c : Nat) (e : Expectation)
    (hd : e.defaultResponse = none) :
    (∃ a, (e.build uuid c).result = Except.error a) ∧
    (e.build uuid c).receiver.isBuilt = true ∧
    (e.isBuilt = false →
      (e.build uuid c).result = Except.error Abort.nilDereference ∧
      (e.build uuid c).receiver = { e with isBuilt := true }) := by
  cases hb : e.isBuilt with
  | true =>
    rw [build_of_built uuid c e hb]
    exact ⟨⟨_, rfl⟩, hb, fun h => by cases h⟩
  | false =>
    have h : (e.build uuid c).result = Except.error Abort.nilDereference ∧
        (e.build uuid c).receiver = { e with isBuilt := true } := by
      simp [Expectation.build, hb, hd]
    exact ⟨⟨_, h.1⟩, by rw [h.2], fun _ => h⟩

theorem build_aborts_without_default_response_witness :
    (newExpectation "e-0" "GET" "/pets").defaultResponse = none ∧
    ((∃ a, ((newExpectation "e-0" "GET" "/pets").build exampleUuid 0).result = Except.error a) ∧
    ((newExpectation "e-0" "GET" "/pets").build exampleUuid 0).receiver.isBuilt = true ∧
    ((newExpectation "e-0" "GET" "/pets").isBuilt = false →
      ((newExpectation "e-0" "GET" "/pets").build exampleUuid 0).result =
        Except.error Abort.nilDereference ∧
      ((newExpectation "e-0" "GET" "/pets").build exampleUuid 0).receiver =
        { newExpectation "e-0" "GET" "/pets" with isBuilt := true })) :=
  ⟨rfl, build_aborts_without_default_response exampleUuid 0 (newExpectation "e-0" "GET" "/pets") rfl⟩

theorem getElem?_set_built (heap : List Expectation) (p q : Nat) (x e r : Expectation)
    (hp : heap[p]? = some x) (hq : heap[q]? = some e) (he : e.isBuilt = true)
    (hr : r.isBuilt = true) :
    ∃ e1, (heap.set p r)[q]? = some e1 ∧ e1.isBuilt = true := by
  rw [List.getElem?_set]
  by_cases hpq : p = q
  · subst hpq
    rw [if_pos rfl, if_pos (List.getElem?_eq_some.mp hp).1]
    exact ⟨r, rfl, hr⟩
  · rw [if_neg hpq]
    exact ⟨e, hq, he⟩

theorem Setup_preserves_built (m : mockServer) (uuid : Nat → String) (ps : List Nat) :
    ∀ (w : World) (q : Nat) (e : Expectation), w.heap[q]? = some e → e.isBuilt = true →
    ∃ e1, (m.Setup uuid w ps).world.heap[q]? = some e1 ∧ e1.isBuilt = true := by
  induction ps with
  | nil => intro w q e hq he; exact ⟨e, hq, he⟩
  | cons p rest ih =>
    intro w q e hq he
    rw [Setup_cons]
    cases hp : w.heap[p]? with
    | none => exact ⟨e, hq, he⟩
    | some x =>
      simp only
      obtain ⟨e1, hq1, he1⟩ := getElem?_set_built w.heap p q x e
        (x.build uuid w.nextUuid).receiver hp hq he (build_receiver_isBuilt uuid w.nextUuid x)
      cases hr : (x.build uuid w.nextUuid).result with
      | error a => exact ⟨e1, hq1, he1⟩
      | ok rules =>
        simp only
        cases hl : mockServer.pushLoop m rules w.pushed with
        | mk pushed err =>
          cases err with
          | some err => exact ⟨e1, hq1, he1⟩
          | none => exact ih _ q e1 hq1 he1

theorem Setup_of_built_first (m : mockServer) (uuid : Nat → String) (w : World) (q : Nat)
    (rest : List Nat) (e : Expectation) (hq : w.heap[q]? = some e) (he : e.isBuilt = true) :
    m.Setup uuid w (q :: rest) =
      { world := w, result := Except.error (Abort.panic Expectation.buildMsg) } := by
  rw [Setup_cons, hq]
  simp only [build_of_built uuid _ e he, set_of_getElem? _ _ _ hq]

theorem Setup_with_built_never_succeeds (m : mockServer) (uuid : Nat → String) (qs : List Nat) :
    ∀ (w : World) (q : Nat) (e : Expectation), q ∈ qs → w.heap[q]? = some e →
    e.isBuilt = true → (m.Setup uuid w qs).result ≠ Except.ok none := by
  induction qs with
  | nil => intro w q e hmem; cases hmem
  | cons p rest ih =>
    intro w q e hmem hq he
    by_cases hpq : p = q
    · subst hpq
      rw [Setup_of_built_first m uuid w p rest e hq he]
      simp
    · have hmem1 : q ∈ rest := by
        rcases List.mem_cons.mp hmem with h | h
        · exact absurd h.symm hpq
        · exact h
      rw [Setup_cons]
      cases hp : w.heap[p]? with
      | none => simp
      | some x =>
        simp only
        cases hr : (x.build uuid w.nextUuid).result with
        | error a => simp
        | ok rules =>
          simp only
          cases hl : mockServer.pushLoop m rules w.pushed with
          | mk pushed err =>
            cases err with
            | some err => simp
            | none =>
              simp only
              refine ih _ q e hmem1 ?_ he
              simp only
              rw [List.getElem?_set, if_neg hpq]
              exact hq

/-- The log of the inner loop of `Setup`: the pushes are added behind the earlier ones, and every
push but the last was accepted; the last was accepted too when the loop returns no error. -/
theorem pushLoop_log (m : mockServer) (rules : List client.Expectation) :
    ∀ (pushed0 pushed : List client.Expectation) (e : Option GoError),
    m.pushLoop rules pushed0 = (pushed, e) →
    ∃ new, pushed = pushed0 ++ new ∧
      ∀ (j : Nat) (rule : client.Expectation), new[j]? = some rule →
        (j + 1 < new.length ∨ e = none) →
        m.client.Expectation (pushed0 ++ new.take j) rule = none := by
  induction rules with
  | nil =>
    intro pushed0 pushed e h
    simp only [mockServer.pushLoop, Prod.mk.injEq] at h
    exact ⟨[], by simp [h.1], by simp⟩
  | cons r rest ih =>
    intro pushed0 pushed e h
    rw [mockServer.pushLoop] at h
    cases hc : m.client.Expectation pushed0 r with
    | some cause =>
      rw [hc] at h
      simp only [Prod.mk.injEq] at h
      refine ⟨[r], h.1.symm, ?_⟩
      intro j rule hj hcond
      rcases hcond with hlt | hnone
      · simp at hlt
      · rw [← h.2] at hnone
        simp at hnone
    | none =>
      rw [hc] at h
      obtain ⟨new, hnew, hacc⟩ := ih _ _ _ h
      refine ⟨r :: new, by rw [hnew]; simp, ?_⟩
      intro j rule hj hcond
      cases j with
      | zero =>
        simp only [List.getElem?_cons_zero, Option.some.injEq] at hj
        subst hj
        simpa using hc
      | succ j1 =>
        simp only [List.getElem?_cons_succ] at hj
        have hcond1 : j1 + 1 < new.length ∨ e = none := by
          rcases hcond with hlt | hnone
          · left
            simp only [List.length_cons] at hlt
            omega
          · exact Or.inr hnone
        have := hacc j1 rule hj hcond1
        simpa using this

/-- The log of `Setup`: the pushes are added behind the earlier ones, and every push but the last
was accepted; the last was accepted too unless `Setup` returns an error. -/
theorem Setup_log (m : mockServer) (uuid : Nat → String) (ps : List Nat) :
    ∀ w : World, ∃ new, (m.Setup uuid w ps).world.pushed = w.pushed ++ new ∧
      ∀ (j : Nat) (rule : client.Expectation), new[j]? = some rule →
        (j + 1 < new.length ∨ ∀ err, (m.Setup uuid w ps).result ≠ Except.ok (some err)) →
        m.client.Expectation (w.pushed ++ new.take j) rule = none := by
  induction ps with
  | nil => intro w; exact ⟨[], by simp [mockServer.Setup], by simp⟩
  | cons p rest ih =>
    intro w
    rw [Setup_cons]
    cases hp : w.heap[p]? with
    | none => exact ⟨[], by simp, by simp⟩
    | some x =>
      simp only
      cases hr : (x.build uuid w.nextUuid).result with
      | error a => exact ⟨[], by simp, by simp⟩
      | ok rules =>
        simp only
        cases hl : mockServer.pushLoop m rules w.pushed with
        | mk pushed perr =>
          obtain ⟨new1, hnew1, hacc1⟩ := pushLoop_log m rules w.pushed pushed perr hl
          cases perr with
          | some e1 =>
            simp only
            refine ⟨new1, hnew1, ?_⟩
            intro j rule hj hcond
            rcases hcond with hlt | hno
            · exact hacc1 j rule hj (Or.inl hlt)
            · exact absurd rfl (hno e1)
          | none =>
            simp only
            obtain ⟨new2, hnew2, hacc2⟩ := ih
              { heap := w.heap.set p (x.build uuid w.nextUuid).receiver,
                nextUuid := (x.build uuid w.nextUuid).nextUuid, pushed := pushed }
            refine ⟨new1 ++ new2, by rw [hnew2]; simp [hnew1], ?_⟩
            intro j rule hj hcond
            by_cases hlt : j < new1.length
            · rw [List.getElem?_append_left hlt] at hj
              rw [List.take_append_of_le_length (Nat.le_of_lt hlt)]
              exact hacc1 j rule hj (Or.inr rfl)
            · have hge : new1.length ≤ j := Nat.le_of_not_lt hlt
              rw [List.getElem?_append_right hge] at hj
              have hcond2 : j - new1.length + 1 < new2.length ∨
                  ∀ err, (m.Setup uuid
                    { heap := w.heap.set p (x.build uuid w.nextUuid).receiver,
                      nextUuid := (x.build uuid w.nextUuid).nextUuid, pushed := pushed }
                    rest).result ≠ Except.ok (some err) := by
                rcases hcond with h | h
                · left
                  simp only [List.length_append] at h
                  omega
                · exact Or.inr h
              have := hacc2 (j - new1.length) rule hj hcond2
              simp only [hnew1] at this
              rw [List.take_append_eq_append_take, List.take_of_length_le hge,
                ← List.append_assoc]
              exact this

theorem pushLoop_error_mem (m : mockServer) (rules : List client.Expectation) :
    ∀ (pushed0 pushed : List client.Expectation) (err : GoError),
    m.pushLoop rules pushed0 = (pushed, some err) →
    ∃ rule cause, rule ∈ rules ∧ pushed.getLast? = some rule ∧
      m.client.Expectation pushed.dropLast rule = some cause ∧
      err = GoError.wrapf cause "unable to setup expectation %s" [FmtArg.str rule.ID] := by
  induction rules with
  | nil => intro pushed0 pushed err h; simp [mockServer.pushLoop] at h
  | cons e rest ih =>
    intro pushed0 pushed err h
    rw [mockServer.pushLoop] at h
    cases hc : m.client.Expectation pushed0 e with
    | none =>
      rw [hc] at h
      obtain ⟨rule, cause, hmem, h1, h2, h3⟩ := ih _ _ _ h
      exact ⟨rule, cause, List.mem_cons_of_mem _ hmem, h1, h2, h3⟩
    | some cause =>
      rw [hc] at h
      simp only [Prod.mk.injEq, Option.some.injEq] at h
      obtain ⟨h1, h2⟩ := h
      subst h1
      exact ⟨e, cause, List.mem_cons_self _ _, by simp, by simpa using hc, h2.symm⟩

/-- What an error returned by `Setup` tells: the expectations listed before some expectation `p`
were set up without error, the rules of `p` were compiled, the last rule passed to the registrar is
one of them and was rejected, the error wraps that rejection, the expectations up to `p` are
marked as compiled and the other ones are as before. -/
theorem Setup_failure (m : mockServer) (uuid : Nat → String) (ps : List Nat) :
    ∀ (w w1 : World) (err : GoError),
    m.Setup uuid w ps = { world := w1, result := Except.ok (some err) } →
    ∃ before p after, ps = before ++ p :: after ∧
      (∃ w0 x rules rule cause,
        m.Setup uuid w before = { world := w0, result := Except.ok none } ∧
        w0.heap[p]? = some x ∧ (x.build uuid w0.nextUuid).result = Except.ok rules ∧
        rule ∈ rules ∧ w1.pushed.getLast? = some rule ∧
        m.client.Expectation w1.pushed.dropLast rule = some cause ∧
        err = GoError.wrapf cause "unable to setup expectation %s" [FmtArg.str rule.ID]) ∧
      (∀ q ∈ before ++ [p], ∃ e, w1.heap[q]? = some e ∧ e.isBuilt = true) ∧
      (∀ q, q ∉ before ++ [p] → w1.heap[q]? = w.heap[q]?) := by
  induction ps with
  | nil => intro w w1 err h; simp [mockServer.Setup] at h
  | cons p rest ih =>
    intro w w1 err h
    rw [Setup_cons] at h
    cases hp : w.heap[p]? with
    | none => rw [hp] at h; simp at h
    | some x =>
      rw [hp] at h
      simp only at h
      cases hr : (x.build uuid w.nextUuid).result with
      | error a => rw [hr] at h; simp at h
      | ok rules =>
        rw [hr] at h
        simp only at h
        cases hl : mockServer.pushLoop m rules w.pushed with
        | mk pushed perr =>
          rw [hl] at h
          have hplt : p < w.heap.length := (List.getElem?_eq_some.mp hp).1
          cases perr with
          | some e1 =>
            simp only [CallResult.mk.injEq, Except.ok.injEq, Option.some.injEq] at h
            obtain ⟨hw, herr⟩ := h
            subst hw
            subst herr
            obtain ⟨rule, cause, hmem, hlast, hrej, hwrap⟩ :=
              pushLoop_error_mem m rules w.pushed pushed e1 hl
            refine ⟨[], p, rest, rfl,
              ⟨w, x, rules, rule, cause, rfl, hp, hr, hmem, hlast, hrej, hwrap⟩, ?_, ?_⟩
            · intro q hq
              simp only [List.nil_append, List.mem_singleton] at hq
              subst hq
              refine ⟨_, ?_, build_receiver_isBuilt uuid w.nextUuid x⟩
              simp only
              rw [List.getElem?_set, if_pos rfl, if_pos hplt]
            · intro q hq
              simp only [List.nil_append, List.mem_singleton] at hq
              simp only
              rw [List.getElem?_set, if_neg (Ne.symm hq)]
          | none =>
            simp only at h
            obtain ⟨before, p1, after, hps, horigin, hbuilt, hframe⟩ := ih _ w1 err h
            obtain ⟨w0, x1, rules1, rule, cause, hbefore, hx1, hr1, hmem, hlast, hrej, hwrap⟩ :=
              horigin
            refine ⟨p :: before, p1, after, by rw [hps]; rfl,
              ⟨w0, x1, rules1, rule, cause, ?_, hx1, hr1, hmem, hlast, hrej, hwrap⟩, ?_, ?_⟩
            · rw [Setup_cons, hp]
              simp only [hr, hl]
              exact hbefore
            · intro q hq
              rcases List.mem_cons.mp hq with hq1 | hq1
              · subst hq1
                have hpres := Setup_preserves_built m uuid rest
                  { heap := w.heap.set q (x.build uuid w.nextUuid).receiver,
                    nextUuid := (x.build uuid w.nextUuid).nextUuid, pushed := pushed }
                  q (x.build uuid w.nextUuid).receiver
                  (by simp only; rw [List.getElem?_set, if_pos rfl, if_pos hplt])
                  (build_receiver_isBuilt uuid w.nextUuid x)
                rw [h] at hpres
                exact hpres
              · exact hbuilt q hq1
            · intro q hq
              have hq1 : q ∉ before ++ [p1] := fun hm => hq (List.mem_cons_of_mem _ hm)
              have hq2 : p ≠ q := fun hm => hq (by rw [hm]; exact List.mem_cons_self _ _)
              rw [hframe q hq1]
              simp only
              rw [List.getElem?_set, if_neg hq2]

/-- C25: when the registrar rejects a rule that `Setup` passes to it, `Setup` returns the wrapped
rejection at once: the rejected rule is the last one passed to the registrar, so none of the
remaining rules or expectations is pushed. The rejected rule is one of the rules of some listed
expectation `p`; the expectations listed before `p` were set up, the ones outside `before ++ [p]`
are untouched, and `p` and every expectation before it are marked finalized, so a later `Setup`
that starts with one of them aborts without a push, and a later `Setup` that lists one of them
never succeeds. -/
theorem failed_Setup_cannot_be_retried (m : mockServer) (uuid : Nat → String) (w : World)
    (ps : List Nat) (i : Nat) (rule : client.Expectation) (cause : GoError)
    (hnew : w.pushed.length ≤ i)
    (hpush : (m.Setup uuid w ps).world.pushed[i]? = some rule)
    (hreject : m.client.Expectation ((m.Setup uuid w ps).world.pushed.take i) rule = some cause) :
    (m.Setup uuid w ps).result =
      Except.ok (some (GoError.wrapf cause "unable to setup expectation %s"
        [FmtArg.str rule.ID])) ∧
    (m.Setup uuid w ps).world.pushed.length = i + 1 ∧
    ∃ before p after, ps = before ++ p :: after ∧
      (∃ w0 x rules, m.Setup uuid w before = { world := w0, result := Except.ok none } ∧
        w0.heap[p]? = some x ∧ (x.build uuid w0.nextUuid).result = Except.ok rules ∧
        rule ∈ rules) ∧
      (∀ q, q ∉ before ++ [p] → (m.Setup uuid w ps).world.heap[q]? = w.heap[q]?) ∧
      (∀ q ∈ before ++ [p],
        (∃ e, (m.Setup uuid w ps).world.heap[q]? = some e ∧ e.isBuilt = true) ∧
        (∀ rest, m.Setup uuid (m.Setup uuid w ps).world (q :: rest) =
          { world := (m.Setup uuid w ps).world,
            result := Except.error (Abort.panic Expectation.buildMsg) }) ∧
        (∀ qs, q ∈ qs →
          (m.Setup uuid (m.Setup uuid w ps).world qs).result ≠ Except.ok none)) := by
  obtain ⟨new, hnew1, hacc⟩ := Setup_log m uuid ps w
  have hlen : (m.Setup uuid w ps).world.pushed.length = w.pushed.length + new.length := by
    rw [hnew1, List.length_append]
  have hj : new[i - w.pushed.length]? = some rule := by
    rw [hnew1, List.getElem?_append_right hnew] at hpush
    exact hpush
  have htake : (m.Setup uuid w ps).world.pushed.take i =
      w.pushed ++ new.take (i - w.pushed.length) := by
    rw [hnew1, List.take_append_eq_append_take, List.take_of_length_le hnew]
  have hjlt : i - w.pushed.length < new.length := by
    by_contra hge
    rw [List.getElem?_eq_none (Nat.le_of_not_lt hge)] at hj
    cases hj
  have hlast : ¬ (i - w.pushed.length + 1 < new.length ∨
      ∀ err, (m.Setup uuid w ps).result ≠ Except.ok (some err)) := by
    intro hcond
    have := hacc _ rule hj hcond
    rw [← htake, hreject] at this
    cases this
  have hi : (m.Setup uuid w ps).world.pushed.length = i + 1 := by
    have : ¬ (i - w.pushed.length + 1 < new.length) := fun h => hlast (Or.inl h)
    omega
  have herr : ∃ err, (m.Setup uuid w ps).result = Except.ok (some err) := by
    by_contra hno
    exact hlast (Or.inr (fun err h => hno ⟨err, h⟩))
  obtain ⟨err, herr⟩ := herr
  have hfail : m.Setup uuid w ps =
      { world := (m.Setup uuid w ps).world, result := Except.ok (some err) } := by
    rw [← herr]
  obtain ⟨before, p, after, hps, horigin, hbuilt, hframe⟩ :=
    Setup_failure m uuid ps w _ err hfail
  obtain ⟨w0, x, rules, rule1, cause1, hbefore, hx, hr, hmem, hlast1, hrej1, hwrap⟩ := horigin
  have hrule : rule1 = rule := by
    have h1 : (m.Setup uuid w ps).world.pushed.getLast? =
        (m.Setup uuid w ps).world.pushed[i]? := by
      rw [List.getLast?_eq_getElem?, hi]
      rfl
    rw [h1, hpush] at hlast1
    exact (Option.some.inj hlast1).symm
  subst hrule
  have hdrop : (m.Setup uuid w ps).world.pushed.dropLast =
      (m.Setup uuid w ps).world.pushed.take i := by
    rw [List.dropLast_eq_take, hi]
    rfl
  rw [hdrop, hreject] at hrej1
  have hcause : cause = cause1 := Option.some.inj hrej1
  subst hcause
  refine ⟨by rw [herr, hwrap], hi, before, p, after, hps, ⟨w0, x, rules, hbefore, hx, hr, hmem⟩,
    hframe, ?_⟩
  intro q hq
  obtain ⟨e, he, hb⟩ := hbuilt q hq
  exact ⟨⟨e, he, hb⟩,
    fun rest => Setup_of_built_first m uuid (m.Setup uuid w ps).world q rest e he hb,
    fun qs hmem1 =>
      Setup_with_built_never_succeeds m uuid qs (m.Setup uuid w ps).world q e hmem1 he hb⟩

theorem failed_Setup_cannot_be_retried_witness :
    examplePair.pushed.length ≤ 1 ∧
    (exampleRejecting.Setup exampleUuid examplePair [0, 1]).world.pushed[1]? =
      some (sequentialRule exampleUuid 0 (clientHttpRequest exampleExpectation.request) 3 1
        (WithStatusCode 201 response.zero)) ∧
    exampleRejecting.client.Expectation
        ((exampleRejecting.Setup exampleUuid examplePair [0, 1]).world.pushed.take 1)
        (sequentialRule exampleUuid 0 (clientHttpRequest exampleExpectation.request) 3 1
          (WithStatusCode 201 response.zero)) =
      some (GoError.errorf "unexpected http status 500 instead of 2xx" []) ∧
    (exampleRejecting.Setup exampleUuid examplePair [0, 1]).world.pushed.map
        (fun r => r.ID) = ["uuid-0", "uuid-1"] ∧
    ((exampleRejecting.Setup exampleUuid examplePair [0, 1]).result =
      Except.ok (some (GoError.wrapf
        (GoError.errorf "unexpected http status 500 instead of 2xx" [])
        "unable to setup expectation %s"
        [FmtArg.str (sequentialRule exampleUuid 0 (clientHttpRequest exampleExpectation.request)
          3 1 (WithStatusCode 201 response.zero)).ID])) ∧
    (exampleRejecting.Setup exampleUuid examplePair [0, 1]).world.pushed.length = 1 + 1 ∧
    ∃ before p after, [0, 1] = before ++ p :: after ∧
      (∃ w0 x rules,
        exampleRejecting.Setup exampleUuid examplePair before =
          { world := w0, result := Except.ok none } ∧
        w0.heap[p]? = some x ∧ (x.build exampleUuid w0.nextUuid).result = Except.ok rules ∧
        sequentialRule exampleUuid 0 (clientHttpRequest exampleExpectation.request) 3 1
          (WithStatusCode 201 response.zero) ∈ rules) ∧
      (∀ q, q ∉ before ++ [p] →
        (exampleRejecting.Setup exampleUuid examplePair [0, 1]).world.heap[q]? =
          examplePair.heap[q]?) ∧
      (∀ q ∈ before ++ [p],
        (∃ e, (exampleRejecting.Setup exampleUuid examplePair [0, 1]).world.heap[q]? = some e ∧
          e.isBuilt = true) ∧
        (∀ rest, exampleRejecting.Setup exampleUuid
            (exampleRejecting.Setup exampleUuid examplePair [0, 1]).world (q :: rest) =
          { world := (exampleRejecting.Setup exampleUuid examplePair [0, 1]).world,
            result := Except.error (Abort.panic Expectation.buildMsg) }) ∧
        (∀ qs, q ∈ qs →
          (exampleRejecting.Setup exampleUuid
            (exampleRejecting.Setup exampleUuid examplePair [0, 1]).world qs).result ≠
              Except.ok none))) :=
  ⟨by decide, rfl, rfl, rfl,
    failed_Setup_cannot_be_retried exampleRejecting exampleUuid examplePair [0, 1] 1
      (sequentialRule exampleUuid 0 (clientHttpRequest exampleExpectation.request) 3 1
        (WithStatusCode 201 response.zero))
      (GoError.errorf "unexpected http status 500 instead of 2xx" [])
      (by decide) rfl rfl⟩

/-! ## Theorems: the form decoder on a malformed line -/

/-- C26, counterexample: on the nil map the form decoder returns no failure for the line
`a=1&b=2&c`, two pairs followed by a malformed segment: it aborts at the assignment for the
first pair. -/
theorem form_decoder_on_nil_map_returns_no_failure :
    stringsSplit "a=1&b=2&c" '&' = ["a=1", "b=2"] ++ "c" :: [] ∧
    (∀ seg ∈ ["a=1", "b=2"], seg.toList.count '=' = 1) ∧
    ("c" : String).toList.count '=' ≠ 1 ∧
    WithFormURLEncodedBody.bodyDecoder exampleJson exampleGrowth exampleNilForm
        (exampleFormWrapper (Value.str "a=1&b=2&c")) = Except.error Abort.nilMapAssignment := by
  refine ⟨by decide, by decide, by decide, rfl⟩

/-- C26, amended: for a map that is not nil and whose slices do not share storage, and a wrapper
with the discriminator `STRING` whose line is made of well-formed pairs followed by a malformed
segment (and anything after it), the form decoder returns the failure for that segment, and the map
has been extended with the values of the pairs before the malformed segment and with nothing
else. -/
theorem form_decoder_failure_is_not_atomic (json : EncodingJson) (growth : Nat → Nat)
    (target : FormTarget) (fields : GoMap String Value) (line : String)
    (good : List String) (bad : String) (after : List String)
    (htype : GoMap.get? fields "type" = some (Value.str "STRING"))
    (hline : GoMap.get? fields "string" = some (Value.str line))
    (hsplit : stringsSplit line '&' = good ++ bad :: after)
    (hgood : ∀ seg ∈ good, seg.toList.count '=' = 1)
    (hbad : bad.toList.count '=' ≠ 1)
    (hsep : target.separate) :
    ∃ t1, WithFormURLEncodedBody.bodyDecoder json growth target (Value.obj fields) =
        Except.ok (t1, some (GoError.errorf "form parameter violates requirements %v"
          [FmtArg.strs (stringsSplit bad '=')])) ∧
      ∀ key, GoMap.get? t1.contents key =
        if (good.filter (fun pair => formKey pair = key)).map formValue = [] then
          GoMap.get? target.contents key
        else some ((GoMap.get? target.contents key).getD [] ++
          (good.filter (fun pair => formKey pair = key)).map formValue) := by
  obtain ⟨M1, hM1, hget⟩ := contentsLoop_ok good target.contents hgood
  obtain ⟨t1, ht1, _, hc1⟩ := loop_contents growth (stringsSplit line '&') target hsep
  have hlen : (stringsSplit bad '=').length ≠ 2 := by
    rw [stringsSplit_length]; omega
  rw [hsplit, contentsLoop_append_good good (bad :: after) target.contents hgood, hM1,
    contentsLoop_cons_bad bad after M1 hlen] at ht1 hc1
  refine ⟨t1, ?_, ?_⟩
  · rw [form_decoder_on_wrapper json growth target fields line htype hline, hsplit]
    exact ht1
  · rw [hc1]
    exact hget

theorem form_decoder_failure_is_not_atomic_witness :
    GoMap.get? [("type", Value.str "STRING"), ("string", Value.str "a=1&b&c=3")] "type" =
      some (Value.str "STRING") ∧
    GoMap.get? [("type", Value.str "STRING"), ("string", Value.str "a=1&b&c=3")] "string" =
      some (Value.str "a=1&b&c=3") ∧
    stringsSplit "a=1&b&c=3" '&' = ["a=1"] ++ "b" :: ["c=3"] ∧
    (∀ seg ∈ ["a=1"], seg.toList.count '=' = 1) ∧
    ("b" : String).toList.count '=' ≠ 1 ∧
    exampleFormTarget.separate ∧
    (∃ t1, WithFormURLEncodedBody.bodyDecoder exampleJson exampleGrowth exampleFormTarget
          (Value.obj [("type", Value.str "STRING"), ("string", Value.str "a=1&b&c=3")]) =
        Except.ok (t1, some (GoError.errorf "form parameter violates requirements %v"
          [FmtArg.strs ["b"]])) ∧
      t1.contents = [("a", ["0", "1"])]) ∧
    ∃ t1, WithFormURLEncodedBody.bodyDecoder exampleJson exampleGrowth exampleFormTarget
          (Value.obj [("type", Value.str "STRING"), ("string", Value.str "a=1&b&c=3")]) =
        Except.ok (t1, some (GoError.errorf "form parameter violates requirements %v"
          [FmtArg.strs (stringsSplit "b" '=')])) ∧
      ∀ key, GoMap.get? t1.contents key =
        if (["a=1"].filter (fun pair => formKey pair = key)).map formValue = [] then
          GoMap.get? exampleFormTarget.contents key
        else some ((GoMap.get? exampleFormTarget.contents key).getD [] ++
          (["a=1"].filter (fun pair => formKey pair = key)).map formValue) :=
  ⟨rfl, rfl, (by decide), (by decide), (by decide), exampleFormTarget_separate, ⟨_, rfl, rfl⟩,
    form_decoder_failure_is_not_atomic exampleJson exampleGrowth exampleFormTarget
      [("type", Value.str "STRING"), ("string", Value.str "a=1&b&c=3")] "a=1&b&c=3"
      ["a=1"] "b" ["c=3"] rfl rfl (by decide) (by decide) (by decide)
      exampleFormTarget_separate⟩

end MockServerClient
